import Mathlib

/-!
# mrob: factor graph container, pose-landmark factor, plane fitting, registration

A shallow embedding of `src/FGraph/factor_graph.cpp`,
`src/FGraph/factors/factor1Pose1Landmark3d.cpp`, `src/plane-surfaces/estimate_plane.cpp`,
`estimate_matrix_S` of `mrobpy/PCPlanesPy.cpp`, `src/PCRegistration/weight_point.cpp` and
the data members and inline accessors declared in
`src/PCRegistration/mrob/factors/EigenFactorPlane.hpp`.

Modelling conventions.

* Objects that the C++ code handles through `std::shared_ptr` live in a heap:
  an address is a natural number and the heap maps every address to the
  object stored there.  Containers of shared pointers are lists of addresses.
  This keeps aliasing visible: `set_id` on an object is seen through every
  pointer to it.
* `assert(c && msg)` is a fatal precondition: a failed assertion ends the
  computation with `Err.assertion`.  `std::vector::at` out of range and a
  dynamic-to-fixed size mismatch of a matrix end it with their own error.
* Identities and dimensions (`factor_id_t`, `uint_t`, whose declarations are
  in a header outside the sources at hand) are natural numbers.
* The scalar type `matData_t` is a type parameter `R`.  The factor code and the
  registration loop are embedded over any `R` carrying the arithmetic operations
  they use, with no law assumed, so structural results hold for every
  interpretation of the arithmetic.  Statements about signs, eigenvectors and sums
  are made in exact arithmetic, over a field or a linear ordered field.
* Operations of the Lie-group class and of the linear-algebra library (eigen solver,
  square root, matrix inverse) are parameters of the embedding.  Where a result
  depends on what they return, their documented result is a hypothesis, stated for
  exactly the values the code passes to them.
* Element access to a dynamic matrix is total: the library's own index checks are
  not part of the sources.
-/

namespace mrob

/-! ## Errors -/

/-- The ways in which the embedded code can stop without returning. -/
inductive Err where
  | assertion
  | outOfRange
  | sizeMismatch
  deriving DecidableEq, Repr

/-! ## Matrices -/

/-- Fixed-size 3-vector `Mat31`. -/
abbrev Mat31 (R : Type) := Fin 3 → R

/-- Fixed-size 3x3 matrix `Mat3`. -/
abbrev Mat3 (R : Type) := Fin 3 → Fin 3 → R

/-- Fixed-size 4x4 matrix `Mat4`. -/
abbrev Mat4 (R : Type) := Fin 4 → Fin 4 → R

/-- Dynamic-size matrix `MatX`, as returned by `Node::get_state`. -/
structure MatX (R : Type) where
  rows : Nat
  cols : Nat
  coeff : Nat → Nat → R

/-- A 4x4 matrix seen as a dynamic matrix. -/
def MatX.ofMat4 {R : Type} (fill : R) (T : Mat4 R) : MatX R :=
  { rows := 4, cols := 4,
    coeff := fun i j => if h : i < 4 ∧ j < 4 then T ⟨i, h.1⟩ ⟨j, h.2⟩ else fill }

/-- A 3-vector seen as a dynamic matrix (one column). -/
def MatX.ofMat31 {R : Type} (fill : R) (v : Mat31 R) : MatX R :=
  { rows := 3, cols := 1,
    coeff := fun i _ => if h : i < 3 then v ⟨i, h⟩ else fill }

/-- Assignment of a dynamic matrix to a `Mat4`: the sizes must agree. -/
def MatX.toMat4 {R : Type} (m : MatX R) : Except Err (Mat4 R) :=
  if m.rows = 4 ∧ m.cols = 4 then .ok (fun i j => m.coeff i.val j.val)
  else .error Err.sizeMismatch

/-- Assignment of a dynamic matrix to a `Mat31`: the sizes must agree. -/
def MatX.toMat31 {R : Type} (m : MatX R) : Except Err (Mat31 R) :=
  if m.rows = 3 ∧ m.cols = 1 then .ok (fun i => m.coeff i.val 0)
  else .error Err.sizeMismatch

/-! ## Nodes, factors, eigen factors -/

/-- The operating mode of a node, `Node::nodeMode`. -/
inductive nodeMode where
  | STANDARD
  | ANCHOR
  | SCHUR_MARGI
  deriving DecidableEq, Repr

/-- The part of a `Node` the code at hand reads or writes. -/
structure Node (R : Type) where
  id_ : Nat
  dim_ : Nat
  mode_ : nodeMode
  state_ : MatX R

/-- Method `Node::set_id`. -/
def Node.set_id {R : Type} (n : Node R) (id : Nat) : Node R := { n with id_ := id }

/-- Method `Node::get_id`. -/
def Node.get_id {R : Type} (n : Node R) : Nat := n.id_

/-- Method `Node::get_dim`. -/
def Node.get_dim {R : Type} (n : Node R) : Nat := n.dim_

/-- Method `Node::get_node_mode`. -/
def Node.get_node_mode {R : Type} (n : Node R) : nodeMode := n.mode_

/-- Method `Node::get_state`. -/
def Node.get_state {R : Type} (n : Node R) : MatX R := n.state_

/-- The part of the base class `Factor` the graph container reads or writes. -/
structure Factor where
  id_ : Nat
  dimObs_ : Nat

/-- Method `Factor::set_id`. -/
def Factor.set_id (f : Factor) (id : Nat) : Factor := { f with id_ := id }

/-- Method `Factor::get_id`. -/
def Factor.get_id (f : Factor) : Nat := f.id_

/-- Method `Factor::get_dim_obs`. -/
def Factor.get_dim_obs (f : Factor) : Nat := f.dimObs_

/-- The part of the base class `EigenFactor` the graph container reads or writes. -/
structure EigenFactor where
  id_ : Nat

/-- Method `EigenFactor::set_id`. -/
def EigenFactor.set_id (f : EigenFactor) (id : Nat) : EigenFactor := { f with id_ := id }

/-- Method `EigenFactor::get_id`. -/
def EigenFactor.get_id (f : EigenFactor) : Nat := f.id_

/-! ## The graph container -/

/-- The data members of `FGraph`; the vectors hold addresses. -/
structure FGraph where
  nodes_ : List Nat
  active_nodes_ : List Nat
  factors_ : List Nat
  eigen_factors_ : List Nat
  stateDim_ : Nat
  obsDim_ : Nat
  deriving DecidableEq, Repr

/-- The program state: the three heaps of shared objects and one graph. -/
structure World (R : Type) where
  nodeAt : Nat → Node R
  factorAt : Nat → Factor
  eigenFactorAt : Nat → EigenFactor
  graph : FGraph

/-- Constructor `FGraph::FGraph()`: empty vectors, both dimensions zero. -/
def FGraph.empty : FGraph :=
  { nodes_ := [], active_nodes_ := [], factors_ := [], eigen_factors_ := [],
    stateDim_ := 0, obsDim_ := 0 }

/-- A freshly constructed graph next to the objects the caller already owns. -/
def World.init {R : Type} (nodeAt : Nat → Node R) (factorAt : Nat → Factor)
    (eigenFactorAt : Nat → EigenFactor) : World R :=
  { nodeAt := nodeAt, factorAt := factorAt, eigenFactorAt := eigenFactorAt,
    graph := FGraph.empty }

/-- Method `FGraph::add_factor`; `factor` is the address held by the shared pointer. -/
def FGraph.add_factor {R : Type} (w : World R) (factor : Nat) : Except Err (World R × Nat) :=
  let factorAt1 := Function.update w.factorAt factor
    ((w.factorAt factor).set_id w.graph.factors_.length)
  let g1 := { w.graph with factors_ := w.graph.factors_ ++ [factor] }
  let g2 := { g1 with obsDim_ := g1.obsDim_ + (factorAt1 factor).get_dim_obs }
  .ok ({ w with factorAt := factorAt1, graph := g2 }, (factorAt1 factor).get_id)

/-- Method `FGraph::add_eigen_factor`. -/
def FGraph.add_eigen_factor {R : Type} (w : World R) (factor : Nat) :
    Except Err (World R × Nat) :=
  let eigenAt1 := Function.update w.eigenFactorAt factor
    ((w.eigenFactorAt factor).set_id w.graph.eigen_factors_.length)
  let g1 := { w.graph with eigen_factors_ := w.graph.eigen_factors_ ++ [factor] }
  .ok ({ w with eigenFactorAt := eigenAt1, graph := g1 }, (eigenAt1 factor).get_id)

/-- Method `FGraph::add_node`. -/
def FGraph.add_node {R : Type} (w : World R) (node : Nat) : Except Err (World R × Nat) :=
  let nodeAt1 := Function.update w.nodeAt node ((w.nodeAt node).set_id w.graph.nodes_.length)
  let g1 := { w.graph with nodes_ := w.graph.nodes_ ++ [node] }
  match (nodeAt1 node).get_node_mode with
  | nodeMode.STANDARD =>
      let g2 := { g1 with active_nodes_ := g1.active_nodes_ ++ [node] }
      let g3 := { g2 with stateDim_ := g2.stateDim_ + (nodeAt1 node).get_dim }
      .ok ({ w with nodeAt := nodeAt1, graph := g3 }, (nodeAt1 node).get_id)
  | nodeMode.ANCHOR =>
      .ok ({ w with nodeAt := nodeAt1, graph := g1 }, (nodeAt1 node).get_id)
  | nodeMode.SCHUR_MARGI => .error Err.assertion

/-- Method `FGraph::get_node`: the address stored at `key`. -/
def FGraph.get_node (g : FGraph) (key : Nat) : Except Err Nat :=
  if h : key < g.nodes_.length then .ok (g.nodes_.get ⟨key, h⟩) else .error Err.assertion

/-- Method `FGraph::get_factor`: the address stored at `key`. -/
def FGraph.get_factor (g : FGraph) (key : Nat) : Except Err Nat :=
  if h : key < g.factors_.length then .ok (g.factors_.get ⟨key, h⟩) else .error Err.assertion

/-- Method `FGraph::get_eigen_factor`: the address stored at `key`. -/
def FGraph.get_eigen_factor (g : FGraph) (key : Nat) : Except Err Nat :=
  if h : key < g.eigen_factors_.length then .ok (g.eigen_factors_.get ⟨key, h⟩)
  else .error Err.assertion

/-! ## Sequences of calls on a graph -/

/-- One insertion call together with the address passed to it. -/
inductive Call where
  | add_node (node : Nat)
  | add_factor (factor : Nat)
  | add_eigen_factor (factor : Nat)
  deriving DecidableEq, Repr

/-- Perform one call. -/
def Call.exec {R : Type} (w : World R) : Call → Except Err (World R × Nat)
  | Call.add_node p => FGraph.add_node w p
  | Call.add_factor p => FGraph.add_factor w p
  | Call.add_eigen_factor p => FGraph.add_eigen_factor w p

/-- Perform a sequence of calls, first call first; a fatal failure ends the run. -/
def run {R : Type} (w : World R) : List Call → Except Err (World R)
  | [] => .ok w
  | c :: cs =>
      match c.exec w with
      | .ok (w1, _) => run w1 cs
      | .error e => .error e

/-- The addresses passed to `add_node`, in call order. -/
def nodeArgs : List Call → List Nat
  | [] => []
  | Call.add_node p :: cs => p :: nodeArgs cs
  | _ :: cs => nodeArgs cs

/-- The addresses passed to `add_factor`, in call order. -/
def factorArgs : List Call → List Nat
  | [] => []
  | Call.add_factor p :: cs => p :: factorArgs cs
  | _ :: cs => factorArgs cs

/-- The addresses passed to `add_eigen_factor`, in call order. -/
def eigenFactorArgs : List Call → List Nat
  | [] => []
  | Call.add_eigen_factor p :: cs => p :: eigenFactorArgs cs
  | _ :: cs => eigenFactorArgs cs

/-- Sum of `get_dim()` over the listed nodes whose mode is `STANDARD`. -/
def standardDimSum {R : Type} (nodeAt : Nat → Node R) : List Nat → Nat
  | [] => 0
  | p :: ps =>
      (if (nodeAt p).get_node_mode = nodeMode.STANDARD then (nodeAt p).get_dim else 0)
        + standardDimSum nodeAt ps

/-- Sum of `get_dim_obs()` over the listed factors. -/
def obsDimSum (factorAt : Nat → Factor) : List Nat → Nat
  | [] => 0
  | p :: ps => (factorAt p).get_dim_obs + obsDimSum factorAt ps

/-! ## The pose-landmark factor -/

/-- The operations of the Lie-group class `SE3` that the factor calls.  The class is
outside the sources at hand, so its operations are a parameter of the embedding:
`ofMat4` is the constructor `SE3(const Mat4&)`, `inv` is `SE3::inv`, `transform` is
`SE3::transform`, `rot` is `SE3::R` and `mat` is `SE3::T`. -/
structure SE3Ops (R : Type) where
  SE3 : Type
  ofMat4 : Mat4 R → SE3
  inv : SE3 → SE3
  transform : SE3 → Mat31 R → Mat31 R
  rot : SE3 → Mat3 R
  mat : SE3 → Mat4 R

/-- Product of a 3x3 matrix and a 3-vector, `W * r`. -/
def mulVec3 {R : Type} [Add R] [Mul R] (W : Mat3 R) (v : Mat31 R) : Mat31 R :=
  fun i => W i 0 * v 0 + W i 1 * v 1 + W i 2 * v 2

/-- Inner product of two 3-vectors, `a.dot(b)`. -/
def dot3 {R : Type} [Add R] [Mul R] (a b : Mat31 R) : R :=
  a 0 * b 0 + a 1 * b 1 + a 2 * b 2

/-- Difference of two 3-vectors, coefficient by coefficient. -/
def sub3 {R : Type} [Sub R] (a b : Mat31 R) : Mat31 R := fun i => a i - b i

/-- Range-checked element access `std::vector::at`. -/
def vectorAt (v : List Nat) (i : Nat) : Except Err Nat :=
  match v[i]? with
  | some p => .ok p
  | none => .error Err.outOfRange

/-- The data members of `Factor1Pose1Landmark3d`, those of the base class `Factor`
first; `S` is the type of `SE3` values and the neighbour list holds addresses. -/
structure Factor1Pose1Landmark3d (R : Type) (S : Type) where
  id_ : Nat
  dimObs_ : Nat
  allNodesDim_ : Nat
  robust_type_ : Nat
  neighbourNodes_ : List Nat
  chi2_ : R
  obs_ : Mat31 R
  r_ : Mat31 R
  landmark_ : Mat31 R
  Tinv_ : S
  W_ : Mat3 R
  J_ : Fin 3 → Fin 9 → R
  reversedNodeOrder_ : Bool

/-- Constructor `Factor1Pose1Landmark3d::Factor1Pose1Landmark3d`.  `nodePose` and
`nodeLandmark` are the addresses held by the two shared pointers; `storage` gives the
contents of the members that the constructor does not write. -/
def Factor1Pose1Landmark3d.new {R S : Type} (nodeAt : Nat → Node R)
    (storage : Factor1Pose1Landmark3d R S) (observation : Mat31 R) (nodePose : Nat)
    (nodeLandmark : Nat) (obsInf : Mat3 R) (_initializeLandmark : Bool)
    (robust_type : Nat) : Factor1Pose1Landmark3d R S :=
  let f0 : Factor1Pose1Landmark3d R S :=
    { storage with
      dimObs_ := 3, allNodesDim_ := 9, robust_type_ := robust_type, neighbourNodes_ := [],
      obs_ := observation, W_ := obsInf, reversedNodeOrder_ := false }
  if (nodeAt nodePose).get_id < (nodeAt nodeLandmark).get_id then
    { f0 with neighbourNodes_ := (f0.neighbourNodes_ ++ [nodePose]) ++ [nodeLandmark] }
  else
    { f0 with
      neighbourNodes_ := (f0.neighbourNodes_ ++ [nodeLandmark]) ++ [nodePose],
      reversedNodeOrder_ := true }

/-- Method `Factor1Pose1Landmark3d::evaluate_residuals`. -/
def Factor1Pose1Landmark3d.evaluate_residuals {R : Type} [Sub R] (ops : SE3Ops R)
    (nodeAt : Nat → Node R) (f : Factor1Pose1Landmark3d R ops.SE3) :
    Except Err (Factor1Pose1Landmark3d R ops.SE3) :=
  let poseIndex : Nat := if f.reversedNodeOrder_ then 1 else 0
  let landmarkIndex : Nat := if f.reversedNodeOrder_ then 0 else 1
  do
    let poseNode ← vectorAt f.neighbourNodes_ poseIndex
    let Tx ← (nodeAt poseNode).get_state.toMat4
    let Tinv := ops.inv (ops.ofMat4 Tx)
    let landmarkNode ← vectorAt f.neighbourNodes_ landmarkIndex
    let landmark ← (nodeAt landmarkNode).get_state.toMat31
    pure { f with
      Tinv_ := Tinv, landmark_ := landmark,
      r_ := sub3 (ops.transform Tinv landmark) f.obs_ }

/-- Method `Factor1Pose1Landmark3d::evaluate_chi2`. -/
def Factor1Pose1Landmark3d.evaluate_chi2 {R S : Type} [Add R] [Mul R] [OfScientific R]
    (f : Factor1Pose1Landmark3d R S) : Factor1Pose1Landmark3d R S :=
  { f with chi2_ := (0.5 : R) * dot3 f.r_ (mulVec3 f.W_ f.r_) }

/-- Modelled from the spec: the consumed manifold operations (transform a point by a
pose, invert a pose, extract the rotation block) on rigid transforms stored as 4x4
homogeneous matrices with rotation block `Rot` and translation column `t`: the inverse
has rotation block `Rot` transposed and translation minus `Rot` transposed times `t`,
and a point `p` is transformed to `Rot p + t`. -/
def rigidOps (K : Type) [Field K] : SE3Ops K where
  SE3 := Mat4 K
  ofMat4 := fun T => T
  inv := fun T =>
    ![![T 0 0, T 1 0, T 2 0, -(T 0 0 * T 0 3 + T 1 0 * T 1 3 + T 2 0 * T 2 3)],
      ![T 0 1, T 1 1, T 2 1, -(T 0 1 * T 0 3 + T 1 1 * T 1 3 + T 2 1 * T 2 3)],
      ![T 0 2, T 1 2, T 2 2, -(T 0 2 * T 0 3 + T 1 2 * T 1 3 + T 2 2 * T 2 3)],
      ![0, 0, 0, 1]]
  transform := fun T p =>
    ![T 0 0 * p 0 + T 0 1 * p 1 + T 0 2 * p 2 + T 0 3,
      T 1 0 * p 0 + T 1 1 * p 1 + T 1 2 * p 2 + T 1 3,
      T 2 0 * p 0 + T 2 1 * p 1 + T 2 2 * p 2 + T 2 3]
  rot := fun T => ![![T 0 0, T 0 1, T 0 2], ![T 1 0, T 1 1, T 1 2], ![T 2 0, T 2 1, T 2 2]]
  mat := fun T => T

/-- Modelled from the spec: the skew-symmetric hat operator `hat3`, declared outside the
sources, mapping a 3-vector to its cross-product matrix. -/
def hat3 {R : Type} [Zero R] [Neg R] (v : Mat31 R) : Mat3 R :=
  ![![0, -v 2, v 1], ![v 2, 0, -v 0], ![-v 1, v 0, 0]]

/-- Sum of four terms, in index order. -/
def sum4 {R : Type} [Add R] (f : Fin 4 → R) : R := f 0 + f 1 + f 2 + f 3

/-- The 4x6 matrix `Jr` of `evaluate_jacobians`: zero, with `hat3(landmark_)` written to
the top left corner and `-Mat3::Identity()` to the top right corner. -/
def Factor1Pose1Landmark3d.Jr {R : Type} [Zero R] [One R] [Neg R] (landmark : Mat31 R) :
    Fin 4 → Fin 6 → R :=
  fun m k =>
    if hm : m.val < 3 then
      if hk : k.val < 3 then hat3 landmark ⟨m.val, hm⟩ ⟨k.val, hk⟩
      else - (if m.val + 3 = k.val then (1 : R) else 0)
    else 0

/-- The block `(Tinv_.T() * Jr).topLeftCorner<3,6>()` of `evaluate_jacobians`. -/
def Factor1Pose1Landmark3d.poseBlock {R : Type} [Zero R] [One R] [Add R] [Mul R] [Neg R]
    (ops : SE3Ops R) (Tinv : ops.SE3) (landmark : Mat31 R) : Fin 3 → Fin 6 → R :=
  fun a k =>
    sum4 (fun m => ops.mat Tinv a.castSucc m * Factor1Pose1Landmark3d.Jr landmark m k)

/-- Assignment to a block of columns of the 3x9 matrix `J_`: the `w` columns from column
`start` on take the columns of `B`, the other columns stay. -/
def setCols {R : Type} {w : Nat} (J : Fin 3 → Fin 9 → R) (start : Nat)
    (B : Fin 3 → Fin w → R) : Fin 3 → Fin 9 → R :=
  fun a c => if h : start ≤ c.val ∧ c.val - start < w then B a ⟨c.val - start, h.2⟩ else J a c

/-- Method `Factor1Pose1Landmark3d::evaluate_jacobians`. -/
def Factor1Pose1Landmark3d.evaluate_jacobians {R : Type} [Zero R] [One R] [Add R] [Mul R]
    [Neg R] (ops : SE3Ops R) (f : Factor1Pose1Landmark3d R ops.SE3) :
    Factor1Pose1Landmark3d R ops.SE3 :=
  if f.reversedNodeOrder_ then
    { f with
      J_ := setCols (setCols f.J_ 0 (ops.rot f.Tinv_)) 3
        (Factor1Pose1Landmark3d.poseBlock ops f.Tinv_ f.landmark_) }
  else
    { f with
      J_ := setCols (setCols f.J_ 0 (Factor1Pose1Landmark3d.poseBlock ops f.Tinv_ f.landmark_))
        6 (ops.rot f.Tinv_) }

/-- The exchange of the column blocks of a 3x9 Jacobian: columns 0-2 go to 6-8 and
columns 3-8 go to 0-5. -/
def swapBlocks (c : Fin 9) : Fin 9 :=
  if h : c.val < 3 then ⟨c.val + 6, by omega⟩ else ⟨c.val - 3, by omega⟩

/-! ## Plane fitting -/

/-- Fixed-size 4-vector `Mat41`. -/
abbrev Mat41 (R : Type) := Fin 4 → R

/-- Fixed-size row 3-vector `Mat13`. -/
abbrev Mat13 (R : Type) := Fin 3 → R

/-- The operations of the linear-algebra library that the plane fitters call.  The
library is not part of the sources, so its operations are a parameter of the embedding:
`sqrt` is the square root inside `norm()`, `eigenvectors3_col0 C` is
`SelfAdjointEigenSolver<Mat3>().computeDirect(C).eigenvectors().col(0)` and
`eigenvectors4_col0 Q` is `SelfAdjointEigenSolver<Mat4>(Q).eigenvectors().col(0)`. -/
structure EigenOps (K : Type) where
  sqrt : K → K
  eigenvectors3_col0 : Mat3 K → Mat31 K
  eigenvectors4_col0 : Mat4 K → Mat41 K

/-- Row `i` of an `N x 3` array, as a 3-vector. -/
def MatX.row3 {K : Type} (X : MatX K) (i : Nat) : Mat31 K := fun j => X.coeff i j.val

/-- Expression `X.colwise().sum()` on an array with three columns. -/
def MatX.colwise_sum {K : Type} [AddCommMonoid K] (X : MatX K) : Mat13 K :=
  fun j => Finset.sum (Finset.range X.rows) (fun i => X.coeff i j.val)

/-- The first three coefficients of a 4-vector, `head<3>()`. -/
def head3 {K : Type} (p : Mat41 K) : Mat31 K := ![p 0, p 1, p 2]

/-- The centre `c` computed by `estimate_plane_centered` and `estimate_centroid`:
the column sums divided by the number of rows. -/
def centroidOf {K : Type} [Field K] (X : MatX K) : Mat13 K :=
  fun j => X.colwise_sum j / (X.rows : K)

/-- The matrix `C = qx.transpose() * qx` of `estimate_plane_centered`, where
`qx = X.rowwise() - c`. -/
def centeredC {K : Type} [Field K] (X : MatX K) : Mat3 K :=
  let c := centroidOf X
  let qx : Nat → Fin 3 → K := fun i j => X.coeff i j.val - c j
  fun a b => Finset.sum (Finset.range X.rows) (fun i => qx i a * qx i b)

/-- Local function `estimate_plane_centered`. -/
def estimate_plane_centered {K : Type} [Field K] (ops : EigenOps K) (X : MatX K) : Mat41 K :=
  let c := centroidOf X
  let C := centeredC X
  let normal := ops.eigenvectors3_col0 C
  let d := - dot3 c normal
  ![normal 0, normal 1, normal 2, d]

/-- The matrix `Q` assembled by `estimate_plane_homogeneous`: `X.transpose() * X` in
the top left corner, the column sums in the last column and the last row, and the
number of rows in the last place. -/
def homogeneousQ {K : Type} [Field K] (X : MatX K) : Mat4 K :=
  let c := X.colwise_sum
  let XtX : Mat3 K := fun a b =>
    Finset.sum (Finset.range X.rows) (fun i => X.coeff i a.val * X.coeff i b.val)
  ![![XtX 0 0, XtX 0 1, XtX 0 2, c 0],
    ![XtX 1 0, XtX 1 1, XtX 1 2, c 1],
    ![XtX 2 0, XtX 2 1, XtX 2 2, c 2],
    ![c 0, c 1, c 2, (X.rows : K)]]

/-- The value `scale = plane.head<3>().norm()` of `estimate_plane_homogeneous`. -/
def homogeneousScale {K : Type} [Field K] (ops : EigenOps K) (X : MatX K) : K :=
  let plane := ops.eigenvectors4_col0 (homogeneousQ X)
  ops.sqrt (dot3 (head3 plane) (head3 plane))

/-- Local function `estimate_plane_homogeneous`. -/
def estimate_plane_homogeneous {K : Type} [Field K] (ops : EigenOps K) (X : MatX K) :
    Mat41 K :=
  let plane := ops.eigenvectors4_col0 (homogeneousQ X)
  let scale := homogeneousScale ops X
  fun i => plane i / scale

/-- Function `mrob::estimate_plane`. -/
def estimate_plane {K : Type} [Field K] (ops : EigenOps K) (X : MatX K)
    (flagCentered : Bool) : Except Err (Mat41 K) :=
  if X.cols ≠ 3 then .error Err.assertion
  else if ¬ 3 ≤ X.rows then .error Err.assertion
  else if flagCentered then .ok (estimate_plane_centered ops X)
  else .ok (estimate_plane_homogeneous ops X)

/-- Modelled from the spec: the default value of the argument `flagCentered` of
`estimate_plane`, declared in a header outside the sources; the spec gives the
binding-surface operation as fit-plane(points, centered: bool = true). -/
def flagCenteredDefault : Bool := true

/-- Function `mrob::estimate_normal`. -/
def estimate_normal {K : Type} [Field K] (ops : EigenOps K) (X : MatX K) :
    Except Err (Mat31 K) :=
  match estimate_plane ops X flagCenteredDefault with
  | .ok res => .ok (head3 res)
  | .error e => .error e

/-- Function `mrob::estimate_centroid`. -/
def estimate_centroid {K : Type} [Field K] (X : MatX K) : Except Err (Mat31 K) :=
  if X.cols ≠ 3 then .error Err.assertion
  else if ¬ 3 ≤ X.rows then .error Err.assertion
  else .ok (centroidOf X)

/-- The homogeneous point `pHomog` of `estimate_matrix_S` at row `i`. -/
def pHomogOf {K : Type} [One K] (pointsArray : MatX K) (i : Nat) : Mat41 K :=
  ![pointsArray.coeff i 0, pointsArray.coeff i 1, pointsArray.coeff i 2, 1]

/-- Function `estimate_matrix_S` of the binding layer: the loop adds the outer product
of each homogeneous point to `S`, which starts at zero. -/
def estimate_matrix_S {K : Type} [Field K] (pointsArray : MatX K) : Except Err (Mat4 K) :=
  if pointsArray.cols ≠ 3 then .error Err.assertion
  else
    .ok ((List.range pointsArray.rows).foldl
      (fun S i => fun a b => S a b + pHomogOf pointsArray i a * pHomogOf pointsArray i b)
      (fun _ _ => 0))

/-- The documented result of the self-adjoint eigen solver, read for column 0: a vector
of norm one that is an eigenvector of `A`, for an eigenvalue that is least among the
eigenvalues of `A`. -/
def IsMinEigenvector {K : Type} [LinearOrderedField K] {n : Nat} (A : Fin n → Fin n → K)
    (v : Fin n → K) : Prop :=
  Matrix.dotProduct v v = 1 ∧
    ∃ lam, Matrix.mulVec (Matrix.of A) v = lam • v ∧
      ∀ (mu : K) (w : Fin n → K), w ≠ 0 → Matrix.mulVec (Matrix.of A) w = mu • w → lam ≤ mu

/-- The value `s` is the non-negative square root of `x`. -/
def IsSqrt {K : Type} [LinearOrderedField K] (x s : K) : Prop := 0 ≤ s ∧ s * s = x

/-- The library operations meet their documented results on the values that the two
plane fitters pass to them for the input `X`. -/
structure EigenOps.SoundAt {K : Type} [LinearOrderedField K] (ops : EigenOps K) (X : MatX K) :
    Prop where
  eig3 : IsMinEigenvector (centeredC X) (ops.eigenvectors3_col0 (centeredC X))
  eig4 : IsMinEigenvector (homogeneousQ X) (ops.eigenvectors4_col0 (homogeneousQ X))
  sqrt :
    IsSqrt
      (dot3 (head3 (ops.eigenvectors4_col0 (homogeneousQ X)))
        (head3 (ops.eigenvectors4_col0 (homogeneousQ X))))
      (homogeneousScale ops X)

/-- The sum of the outer products of the first `N` vectors of the family `u`. -/
def gram {K : Type} [Field K] {n : Nat} (u : Nat → Fin n → K) (N : Nat) : Fin n → Fin n → K :=
  fun a b => Finset.sum (Finset.range N) (fun i => u i a * u i b)

/-- An `N x 3` array given by its rows. -/
def MatX.ofRows {K : Type} [Zero K] (rows : List (Mat31 K)) : MatX K :=
  { rows := rows.length, cols := 3,
    coeff := fun i j => if h : j < 3 then (rows.getD i (fun _ => 0)) ⟨j, h⟩ else 0 }

/-- The points are not all on one line: three of the rows span a proper triangle. -/
def NonCollinear {K : Type} [Field K] (X : MatX K) : Prop :=
  ∃ i j k, i < X.rows ∧ j < X.rows ∧ k < X.rows ∧
    crossProduct (X.row3 j - X.row3 i) (X.row3 k - X.row3 i) ≠ 0

/-- Every row of `X` lies on the plane `n . x + d = 0`. -/
def OnPlane {K : Type} [Field K] (X : MatX K) (n : Mat31 K) (d : K) : Prop :=
  ∀ i, i < X.rows → dot3 n (X.row3 i) + d = 0

/-- The plane 4-vector with normal `n` and offset `d`. -/
def planeOf {K : Type} (n : Mat31 K) (d : K) : Mat41 K := ![n 0, n 1, n 2, d]

/-- Two plane 4-vectors are equal up to a global sign flip. -/
def SameUpToSign {K : Type} [Field K] (p q : Mat41 K) : Prop := p = q ∨ p = fun i => - q i

/-! ## Weighted point registration -/

/-- Fixed-size 6x6 matrix `Mat6`. -/
abbrev Mat6 (R : Type) := Fin 6 → Fin 6 → R

/-- Fixed-size 6-vector `Mat61`. -/
abbrev Mat61 (R : Type) := Fin 6 → R

/-- The operations that `weighted_point` calls on the Lie-group class `SE3` and on the
linear-algebra library, both outside the sources at hand, as a parameter of the
embedding: `transform` is `SE3::transform`, `update_lhs` is `SE3::update_lhs`, `inverse`
is the 6x6 matrix inverse, `norm` is the norm of a 6-vector and `gt` is the comparison
`>` of two scalars. -/
structure RegistrationOps (R : Type) where
  SE3 : Type
  transform : SE3 → Mat31 R → Mat31 R
  update_lhs : SE3 → Mat61 R → SE3
  inverse : Mat6 R → Mat6 R
  norm : Mat61 R → R
  gt : R → R → Bool

/-- Sum of three terms, in index order. -/
def sum3 {R : Type} [Add R] (f : Fin 3 → R) : R := f 0 + f 1 + f 2

/-- Sum of six terms, in index order. -/
def sum6 {R : Type} [Add R] (f : Fin 6 → R) : R := f 0 + f 1 + f 2 + f 3 + f 4 + f 5

/-- The 3x6 matrix `Jr << hat3(Txi), -Mat3::Identity()`. -/
def weighted_point.Jr {R : Type} [Zero R] [One R] [Neg R] (Txi : Mat31 R) :
    Fin 3 → Fin 6 → R :=
  fun a k =>
    if h : k.val < 3 then hat3 Txi a ⟨k.val, h⟩
    else - (if a.val + 3 = k.val then (1 : R) else 0)

/-- The inner `for` loop of `weighted_point`: starting from zero, it adds the row
`Ji = weight(i) * r.transpose() * Jr` to `J` and the matrix
`Hi = weight(i) * Jr.transpose() * Jr` to `H`, for each correspondence in turn. -/
def weighted_point.accumulate {R : Type} [Zero R] [One R] [Add R] [Sub R] [Mul R] [Neg R]
    (ops : RegistrationOps R) (X Y weight : MatX R) (T : ops.SE3) (N : Nat) :
    Mat61 R × Mat6 R :=
  (List.range N).foldl
    (fun (JH : Mat61 R × Mat6 R) i =>
      let Txi := ops.transform T (X.row3 i)
      let r : Mat31 R := fun a => Y.coeff i a.val - Txi a
      let Jr := weighted_point.Jr Txi
      let Ji : Mat61 R := fun k => sum3 (fun a => (weight.coeff i 0 * r a) * Jr a k)
      let Hi : Mat6 R := fun k l => sum3 (fun a => (weight.coeff i 0 * Jr a k) * Jr a l)
      (fun k => JH.1 k + Ji k, fun k l => JH.2 k l + Hi k l))
    (fun _ => 0, fun _ _ => 0)

/-- The increment `dxi = -H.inverse() * J` of one pass of `weighted_point`. -/
def weighted_point.dxi {R : Type} [Zero R] [One R] [Add R] [Sub R] [Mul R] [Neg R]
    (ops : RegistrationOps R) (X Y weight : MatX R) (T : ops.SE3) (N : Nat) : Mat61 R :=
  let JH := weighted_point.accumulate ops X Y weight T N
  fun k => sum6 (fun l => (- ops.inverse JH.2 k l) * JH.1 l)

/-- The `do ... while` loop of `weighted_point`, entered with transform `T` and counter
`iters`: one pass, then the test `deltaUpdate > tol && iters < 20`. -/
def weighted_point.loop {R : Type} [Zero R] [One R] [Add R] [Sub R] [Mul R] [Neg R]
    (ops : RegistrationOps R) (X Y weight : MatX R) (tol : R) (N : Nat) (T : ops.SE3)
    (iters : Nat) : ops.SE3 × Nat :=
  let dxi := weighted_point.dxi ops X Y weight T N
  let T1 := ops.update_lhs T dxi
  let deltaUpdate := ops.norm dxi
  let iters1 := iters + 1
  if ops.gt deltaUpdate tol = true ∧ iters1 < 20 then
    weighted_point.loop ops X Y weight tol N T1 iters1
  else (T1, iters1)
termination_by 20 - iters
decreasing_by omega

/-- Method `PCRegistration::weighted_point`: returns the transform left in `T` and the
number of iterations. -/
def weighted_point {R : Type} [Zero R] [One R] [Add R] [Sub R] [Mul R] [Neg R]
    (ops : RegistrationOps R) (X Y weight : MatX R) (T : ops.SE3) (tol : R) :
    Except Err (ops.SE3 × Nat) :=
  if X.cols ≠ 3 then .error Err.assertion
  else if ¬ 3 ≤ X.rows then .error Err.assertion
  else if Y.rows ≠ X.rows then .error Err.assertion
  else .ok (weighted_point.loop ops X Y weight tol X.rows T 0)

/-- The 4x4 eigen solve used by the plane eigen factor, a parameter of the embedding:
`eigenvalue0 Q` is `eigenvalues()(0)` and `eigenvector0 Q` is `eigenvectors().col(0)`
of the self-adjoint eigen solver run on `Q`. -/
structure PlaneEigenSolver (K : Type) where
  eigenvalue0 : Matrix (Fin 4) (Fin 4) K → K
  eigenvector0 : Matrix (Fin 4) (Fin 4) K → Mat41 K

/-- The data members of `EigenFactorPlane` that the plane estimate uses, as declared in
`EigenFactorPlane.hpp`; the maps are keyed by node identity and the observing nodes are
listed by their identities. -/
structure EigenFactorPlane (K : Type) where
  planeNodes_ : List Nat
  allPlanePoints_ : Nat → List (Mat31 K)
  S_ : Nat → Option (Matrix (Fin 4) (Fin 4) K)
  Q_ : Nat → Option (Matrix (Fin 4) (Fin 4) K)
  accumulatedQ_ : Matrix (Fin 4) (Fin 4) K
  planeEstimation_ : Mat41 K
  planeError_ : K
  numberPoints_ : Nat

/-- Modelled from the spec: the state a newly constructed `EigenFactorPlane` starts
from (the constructor is outside the sources): no observing node, no point, empty
maps. -/
def EigenFactorPlane.new {K : Type} [Field K] : EigenFactorPlane K :=
  { planeNodes_ := [], allPlanePoints_ := fun _ => [], S_ := fun _ => none,
    Q_ := fun _ => none, accumulatedQ_ := 0, planeEstimation_ := fun _ => 0,
    planeError_ := 0, numberPoints_ := 0 }

/-- Modelled from the spec: method `add_point`, whose body is outside the sources:
it appends the point to the collection of the node (given by its identity); a node seen
for the first time joins the observing nodes; `S` is not recomputed. -/
def EigenFactorPlane.add_point {K : Type} (f : EigenFactorPlane K) (p : Mat31 K)
    (node : Nat) : EigenFactorPlane K :=
  { f with
    planeNodes_ := if node ∈ f.planeNodes_ then f.planeNodes_ else f.planeNodes_ ++ [node],
    allPlanePoints_ := Function.update f.allPlanePoints_ node (f.allPlanePoints_ node ++ [p]),
    numberPoints_ := f.numberPoints_ + 1 }

/-- Modelled from the spec: the matrix `S` of one node, the sum over its points of the
outer product of `[x, y, z, 1]` with itself. -/
def EigenFactorPlane.matrixS {K : Type} [Field K] (points : List (Mat31 K)) :
    Matrix (Fin 4) (Fin 4) K :=
  (points.map (fun p =>
    Matrix.vecMulVec (![p 0, p 1, p 2, 1] : Mat41 K) ![p 0, p 1, p 2, 1])).sum

/-- Modelled from the spec: method `calculate_all_matrices_S`, whose body is outside the
sources: for each observing node it computes `S` from the accumulated points, skipping
the nodes whose `S` is already there unless `reset` is requested. -/
def EigenFactorPlane.calculate_all_matrices_S {K : Type} [Field K] (f : EigenFactorPlane K)
    (reset : Bool) : EigenFactorPlane K :=
  { f with
    S_ := fun node =>
      if node ∈ f.planeNodes_ ∧ (reset = true ∨ (f.S_ node).isNone = true) then
        some (EigenFactorPlane.matrixS (f.allPlanePoints_ node))
      else f.S_ node }

/-- Modelled from the spec: the matrix `Q = pose * S * pose^T` of one node at its
current pose; a node without `S` contributes the zero matrix. -/
def EigenFactorPlane.matrixQ {K : Type} [Field K] (f : EigenFactorPlane K)
    (poseOf : Nat → Matrix (Fin 4) (Fin 4) K) (node : Nat) : Matrix (Fin 4) (Fin 4) K :=
  poseOf node * (f.S_ node).getD 0 * (poseOf node).transpose

/-- Modelled from the spec: method `calculate_all_matrices_Q`, whose body is outside the
sources: for each observing node it computes `Q` from the node's current pose, and it
recomputes the accumulated `Q` as the sum over the observing nodes.  `poseOf` gives the
current pose of the node with a given identity. -/
def EigenFactorPlane.calculate_all_matrices_Q {K : Type} [Field K] (f : EigenFactorPlane K)
    (poseOf : Nat → Matrix (Fin 4) (Fin 4) K) : EigenFactorPlane K :=
  { f with
    Q_ := fun node => if node ∈ f.planeNodes_ then some (f.matrixQ poseOf node) else f.Q_ node,
    accumulatedQ_ := (f.planeNodes_.map (f.matrixQ poseOf)).sum }

/-- Modelled from the spec: the eigen solve that ends both estimates: the plane is the
eigenvector of the minimal eigenvalue of the accumulated `Q` and the error is that
eigenvalue. -/
def EigenFactorPlane.solve {K : Type} (solver : PlaneEigenSolver K) (f : EigenFactorPlane K) :
    EigenFactorPlane K :=
  { f with
    planeEstimation_ := solver.eigenvector0 f.accumulatedQ_,
    planeError_ := solver.eigenvalue0 f.accumulatedQ_ }

/-- Modelled from the spec: method `estimate_plane`, whose body is outside the sources:
a full recomputation of `S` and `Q`, then the eigen solve.  The spec leaves open whether
the recomputation of `S` is forced; `reset` covers both readings. -/
def EigenFactorPlane.estimate_plane {K : Type} [Field K] (solver : PlaneEigenSolver K)
    (poseOf : Nat → Matrix (Fin 4) (Fin 4) K) (reset : Bool) (f : EigenFactorPlane K) :
    EigenFactorPlane K :=
  ((f.calculate_all_matrices_S reset).calculate_all_matrices_Q poseOf).solve solver

/-- Modelled from the spec: method `estimate_plane_incrementally`, whose body is outside
the sources: it recomputes `Q` for the one node, subtracts the node's previous `Q` from
the accumulated `Q` and adds the new one, then runs the eigen solve. -/
def EigenFactorPlane.estimate_plane_incrementally {K : Type} [Field K]
    (solver : PlaneEigenSolver K) (poseOf : Nat → Matrix (Fin 4) (Fin 4) K) (nodeId : Nat)
    (f : EigenFactorPlane K) : EigenFactorPlane K :=
  let newQ := f.matrixQ poseOf nodeId
  let f1 : EigenFactorPlane K :=
    { f with
      accumulatedQ_ := f.accumulatedQ_ - (f.Q_ nodeId).getD 0 + newQ,
      Q_ := Function.update f.Q_ nodeId (some newQ) }
  f1.solve solver

/-- A sequence of `add_point` calls, each with its point and the identity of its node,
performed on a new factor. -/
def EigenFactorPlane.add_points {K : Type} [Field K] (calls : List (Mat31 K × Nat)) :
    EigenFactorPlane K :=
  calls.foldl (fun f c => f.add_point c.1 c.2) EigenFactorPlane.new

/-- Every observing node has an `S` and it is the sum over the node's points. -/
def EigenFactorPlane.SCurrent {K : Type} [Field K] (f : EigenFactorPlane K) : Prop :=
  ∀ node, node ∈ f.planeNodes_ →
    f.S_ node = some (EigenFactorPlane.matrixS (f.allPlanePoints_ node))

/-- The macro `assert(c && msg)`: a condition that is false is fatal. -/
def cassert (c : Bool) : Except Err Unit :=
  if c then .ok () else .error Err.assertion

/-- Method `EigenFactorPlane::get_obs`, defined in the header: `assert(0 && msg)`, then
`return Mat31::Zero()`. -/
def EigenFactorPlane.get_obs {K : Type} [Zero K] (_f : EigenFactorPlane K) :
    Except Err (MatX K) := do
  cassert false
  pure { rows := 3, cols := 1, coeff := fun _ _ => 0 }

/-- Method `EigenFactorPlane::get_residual`, defined in the header: `assert(0 && msg)`,
then `return Mat31::Zero()`. -/
def EigenFactorPlane.get_residual {K : Type} [Zero K] (_f : EigenFactorPlane K) :
    Except Err (MatX K) := do
  cassert false
  pure { rows := 3, cols := 1, coeff := fun _ _ => 0 }

/-- Method `EigenFactorPlane::get_information_matrix`, defined in the header:
`assert(0 && msg)`, then `return Mat4::Zero()`. -/
def EigenFactorPlane.get_information_matrix {K : Type} [Zero K] (_f : EigenFactorPlane K) :
    Except Err (MatX K) := do
  cassert false
  pure { rows := 4, cols := 4, coeff := fun _ _ => 0 }

/-- Method `EigenFactorPlane::get_jacobian`, defined in the header: `assert(0 && msg)`,
then `return Mat61::Zero()`. -/
def EigenFactorPlane.get_jacobian {K : Type} [Zero K] (_f : EigenFactorPlane K) :
    Except Err (MatX K) := do
  cassert false
  pure { rows := 6, cols := 1, coeff := fun _ _ => 0 }

/-! ## What the insertions leave behind -/

/-- The world after a successful `add_node w p`. -/
def afterAddNode {R : Type} (w : World R) (p : Nat) : World R :=
  { w with
    nodeAt := Function.update w.nodeAt p ((w.nodeAt p).set_id w.graph.nodes_.length),
    graph :=
      { w.graph with
        nodes_ := w.graph.nodes_ ++ [p],
        active_nodes_ :=
          if (w.nodeAt p).mode_ = nodeMode.STANDARD then w.graph.active_nodes_ ++ [p]
          else w.graph.active_nodes_,
        stateDim_ :=
          if (w.nodeAt p).mode_ = nodeMode.STANDARD then w.graph.stateDim_ + (w.nodeAt p).dim_
          else w.graph.stateDim_ } }

/-- The world after `add_factor w p`. -/
def afterAddFactor {R : Type} (w : World R) (p : Nat) : World R :=
  { w with
    factorAt := Function.update w.factorAt p ((w.factorAt p).set_id w.graph.factors_.length),
    graph :=
      { w.graph with
        factors_ := w.graph.factors_ ++ [p],
        obsDim_ := w.graph.obsDim_ + (w.factorAt p).dimObs_ } }

/-- The world after `add_eigen_factor w p`. -/
def afterAddEigenFactor {R : Type} (w : World R) (p : Nat) : World R :=
  { w with
    eigenFactorAt :=
      Function.update w.eigenFactorAt p
        ((w.eigenFactorAt p).set_id w.graph.eigen_factors_.length),
    graph := { w.graph with eigen_factors_ := w.graph.eigen_factors_ ++ [p] } }

/-- How the world after a run of calls `cs` relates to the world before it. -/
structure Grows {R : Type} (w w1 : World R) (cs : List Call) : Prop where
  nodes : w1.graph.nodes_ = w.graph.nodes_ ++ nodeArgs cs
  factors : w1.graph.factors_ = w.graph.factors_ ++ factorArgs cs
  eigen : w1.graph.eigen_factors_ = w.graph.eigen_factors_ ++ eigenFactorArgs cs
  stateDim : w1.graph.stateDim_ = w.graph.stateDim_ + standardDimSum w.nodeAt (nodeArgs cs)
  obsDim : w1.graph.obsDim_ = w.graph.obsDim_ + obsDimSum w.factorAt (factorArgs cs)
  mode : ∀ p, (w1.nodeAt p).mode_ = (w.nodeAt p).mode_
  dim : ∀ p, (w1.nodeAt p).dim_ = (w.nodeAt p).dim_
  dimObs : ∀ p, (w1.factorAt p).dimObs_ = (w.factorAt p).dimObs_

/-- Every address stored in `l` leads to an object whose identity is its position. -/
def Indexed (ids : Nat → Nat) (l : List Nat) : Prop :=
  ∀ key (h : key < l.length), ids (l.get ⟨key, h⟩) = key

/-- The factor that `evaluate_residuals` leaves behind when it reads pose `T` and
landmark `l`. -/
def withResidual {R : Type} [Sub R] (ops : SE3Ops R) (f : Factor1Pose1Landmark3d R ops.SE3)
    (T : Mat4 R) (l : Mat31 R) : Factor1Pose1Landmark3d R ops.SE3 :=
  { f with
    Tinv_ := ops.inv (ops.ofMat4 T), landmark_ := l,
    r_ := sub3 (ops.transform (ops.inv (ops.ofMat4 T)) l) f.obs_ }

/-! ## Example data -/

/-- Example node heap: address 1 holds an anchor of dimension 6, address 7 a
`SCHUR_MARGI` node, every other address a standard node of dimension 3. -/
def exNodeAt : Nat → Node ℚ := fun p =>
  { id_ := 0,
    dim_ := if p = 1 then 6 else 3,
    mode_ :=
      if p = 1 then nodeMode.ANCHOR
      else if p = 7 then nodeMode.SCHUR_MARGI else nodeMode.STANDARD,
    state_ := MatX.ofMat31 0 (fun _ => 0) }

/-- Example factor heap: the factor at address `p` observes `p + 2` dimensions. -/
def exFactorAt : Nat → Factor := fun p => { id_ := 0, dimObs_ := p + 2 }

/-- Example eigen-factor heap. -/
def exEigenFactorAt : Nat → EigenFactor := fun _ => { id_ := 0 }

/-- Example run: three nodes, two factors and one eigen factor, interleaved. -/
def exCalls : List Call :=
  [Call.add_node 0, Call.add_factor 0, Call.add_node 1, Call.add_eigen_factor 0,
   Call.add_node 2, Call.add_factor 1]

/-- Example pose: a quarter turn about the third axis followed by the translation
`(1, 2, 3)`. -/
def exPose : Mat4 ℚ := ![![0, -1, 0, 1], ![1, 0, 0, 2], ![0, 0, 1, 3], ![0, 0, 0, 1]]

/-- Example landmark position. -/
def exLandmark : Mat31 ℚ := ![4, 6, 8]

/-- Example observation. -/
def exObs : Mat31 ℚ := ![1, 1, 1]

/-- Example information matrix, diagonal with entries 1, 2, 3. -/
def exW : Mat3 ℚ := ![![1, 0, 0], ![0, 2, 0], ![0, 0, 3]]

/-- Example heap: the pose node at address 0, the landmark node at every other
address, with the given identities. -/
def exFactorNodes (poseId landmarkId : Nat) : Nat → Node ℚ := fun p =>
  if p = 0 then
    { id_ := poseId, dim_ := 6, mode_ := nodeMode.STANDARD, state_ := MatX.ofMat4 0 exPose }
  else
    { id_ := landmarkId, dim_ := 3, mode_ := nodeMode.STANDARD,
      state_ := MatX.ofMat31 0 exLandmark }

/-- Example contents of the members the constructor leaves unwritten. -/
def exStorage : Factor1Pose1Landmark3d ℚ (rigidOps ℚ).SE3 :=
  { id_ := 0, dimObs_ := 0, allNodesDim_ := 0, robust_type_ := 0, neighbourNodes_ := [],
    chi2_ := 0, obs_ := fun _ => 0, r_ := fun _ => 0, landmark_ := fun _ => 0,
    Tinv_ := fun _ _ => 0, W_ := fun _ _ => 0, J_ := fun _ _ => 0,
    reversedNodeOrder_ := false }

/-- Example square root on the rationals: exact on the three values it is asked for. -/
def exSqrt (x : ℚ) : ℚ := if x = 9 / 25 then 3 / 5 else if x = 1 then 1 else 0

/-- Example array: the four corners of the unit square in the plane `z = 0`. -/
def exSquare : MatX ℚ := MatX.ofRows [![0, 0, 0], ![1, 0, 0], ![0, 1, 0], ![1, 1, 0]]

/-- Example library operations, sound at `exSquare`. -/
def exSquareOps : EigenOps ℚ :=
  { sqrt := exSqrt,
    eigenvectors3_col0 := fun _ => ![0, 0, 1],
    eigenvectors4_col0 := fun _ => ![0, 0, 1, 0] }

/-- Example array: four points that are not on one plane, with centre `(0, 0, -7/12)`. -/
def exSkew : MatX ℚ :=
  MatX.ofRows [![2, 0, 5 / 12], ![-2, 0, 5 / 12], ![0, 2, -19 / 12], ![0, -2, -19 / 12]]

/-- Example library operations, sound at `exSkew`. -/
def exSkewOps : EigenOps ℚ :=
  { sqrt := exSqrt,
    eigenvectors3_col0 := fun _ => ![0, 0, 1],
    eigenvectors4_col0 := fun _ => ![0, 0, 3 / 5, 4 / 5] }

/-- Example array: the corners of a regular tetrahedron centred at the origin. -/
def exTetra : MatX ℚ :=
  MatX.ofRows [![2, 2, 2], ![2, -2, -2], ![-2, 2, -2], ![-2, -2, 2]]

/-- Example library operations, sound at `exTetra`. -/
def exTetraOps : EigenOps ℚ :=
  { sqrt := exSqrt,
    eigenvectors3_col0 := fun _ => ![0, 0, 1],
    eigenvectors4_col0 := fun _ => ![0, 0, 0, 1] }

/-- Example array with two rows and three columns. -/
def exTwoRows : MatX ℚ := MatX.ofRows [![1, 2, 3], ![4, 5, 6]]

/-- Example eigen solve for the plane eigen factor, standing in for the library. -/
def exPlaneSolver : PlaneEigenSolver ℚ :=
  { eigenvalue0 := fun Q => Q 2 2, eigenvector0 := fun _ => ![0, 0, 1, 0] }

/-- Example `add_point` calls: two points seen from node 0, then two from node 5. -/
def exPlanePoints : List (Mat31 ℚ × Nat) :=
  [(![0, 0, 0], 0), (![1, 0, 0], 0), (![0, 1, 0], 5), (![1, 1, 0], 5)]

/-! ## Elementary facts about the setters -/

@[simp] theorem node_set_id_id {R : Type} (n : Node R) (k : Nat) : (n.set_id k).id_ = k := rfl

@[simp] theorem node_set_id_mode {R : Type} (n : Node R) (k : Nat) :
    (n.set_id k).mode_ = n.mode_ := rfl

@[simp] theorem node_set_id_dim {R : Type} (n : Node R) (k : Nat) :
    (n.set_id k).dim_ = n.dim_ := rfl

@[simp] theorem node_set_id_state {R : Type} (n : Node R) (k : Nat) :
    (n.set_id k).state_ = n.state_ := rfl

@[simp] theorem factor_set_id_id (f : Factor) (k : Nat) : (f.set_id k).id_ = k := rfl

@[simp] theorem factor_set_id_dimObs (f : Factor) (k : Nat) :
    (f.set_id k).dimObs_ = f.dimObs_ := rfl

@[simp] theorem eigen_factor_set_id_id (f : EigenFactor) (k : Nat) : (f.set_id k).id_ = k := rfl

/-! ## What one insertion does -/

/-- `add_node` fails exactly on a `SCHUR_MARGI` node; otherwise it returns the old size. -/
theorem add_node_eq {R : Type} (w : World R) (p : Nat) :
    FGraph.add_node w p =
      if (w.nodeAt p).mode_ = nodeMode.SCHUR_MARGI then .error Err.assertion
      else .ok (afterAddNode w p, w.graph.nodes_.length) := by
  unfold FGraph.add_node afterAddNode
  cases hm : (w.nodeAt p).mode_ <;>
    simp [Node.get_node_mode, Node.get_dim, Node.get_id, hm]

/-- `add_factor` always returns, with the old size. -/
theorem add_factor_eq {R : Type} (w : World R) (p : Nat) :
    FGraph.add_factor w p = .ok (afterAddFactor w p, w.graph.factors_.length) := by
  simp [FGraph.add_factor, afterAddFactor, Factor.get_dim_obs, Factor.get_id]

/-- `add_eigen_factor` always returns, with the old size. -/
theorem add_eigen_factor_eq {R : Type} (w : World R) (p : Nat) :
    FGraph.add_eigen_factor w p =
      .ok (afterAddEigenFactor w p, w.graph.eigen_factors_.length) := by
  simp [FGraph.add_eigen_factor, afterAddEigenFactor, EigenFactor.get_id]

/-! ## What a run of insertions does -/

theorem standardDimSum_congr {R : Type} (f g : Nat → Node R)
    (hm : ∀ p, (f p).mode_ = (g p).mode_) (hd : ∀ p, (f p).dim_ = (g p).dim_)
    (l : List Nat) : standardDimSum f l = standardDimSum g l := by
  induction l with
  | nil => rfl
  | cons p ps ih => simp [standardDimSum, Node.get_node_mode, Node.get_dim, hm, hd, ih]

theorem obsDimSum_congr (f g : Nat → Factor) (hd : ∀ p, (f p).dimObs_ = (g p).dimObs_)
    (l : List Nat) : obsDimSum f l = obsDimSum g l := by
  induction l with
  | nil => rfl
  | cons p ps ih => simp [obsDimSum, Factor.get_dim_obs, hd, ih]

theorem afterAddNode_mode {R : Type} (w : World R) (p q : Nat) :
    ((afterAddNode w p).nodeAt q).mode_ = (w.nodeAt q).mode_ := by
  by_cases h : q = p
  · subst h; simp [afterAddNode]
  · simp [afterAddNode, Function.update_noteq h]

theorem afterAddNode_dim {R : Type} (w : World R) (p q : Nat) :
    ((afterAddNode w p).nodeAt q).dim_ = (w.nodeAt q).dim_ := by
  by_cases h : q = p
  · subst h; simp [afterAddNode]
  · simp [afterAddNode, Function.update_noteq h]

theorem afterAddFactor_dimObs {R : Type} (w : World R) (p q : Nat) :
    ((afterAddFactor w p).factorAt q).dimObs_ = (w.factorAt q).dimObs_ := by
  by_cases h : q = p
  · subst h; simp [afterAddFactor]
  · simp [afterAddFactor, Function.update_noteq h]

/-- Unfolding of `run` at an `add_node` call. -/
theorem run_add_node {R : Type} (w : World R) (p : Nat) (cs : List Call) :
    run w (Call.add_node p :: cs) =
      if (w.nodeAt p).mode_ = nodeMode.SCHUR_MARGI then .error Err.assertion
      else run (afterAddNode w p) cs := by
  simp only [run, Call.exec, add_node_eq]
  split_ifs <;> rfl

/-- Unfolding of `run` at an `add_factor` call. -/
theorem run_add_factor {R : Type} (w : World R) (p : Nat) (cs : List Call) :
    run w (Call.add_factor p :: cs) = run (afterAddFactor w p) cs := by
  simp only [run, Call.exec, add_factor_eq]

/-- Unfolding of `run` at an `add_eigen_factor` call. -/
theorem run_add_eigen_factor {R : Type} (w : World R) (p : Nat) (cs : List Call) :
    run w (Call.add_eigen_factor p :: cs) = run (afterAddEigenFactor w p) cs := by
  simp only [run, Call.exec, add_eigen_factor_eq]

/-- Every completed run grows the collections by exactly the passed addresses. -/
theorem run_grows {R : Type} (cs : List Call) :
    ∀ (w w1 : World R), run w cs = .ok w1 → Grows w w1 cs := by
  induction cs with
  | nil =>
      intro w w1 h
      simp only [run, Except.ok.injEq] at h
      subst h
      constructor <;> simp [nodeArgs, factorArgs, eigenFactorArgs, standardDimSum, obsDimSum]
  | cons c cs ih =>
      intro w w1 h
      cases c with
      | add_node p =>
          rw [run_add_node] at h
          split_ifs at h with hs
          have g := ih _ _ h
          have e := standardDimSum_congr (afterAddNode w p).nodeAt w.nodeAt
            (afterAddNode_mode w p) (afterAddNode_dim w p) (nodeArgs cs)
          constructor
          · simp [g.nodes, nodeArgs, afterAddNode]
          · simp [g.factors, factorArgs, afterAddNode]
          · simp [g.eigen, eigenFactorArgs, afterAddNode]
          · rw [g.stateDim, e]
            by_cases hst : (w.nodeAt p).mode_ = nodeMode.STANDARD <;>
              simp [nodeArgs, standardDimSum, afterAddNode, Node.get_node_mode, Node.get_dim,
                hst, Nat.add_assoc]
          · simp [g.obsDim, factorArgs, afterAddNode]
          · intro q; rw [g.mode, afterAddNode_mode]
          · intro q; rw [g.dim, afterAddNode_dim]
          · intro q; rw [g.dimObs]; rfl
      | add_factor p =>
          rw [run_add_factor] at h
          have g := ih _ _ h
          have e := obsDimSum_congr (afterAddFactor w p).factorAt w.factorAt
            (afterAddFactor_dimObs w p) (factorArgs cs)
          constructor
          · simp [g.nodes, nodeArgs, afterAddFactor]
          · simp [g.factors, factorArgs, afterAddFactor]
          · simp [g.eigen, eigenFactorArgs, afterAddFactor]
          · simp [g.stateDim, nodeArgs, afterAddFactor]
          · rw [g.obsDim, e]
            simp [factorArgs, obsDimSum, afterAddFactor, Factor.get_dim_obs, Nat.add_assoc]
          · intro q; rw [g.mode]; rfl
          · intro q; rw [g.dim]; rfl
          · intro q; rw [g.dimObs, afterAddFactor_dimObs]
      | add_eigen_factor p =>
          rw [run_add_eigen_factor] at h
          have g := ih _ _ h
          constructor
          · simp [g.nodes, nodeArgs, afterAddEigenFactor]
          · simp [g.factors, factorArgs, afterAddEigenFactor]
          · simp [g.eigen, eigenFactorArgs, afterAddEigenFactor]
          · simp [g.stateDim, nodeArgs, afterAddEigenFactor]
          · simp [g.obsDim, factorArgs, afterAddEigenFactor]
          · intro q; rw [g.mode]; rfl
          · intro q; rw [g.dim]; rfl
          · intro q; rw [g.dimObs]; rfl

/-- A run completes as soon as no `SCHUR_MARGI` node is passed to `add_node`. -/
theorem run_ok {R : Type} (cs : List Call) :
    ∀ (w : World R), (∀ p ∈ nodeArgs cs, (w.nodeAt p).mode_ ≠ nodeMode.SCHUR_MARGI) →
      ∃ w1, run w cs = .ok w1 := by
  induction cs with
  | nil => intro w _; exact ⟨w, rfl⟩
  | cons c cs ih =>
      intro w h
      cases c with
      | add_node p =>
          rw [run_add_node, if_neg (h p (by simp [nodeArgs]))]
          apply ih
          intro q hq
          rw [afterAddNode_mode]
          exact h q (by simp [nodeArgs, hq])
      | add_factor p =>
          rw [run_add_factor]
          exact ih _ (fun q hq => h q (by simpa [nodeArgs] using hq))
      | add_eigen_factor p =>
          rw [run_add_eigen_factor]
          exact ih _ (fun q hq => h q (by simpa [nodeArgs] using hq))

/-- A run that passes a `SCHUR_MARGI` node to `add_node` does not complete. -/
theorem run_error {R : Type} (cs : List Call) :
    ∀ (w : World R), (∃ p ∈ nodeArgs cs, (w.nodeAt p).mode_ = nodeMode.SCHUR_MARGI) →
      run w cs = .error Err.assertion := by
  induction cs with
  | nil => intro w h; simp [nodeArgs] at h
  | cons c cs ih =>
      intro w h
      obtain ⟨q, hq, hm⟩ := h
      cases c with
      | add_node p =>
          rw [run_add_node]
          split_ifs with hs
          · rfl
          · apply ih
            simp only [nodeArgs, List.mem_cons] at hq
            rcases hq with rfl | hq
            · exact absurd hm hs
            · exact ⟨q, hq, by rw [afterAddNode_mode]; exact hm⟩
      | add_factor p =>
          rw [run_add_factor]
          exact ih _ ⟨q, by simpa [nodeArgs] using hq, hm⟩
      | add_eigen_factor p =>
          rw [run_add_eigen_factor]
          exact ih _ ⟨q, by simpa [nodeArgs] using hq, hm⟩

/-! ## Identities as positions -/

theorem Indexed.nil (ids : Nat → Nat) : Indexed ids [] := by
  intro key h
  simp at h

/-- Appending a fresh address and giving its object the old size keeps `Indexed`. -/
theorem Indexed.snoc {ids : Nat → Nat} {l : List Nat} {p : Nat} (hi : Indexed ids l)
    (hp : p ∉ l) : Indexed (Function.update ids p l.length) (l ++ [p]) := by
  intro key h
  by_cases hk : key < l.length
  · have e : (l ++ [p]).get ⟨key, h⟩ = l.get ⟨key, hk⟩ := by
      simp [List.getElem_append_left hk]
    have hne : l.get ⟨key, hk⟩ ≠ p := fun hq => hp (hq ▸ List.get_mem l key hk)
    rw [e, Function.update_noteq hne]
    exact hi key hk
  · have hlen : key = l.length := by
      simp only [List.length_append, List.length_singleton] at h
      omega
    subst hlen
    have e : (l ++ [p]).get ⟨l.length, h⟩ = p := by simp
    rw [e, Function.update_same]

theorem nodeIds_afterAddNode {R : Type} (w : World R) (p : Nat) :
    (fun q => ((afterAddNode w p).nodeAt q).id_) =
      Function.update (fun q => (w.nodeAt q).id_) p w.graph.nodes_.length := by
  funext q
  by_cases h : q = p
  · subst h; simp [afterAddNode]
  · simp [afterAddNode, Function.update_noteq h]

theorem factorIds_afterAddFactor {R : Type} (w : World R) (p : Nat) :
    (fun q => ((afterAddFactor w p).factorAt q).id_) =
      Function.update (fun q => (w.factorAt q).id_) p w.graph.factors_.length := by
  funext q
  by_cases h : q = p
  · subst h; simp [afterAddFactor]
  · simp [afterAddFactor, Function.update_noteq h]

theorem eigenIds_afterAddEigenFactor {R : Type} (w : World R) (p : Nat) :
    (fun q => ((afterAddEigenFactor w p).eigenFactorAt q).id_) =
      Function.update (fun q => (w.eigenFactorAt q).id_) p w.graph.eigen_factors_.length := by
  funext q
  by_cases h : q = p
  · subst h; simp [afterAddEigenFactor]
  · simp [afterAddEigenFactor, Function.update_noteq h]

theorem nodup_snoc_of_append_cons {l rest : List Nat} {p : Nat}
    (h : (l ++ p :: rest).Nodup) : p ∉ l ∧ ((l ++ [p]) ++ rest).Nodup := by
  constructor
  · intro hp
    have := List.nodup_append.mp h
    exact this.2.2 hp (List.mem_cons_self p rest)
  · simpa [List.append_assoc] using h

/-- Node identities stay positions along a run that inserts no node twice. -/
theorem run_indexed_nodes {R : Type} (cs : List Call) :
    ∀ (w w1 : World R), run w cs = .ok w1 →
      Indexed (fun q => (w.nodeAt q).id_) w.graph.nodes_ →
      (w.graph.nodes_ ++ nodeArgs cs).Nodup →
      Indexed (fun q => (w1.nodeAt q).id_) w1.graph.nodes_ := by
  induction cs with
  | nil =>
      intro w w1 h hi _
      simp only [run, Except.ok.injEq] at h
      subst h; exact hi
  | cons c cs ih =>
      intro w w1 h hi hn
      cases c with
      | add_node p =>
          rw [run_add_node] at h
          split_ifs at h with hs
          obtain ⟨hp, hn1⟩ := nodup_snoc_of_append_cons (by simpa [nodeArgs] using hn)
          refine ih _ _ h ?_ (by simpa [afterAddNode] using hn1)
          rw [nodeIds_afterAddNode]
          exact Indexed.snoc hi hp
      | add_factor p =>
          rw [run_add_factor] at h
          exact ih _ _ h hi (by simpa [nodeArgs, afterAddFactor] using hn)
      | add_eigen_factor p =>
          rw [run_add_eigen_factor] at h
          exact ih _ _ h hi (by simpa [nodeArgs, afterAddEigenFactor] using hn)

/-- Factor identities stay positions along a run that inserts no factor twice. -/
theorem run_indexed_factors {R : Type} (cs : List Call) :
    ∀ (w w1 : World R), run w cs = .ok w1 →
      Indexed (fun q => (w.factorAt q).id_) w.graph.factors_ →
      (w.graph.factors_ ++ factorArgs cs).Nodup →
      Indexed (fun q => (w1.factorAt q).id_) w1.graph.factors_ := by
  induction cs with
  | nil =>
      intro w w1 h hi _
      simp only [run, Except.ok.injEq] at h
      subst h; exact hi
  | cons c cs ih =>
      intro w w1 h hi hn
      cases c with
      | add_node p =>
          rw [run_add_node] at h
          split_ifs at h with hs
          exact ih _ _ h hi (by simpa [factorArgs, afterAddNode] using hn)
      | add_factor p =>
          rw [run_add_factor] at h
          obtain ⟨hp, hn1⟩ := nodup_snoc_of_append_cons (by simpa [factorArgs] using hn)
          refine ih _ _ h ?_ (by simpa [afterAddFactor] using hn1)
          rw [factorIds_afterAddFactor]
          exact Indexed.snoc hi hp
      | add_eigen_factor p =>
          rw [run_add_eigen_factor] at h
          exact ih _ _ h hi (by simpa [factorArgs, afterAddEigenFactor] using hn)

/-- Eigen-factor identities stay positions along a run that inserts none twice. -/
theorem run_indexed_eigen_factors {R : Type} (cs : List Call) :
    ∀ (w w1 : World R), run w cs = .ok w1 →
      Indexed (fun q => (w.eigenFactorAt q).id_) w.graph.eigen_factors_ →
      (w.graph.eigen_factors_ ++ eigenFactorArgs cs).Nodup →
      Indexed (fun q => (w1.eigenFactorAt q).id_) w1.graph.eigen_factors_ := by
  induction cs with
  | nil =>
      intro w w1 h hi _
      simp only [run, Except.ok.injEq] at h
      subst h; exact hi
  | cons c cs ih =>
      intro w w1 h hi hn
      cases c with
      | add_node p =>
          rw [run_add_node] at h
          split_ifs at h with hs
          exact ih _ _ h hi (by simpa [eigenFactorArgs, afterAddNode] using hn)
      | add_factor p =>
          rw [run_add_factor] at h
          exact ih _ _ h hi (by simpa [eigenFactorArgs, afterAddFactor] using hn)
      | add_eigen_factor p =>
          rw [run_add_eigen_factor] at h
          obtain ⟨hp, hn1⟩ := nodup_snoc_of_append_cons (by simpa [eigenFactorArgs] using hn)
          refine ih _ _ h ?_ (by simpa [afterAddEigenFactor] using hn1)
          rw [eigenIds_afterAddEigenFactor]
          exact Indexed.snoc hi hp

/-! ## The graph container: results -/

/-- C1. From an empty graph, after any earlier calls `cs` (none of which passed a
`SCHUR_MARGI` node) the run has completed, the three collections hold exactly the
passed addresses in call order, and the next call on a collection (the n-th one,
`n - 1` being the number of earlier calls on that collection) returns `n - 1`, which
is the size of the collection before the call, stores `n - 1` as the identity of the
object and appends its address at the end of the collection. -/
theorem add_assigns_next_identity {R : Type} (nodeAt : Nat → Node R) (factorAt : Nat → Factor)
    (eigenFactorAt : Nat → EigenFactor) (cs : List Call)
    (hok : ∀ p ∈ nodeArgs cs, (nodeAt p).get_node_mode ≠ nodeMode.SCHUR_MARGI) :
    ∃ w, run (World.init nodeAt factorAt eigenFactorAt) cs = .ok w ∧
      w.graph.nodes_ = nodeArgs cs ∧
      w.graph.factors_ = factorArgs cs ∧
      w.graph.eigen_factors_ = eigenFactorArgs cs ∧
      (∀ p, (nodeAt p).get_node_mode ≠ nodeMode.SCHUR_MARGI →
        ∃ w1, FGraph.add_node w p = .ok (w1, (nodeArgs cs).length) ∧
          (nodeArgs cs).length = w.graph.nodes_.length ∧
          (w1.nodeAt p).get_id = (nodeArgs cs).length ∧
          w1.graph.nodes_ = w.graph.nodes_ ++ [p]) ∧
      (∀ p, ∃ w1, FGraph.add_factor w p = .ok (w1, (factorArgs cs).length) ∧
          (factorArgs cs).length = w.graph.factors_.length ∧
          (w1.factorAt p).get_id = (factorArgs cs).length ∧
          w1.graph.factors_ = w.graph.factors_ ++ [p]) ∧
      (∀ p, ∃ w1, FGraph.add_eigen_factor w p = .ok (w1, (eigenFactorArgs cs).length) ∧
          (eigenFactorArgs cs).length = w.graph.eigen_factors_.length ∧
          (w1.eigenFactorAt p).get_id = (eigenFactorArgs cs).length ∧
          w1.graph.eigen_factors_ = w.graph.eigen_factors_ ++ [p]) := by
  obtain ⟨w, hw⟩ := run_ok cs (World.init nodeAt factorAt eigenFactorAt) hok
  have g := run_grows cs _ _ hw
  have hn : w.graph.nodes_ = nodeArgs cs := by simpa [World.init, FGraph.empty] using g.nodes
  have hf : w.graph.factors_ = factorArgs cs := by
    simpa [World.init, FGraph.empty] using g.factors
  have he : w.graph.eigen_factors_ = eigenFactorArgs cs := by
    simpa [World.init, FGraph.empty] using g.eigen
  refine ⟨w, hw, hn, hf, he, ?_, ?_, ?_⟩
  · intro p hp
    have hm : (w.nodeAt p).mode_ ≠ nodeMode.SCHUR_MARGI := by
      rw [g.mode p]; exact hp
    refine ⟨afterAddNode w p, ?_, by rw [hn], ?_, rfl⟩
    · rw [add_node_eq, if_neg hm, hn]
    · simp [afterAddNode, Node.get_id, hn]
  · intro p
    refine ⟨afterAddFactor w p, ?_, by rw [hf], ?_, rfl⟩
    · rw [add_factor_eq, hf]
    · simp [afterAddFactor, Factor.get_id, hf]
  · intro p
    refine ⟨afterAddEigenFactor w p, ?_, by rw [he], ?_, rfl⟩
    · rw [add_eigen_factor_eq, he]
    · simp [afterAddEigenFactor, EigenFactor.get_id, he]

/-- C1 at the example run: the seventh call is the fourth `add_node`, the third
`add_factor` or the second `add_eigen_factor`, and returns 3, 2 or 1. -/
theorem add_assigns_next_identity_witness :
    (∀ p ∈ nodeArgs exCalls, (exNodeAt p).get_node_mode ≠ nodeMode.SCHUR_MARGI) ∧
    ∃ w, run (World.init exNodeAt exFactorAt exEigenFactorAt) exCalls = .ok w ∧
      w.graph.nodes_ = nodeArgs exCalls ∧
      w.graph.factors_ = factorArgs exCalls ∧
      w.graph.eigen_factors_ = eigenFactorArgs exCalls ∧
      (∀ p, (exNodeAt p).get_node_mode ≠ nodeMode.SCHUR_MARGI →
        ∃ w1, FGraph.add_node w p = .ok (w1, (nodeArgs exCalls).length) ∧
          (nodeArgs exCalls).length = w.graph.nodes_.length ∧
          (w1.nodeAt p).get_id = (nodeArgs exCalls).length ∧
          w1.graph.nodes_ = w.graph.nodes_ ++ [p]) ∧
      (∀ p, ∃ w1, FGraph.add_factor w p = .ok (w1, (factorArgs exCalls).length) ∧
          (factorArgs exCalls).length = w.graph.factors_.length ∧
          (w1.factorAt p).get_id = (factorArgs exCalls).length ∧
          w1.graph.factors_ = w.graph.factors_ ++ [p]) ∧
      (∀ p, ∃ w1, FGraph.add_eigen_factor w p =
            .ok (w1, (eigenFactorArgs exCalls).length) ∧
          (eigenFactorArgs exCalls).length = w.graph.eigen_factors_.length ∧
          (w1.eigenFactorAt p).get_id = (eigenFactorArgs exCalls).length ∧
          w1.graph.eigen_factors_ = w.graph.eigen_factors_ ++ [p]) :=
  ⟨by decide, add_assigns_next_identity exNodeAt exFactorAt exEigenFactorAt exCalls (by decide)⟩

/-- C2. From an empty graph, after any calls in which every node passed to `add_node`
has mode `STANDARD` or `ANCHOR`, the run has completed and the total state dimension is
the sum of `get_dim()` over the nodes added with mode `STANDARD` (read from the nodes as
passed, and equally from the nodes as stored); `add_node` on an `ANCHOR` node returns
and leaves the total state dimension unchanged, in every state of the graph. -/
theorem stateDim_sums_standard_nodes {R : Type} (nodeAt : Nat → Node R)
    (factorAt : Nat → Factor) (eigenFactorAt : Nat → EigenFactor) (cs : List Call)
    (hmode : ∀ p ∈ nodeArgs cs, (nodeAt p).get_node_mode = nodeMode.STANDARD ∨
      (nodeAt p).get_node_mode = nodeMode.ANCHOR) :
    (∃ w, run (World.init nodeAt factorAt eigenFactorAt) cs = .ok w ∧
      w.graph.stateDim_ = standardDimSum nodeAt (nodeArgs cs) ∧
      w.graph.stateDim_ = standardDimSum w.nodeAt w.graph.nodes_) ∧
    (∀ (v : World R) (p : Nat), (v.nodeAt p).get_node_mode = nodeMode.ANCHOR →
      ∃ v1 r, FGraph.add_node v p = .ok (v1, r) ∧ v1.graph.stateDim_ = v.graph.stateDim_) := by
  constructor
  · have hok : ∀ p ∈ nodeArgs cs,
        ((World.init nodeAt factorAt eigenFactorAt).nodeAt p).mode_ ≠ nodeMode.SCHUR_MARGI := by
      intro p hp
      rcases hmode p hp with h | h <;> simp [World.init, Node.get_node_mode] at h ⊢ <;> simp [h]
    obtain ⟨w, hw⟩ := run_ok cs _ hok
    have g := run_grows cs _ _ hw
    have e1 : w.graph.stateDim_ = standardDimSum nodeAt (nodeArgs cs) := by
      simpa [World.init, FGraph.empty] using g.stateDim
    refine ⟨w, hw, e1, ?_⟩
    have hn : w.graph.nodes_ = nodeArgs cs := by simpa [World.init, FGraph.empty] using g.nodes
    rw [e1, hn]
    exact (standardDimSum_congr _ _ g.mode g.dim _).symm
  · intro v p hp
    have hm : (v.nodeAt p).mode_ = nodeMode.ANCHOR := hp
    refine ⟨afterAddNode v p, v.graph.nodes_.length, ?_, ?_⟩
    · rw [add_node_eq, if_neg (by simp [hm])]
    · simp [afterAddNode, hm]

/-- C2 at the example run: two standard nodes of dimension 3 and one anchor. -/
theorem stateDim_sums_standard_nodes_witness :
    (∀ p ∈ nodeArgs exCalls, (exNodeAt p).get_node_mode = nodeMode.STANDARD ∨
      (exNodeAt p).get_node_mode = nodeMode.ANCHOR) ∧
    ((∃ w, run (World.init exNodeAt exFactorAt exEigenFactorAt) exCalls = .ok w ∧
      w.graph.stateDim_ = standardDimSum exNodeAt (nodeArgs exCalls) ∧
      w.graph.stateDim_ = standardDimSum w.nodeAt w.graph.nodes_) ∧
    (∀ (v : World ℚ) (p : Nat), (v.nodeAt p).get_node_mode = nodeMode.ANCHOR →
      ∃ v1 r, FGraph.add_node v p = .ok (v1, r) ∧
        v1.graph.stateDim_ = v.graph.stateDim_)) :=
  ⟨by decide,
    stateDim_sums_standard_nodes exNodeAt exFactorAt exEigenFactorAt exCalls (by decide)⟩

/-- The graph reached by the example run, computed: nodes 0, 1, 2, of which 0 and 2 are
active, factors 0 and 1, eigen factor 0, state dimension 3 + 3, observation
dimension 2 + 3. -/
theorem exCalls_graph :
    (run (World.init exNodeAt exFactorAt exEigenFactorAt) exCalls).map (fun w => w.graph) =
      .ok { nodes_ := [0, 1, 2], active_nodes_ := [0, 2], factors_ := [0, 1],
            eigen_factors_ := [0], stateDim_ := 6, obsDim_ := 5 } := by
  rfl

/-- C3, as stated, fails when one node object is inserted twice: after
`add_node(n); add_node(n)` both positions hold the same object, whose identity is 1,
so `get_node(0)` returns an object whose identity is not 0. -/
theorem identity_is_index_counterexample :
    ¬ (∀ w, run (World.init exNodeAt exFactorAt exEigenFactorAt)
          [Call.add_node 0, Call.add_node 0] = .ok w →
        ∀ key, key < w.graph.nodes_.length →
          ∃ p, FGraph.get_node w.graph key = .ok p ∧ (w.nodeAt p).get_id = key) := by
  intro h
  obtain ⟨p, hp, hid⟩ := h _ rfl 0 (by decide)
  have hp0 : p = 0 := by
    have : (Except.ok 0 : Except Err Nat) = .ok p := hp
    injection this with e
    exact e.symm
  subst hp0
  exact absurd hid (by decide)

/-- C3, amended. From an empty graph, after any calls none of which passed a
`SCHUR_MARGI` node, the run has completed and, for each collection into which no
object was inserted twice, every key below the size of the collection is answered by
`get_node` (resp. `get_factor`, `get_eigen_factor`) with an object whose identity is
that key. -/
theorem identity_is_index_of_distinct {R : Type} (nodeAt : Nat → Node R)
    (factorAt : Nat → Factor) (eigenFactorAt : Nat → EigenFactor) (cs : List Call)
    (hok : ∀ p ∈ nodeArgs cs, (nodeAt p).get_node_mode ≠ nodeMode.SCHUR_MARGI) :
    ∃ w, run (World.init nodeAt factorAt eigenFactorAt) cs = .ok w ∧
      ((nodeArgs cs).Nodup → ∀ key, key < w.graph.nodes_.length →
        ∃ p, FGraph.get_node w.graph key = .ok p ∧ (w.nodeAt p).get_id = key) ∧
      ((factorArgs cs).Nodup → ∀ key, key < w.graph.factors_.length →
        ∃ p, FGraph.get_factor w.graph key = .ok p ∧ (w.factorAt p).get_id = key) ∧
      ((eigenFactorArgs cs).Nodup → ∀ key, key < w.graph.eigen_factors_.length →
        ∃ p, FGraph.get_eigen_factor w.graph key = .ok p ∧
          (w.eigenFactorAt p).get_id = key) := by
  obtain ⟨w, hw⟩ := run_ok cs (World.init nodeAt factorAt eigenFactorAt) hok
  refine ⟨w, hw, ?_, ?_, ?_⟩
  · intro hn key hk
    have hi := run_indexed_nodes cs _ _ hw (Indexed.nil _)
      (by simpa [World.init, FGraph.empty] using hn)
    exact ⟨w.graph.nodes_.get ⟨key, hk⟩, by simp [FGraph.get_node, hk], hi key hk⟩
  · intro hn key hk
    have hi := run_indexed_factors cs _ _ hw (Indexed.nil _)
      (by simpa [World.init, FGraph.empty] using hn)
    exact ⟨w.graph.factors_.get ⟨key, hk⟩, by simp [FGraph.get_factor, hk], hi key hk⟩
  · intro hn key hk
    have hi := run_indexed_eigen_factors cs _ _ hw (Indexed.nil _)
      (by simpa [World.init, FGraph.empty] using hn)
    exact ⟨w.graph.eigen_factors_.get ⟨key, hk⟩, by simp [FGraph.get_eigen_factor, hk],
      hi key hk⟩

/-- C3 amended, at the example run, where all inserted objects are distinct. -/
theorem identity_is_index_of_distinct_witness :
    (∀ p ∈ nodeArgs exCalls, (exNodeAt p).get_node_mode ≠ nodeMode.SCHUR_MARGI) ∧
    ∃ w, run (World.init exNodeAt exFactorAt exEigenFactorAt) exCalls = .ok w ∧
      ((nodeArgs exCalls).Nodup → ∀ key, key < w.graph.nodes_.length →
        ∃ p, FGraph.get_node w.graph key = .ok p ∧ (w.nodeAt p).get_id = key) ∧
      ((factorArgs exCalls).Nodup → ∀ key, key < w.graph.factors_.length →
        ∃ p, FGraph.get_factor w.graph key = .ok p ∧ (w.factorAt p).get_id = key) ∧
      ((eigenFactorArgs exCalls).Nodup → ∀ key, key < w.graph.eigen_factors_.length →
        ∃ p, FGraph.get_eigen_factor w.graph key = .ok p ∧
          (w.eigenFactorAt p).get_id = key) :=
  ⟨by decide,
    identity_is_index_of_distinct exNodeAt exFactorAt exEigenFactorAt exCalls (by decide)⟩

/-- C4. Each of `get_node`, `get_factor`, `get_eigen_factor` fails (assertion) exactly
when the key is at least the size of its collection, and otherwise returns exactly the
element stored at position `key`. -/
theorem get_fails_iff_key_out_of_range (g : FGraph) (key : Nat) :
    ((FGraph.get_node g key = .error Err.assertion ↔ g.nodes_.length ≤ key) ∧
      (∀ p, FGraph.get_node g key = .ok p ↔ g.nodes_[key]? = some p)) ∧
    ((FGraph.get_factor g key = .error Err.assertion ↔ g.factors_.length ≤ key) ∧
      (∀ p, FGraph.get_factor g key = .ok p ↔ g.factors_[key]? = some p)) ∧
    ((FGraph.get_eigen_factor g key = .error Err.assertion ↔
        g.eigen_factors_.length ≤ key) ∧
      (∀ p, FGraph.get_eigen_factor g key = .ok p ↔ g.eigen_factors_[key]? = some p)) := by
  refine ⟨⟨?_, ?_⟩, ⟨?_, ?_⟩, ⟨?_, ?_⟩⟩
  · by_cases h : key < g.nodes_.length
    · simp [FGraph.get_node, h]
    · simp [FGraph.get_node, h, Nat.le_of_not_lt h]
  · intro p
    by_cases h : key < g.nodes_.length
    · simp [FGraph.get_node, h, List.getElem?_eq_getElem h]
    · simp [FGraph.get_node, h, List.getElem?_eq_none (Nat.le_of_not_lt h)]
  · by_cases h : key < g.factors_.length
    · simp [FGraph.get_factor, h]
    · simp [FGraph.get_factor, h, Nat.le_of_not_lt h]
  · intro p
    by_cases h : key < g.factors_.length
    · simp [FGraph.get_factor, h, List.getElem?_eq_getElem h]
    · simp [FGraph.get_factor, h, List.getElem?_eq_none (Nat.le_of_not_lt h)]
  · by_cases h : key < g.eigen_factors_.length
    · simp [FGraph.get_eigen_factor, h]
    · simp [FGraph.get_eigen_factor, h, Nat.le_of_not_lt h]
  · intro p
    by_cases h : key < g.eigen_factors_.length
    · simp [FGraph.get_eigen_factor, h, List.getElem?_eq_getElem h]
    · simp [FGraph.get_eigen_factor, h, List.getElem?_eq_none (Nat.le_of_not_lt h)]

/-- C5. `add_node` on a node whose mode is `SCHUR_MARGI` ends in the failed assertion,
in every state of the graph: no identity is returned. -/
theorem add_node_schur_margi_fails {R : Type} (w : World R) (node : Nat)
    (h : (w.nodeAt node).get_node_mode = nodeMode.SCHUR_MARGI) :
    FGraph.add_node w node = .error Err.assertion ∧
      ∀ w1 r, FGraph.add_node w node ≠ .ok (w1, r) := by
  have hm : (w.nodeAt node).mode_ = nodeMode.SCHUR_MARGI := h
  have e : FGraph.add_node w node = .error Err.assertion := by
    rw [add_node_eq, if_pos hm]
  refine ⟨e, ?_⟩
  intro w1 r hr
  rw [e] at hr
  cases hr

/-- C5 at the example heap, whose address 7 holds a `SCHUR_MARGI` node. -/
theorem add_node_schur_margi_fails_witness :
    ((World.init exNodeAt exFactorAt exEigenFactorAt).nodeAt 7).get_node_mode =
        nodeMode.SCHUR_MARGI ∧
    (FGraph.add_node (World.init exNodeAt exFactorAt exEigenFactorAt) 7 =
        .error Err.assertion ∧
      ∀ w1 r, FGraph.add_node (World.init exNodeAt exFactorAt exEigenFactorAt) 7 ≠
        .ok (w1, r)) :=
  ⟨by decide, add_node_schur_margi_fails _ 7 (by decide)⟩

/-- C6. From an empty graph, after any calls none of which passed a `SCHUR_MARGI`
node, the run has completed and the total observation dimension is the sum of
`get_dim_obs()` over the factors passed to `add_factor` (read from the factors as
passed, and equally from the factors as stored); in every state of the graph,
`add_node` (when it returns, that is on a node that is not `SCHUR_MARGI`) and
`add_eigen_factor` leave the total observation dimension unchanged. -/
theorem obsDim_sums_added_factors {R : Type} (nodeAt : Nat → Node R)
    (factorAt : Nat → Factor) (eigenFactorAt : Nat → EigenFactor) (cs : List Call)
    (hok : ∀ p ∈ nodeArgs cs, (nodeAt p).get_node_mode ≠ nodeMode.SCHUR_MARGI) :
    (∃ w, run (World.init nodeAt factorAt eigenFactorAt) cs = .ok w ∧
      w.graph.obsDim_ = obsDimSum factorAt (factorArgs cs) ∧
      w.graph.obsDim_ = obsDimSum w.factorAt w.graph.factors_) ∧
    (∀ (v : World R) (p : Nat), (v.nodeAt p).get_node_mode ≠ nodeMode.SCHUR_MARGI →
      ∃ v1 r, FGraph.add_node v p = .ok (v1, r) ∧ v1.graph.obsDim_ = v.graph.obsDim_) ∧
    (∀ (v : World R) (p : Nat),
      ∃ v1 r, FGraph.add_eigen_factor v p = .ok (v1, r) ∧
        v1.graph.obsDim_ = v.graph.obsDim_) := by
  refine ⟨?_, ?_, ?_⟩
  · obtain ⟨w, hw⟩ := run_ok cs (World.init nodeAt factorAt eigenFactorAt) hok
    have g := run_grows cs _ _ hw
    have e1 : w.graph.obsDim_ = obsDimSum factorAt (factorArgs cs) := by
      simpa [World.init, FGraph.empty] using g.obsDim
    have hf : w.graph.factors_ = factorArgs cs := by
      simpa [World.init, FGraph.empty] using g.factors
    refine ⟨w, hw, e1, ?_⟩
    rw [e1, hf]
    exact (obsDimSum_congr _ _ g.dimObs _).symm
  · intro v p hp
    have hm : (v.nodeAt p).mode_ ≠ nodeMode.SCHUR_MARGI := hp
    exact ⟨afterAddNode v p, v.graph.nodes_.length, by rw [add_node_eq, if_neg hm], rfl⟩
  · intro v p
    exact ⟨afterAddEigenFactor v p, v.graph.eigen_factors_.length,
      by rw [add_eigen_factor_eq], rfl⟩

/-- C6 at the example run: factors of observation dimension 2 and 3. -/
theorem obsDim_sums_added_factors_witness :
    (∀ p ∈ nodeArgs exCalls, (exNodeAt p).get_node_mode ≠ nodeMode.SCHUR_MARGI) ∧
    ((∃ w, run (World.init exNodeAt exFactorAt exEigenFactorAt) exCalls = .ok w ∧
      w.graph.obsDim_ = obsDimSum exFactorAt (factorArgs exCalls) ∧
      w.graph.obsDim_ = obsDimSum w.factorAt w.graph.factors_) ∧
    (∀ (v : World ℚ) (p : Nat), (v.nodeAt p).get_node_mode ≠ nodeMode.SCHUR_MARGI →
      ∃ v1 r, FGraph.add_node v p = .ok (v1, r) ∧ v1.graph.obsDim_ = v.graph.obsDim_) ∧
    (∀ (v : World ℚ) (p : Nat),
      ∃ v1 r, FGraph.add_eigen_factor v p = .ok (v1, r) ∧
        v1.graph.obsDim_ = v.graph.obsDim_)) :=
  ⟨by decide,
    obsDim_sums_added_factors exNodeAt exFactorAt exEigenFactorAt exCalls (by decide)⟩

/-! ## The pose-landmark factor: results -/

theorem MatX.toMat4_ofMat4 {R : Type} (fill : R) (T : Mat4 R) :
    (MatX.ofMat4 fill T).toMat4 = .ok T := by
  simp only [MatX.toMat4, MatX.ofMat4, and_self, if_true]
  congr 1
  funext i j
  simp [i.isLt, j.isLt]

theorem MatX.toMat31_ofMat31 {R : Type} (fill : R) (v : Mat31 R) :
    (MatX.ofMat31 fill v).toMat31 = .ok v := by
  simp only [MatX.toMat31, MatX.ofMat31, and_self, if_true]
  congr 1
  funext i
  simp [i.isLt]

/-- On a freshly constructed factor, in either order of the identities,
`evaluate_residuals` reads the pose from the node passed as `nodePose` and the landmark
from the node passed as `nodeLandmark`. -/
theorem evaluate_residuals_new {R : Type} [Sub R] (ops : SE3Ops R) (nodeAt : Nat → Node R)
    (storage : Factor1Pose1Landmark3d R ops.SE3) (observation : Mat31 R)
    (nodePose nodeLandmark : Nat) (obsInf : Mat3 R) (init : Bool) (robust_type : Nat)
    (T : Mat4 R) (l : Mat31 R)
    (hT : (nodeAt nodePose).get_state.toMat4 = .ok T)
    (hl : (nodeAt nodeLandmark).get_state.toMat31 = .ok l) :
    Factor1Pose1Landmark3d.evaluate_residuals ops nodeAt
        (Factor1Pose1Landmark3d.new nodeAt storage observation nodePose nodeLandmark obsInf
          init robust_type) =
      .ok (withResidual ops
        (Factor1Pose1Landmark3d.new nodeAt storage observation nodePose nodeLandmark obsInf
          init robust_type) T l) := by
  unfold Factor1Pose1Landmark3d.new
  by_cases h : (nodeAt nodePose).get_id < (nodeAt nodeLandmark).get_id
  · simp [h, Factor1Pose1Landmark3d.evaluate_residuals, vectorAt, hT, hl, withResidual, bind,
      Except.bind, pure, Except.pure]
  · simp [h, Factor1Pose1Landmark3d.evaluate_residuals, vectorAt, hT, hl, withResidual, bind,
      Except.bind, pure, Except.pure]

theorem new_obs {R S : Type} (nodeAt : Nat → Node R) (storage : Factor1Pose1Landmark3d R S)
    (observation : Mat31 R) (nodePose nodeLandmark : Nat) (obsInf : Mat3 R) (init : Bool)
    (robust_type : Nat) :
    (Factor1Pose1Landmark3d.new nodeAt storage observation nodePose nodeLandmark obsInf
      init robust_type).obs_ = observation := by
  unfold Factor1Pose1Landmark3d.new
  split_ifs <;> rfl

theorem new_W {R S : Type} (nodeAt : Nat → Node R) (storage : Factor1Pose1Landmark3d R S)
    (observation : Mat31 R) (nodePose nodeLandmark : Nat) (obsInf : Mat3 R) (init : Bool)
    (robust_type : Nat) :
    (Factor1Pose1Landmark3d.new nodeAt storage observation nodePose nodeLandmark obsInf
      init robust_type).W_ = obsInf := by
  unfold Factor1Pose1Landmark3d.new
  split_ifs <;> rfl

theorem new_reversed {R S : Type} (nodeAt : Nat → Node R)
    (storage : Factor1Pose1Landmark3d R S) (observation : Mat31 R)
    (nodePose nodeLandmark : Nat) (obsInf : Mat3 R) (init : Bool) (robust_type : Nat) :
    (Factor1Pose1Landmark3d.new nodeAt storage observation nodePose nodeLandmark obsInf
      init robust_type).reversedNodeOrder_ =
      decide (¬ (nodeAt nodePose).get_id < (nodeAt nodeLandmark).get_id) := by
  unfold Factor1Pose1Landmark3d.new
  split_ifs with h <;> simp [h]

/-- The example factor, computed in both orders of the identities: inverse pose applied
to the landmark is `(4, -3, 5)`, the residual is `(3, -4, 4)` and the chi-square is
`0.5 * (9 * 1 + 16 * 2 + 16 * 3)`. -/
theorem exFactor_values (poseId landmarkId : Nat) :
    (Factor1Pose1Landmark3d.evaluate_residuals (rigidOps ℚ) (exFactorNodes poseId landmarkId)
        (Factor1Pose1Landmark3d.new (exFactorNodes poseId landmarkId) exStorage exObs 0 1 exW
          false 0)).map
      (fun f => (f.r_ 0, f.r_ 1, f.r_ 2, f.evaluate_chi2.chi2_)) =
      .ok (3, -4, 4, 89 / 2) := by
  rw [evaluate_residuals_new (rigidOps ℚ) (exFactorNodes poseId landmarkId) _ _ 0 1 _ _ _
    exPose exLandmark (MatX.toMat4_ofMat4 _ _) (MatX.toMat31_ofMat31 _ _)]
  simp only [Except.map, withResidual, new_obs, new_W]
  simp [-Matrix.cons_val', Factor1Pose1Landmark3d.evaluate_chi2, dot3, mulVec3, sub3,
    rigidOps, exPose, exLandmark, exObs, exW]
  norm_num

/-- C7. For every interpretation of the arithmetic, every pose state `T`, landmark
state `l`, observation and weight matrix: a factor built with the pose node carrying
the smaller identity is not reversed, a factor built with the landmark node carrying
the smaller (or an equal) identity is reversed, `evaluate_residuals` returns on both,
and `evaluate_chi2` then leaves the same chi-square in both. -/
theorem chi2_order_invariant {R : Type} [Add R] [Sub R] [Mul R] [OfScientific R]
    (ops : SE3Ops R) (nodeAtA nodeAtB : Nat → Node R)
    (storageA storageB : Factor1Pose1Landmark3d R ops.SE3) (observation : Mat31 R)
    (obsInf : Mat3 R) (poseA landmarkA poseB landmarkB : Nat) (initA initB : Bool)
    (robustA robustB : Nat) (T : Mat4 R) (l : Mat31 R)
    (hTA : (nodeAtA poseA).get_state.toMat4 = .ok T)
    (hlA : (nodeAtA landmarkA).get_state.toMat31 = .ok l)
    (hTB : (nodeAtB poseB).get_state.toMat4 = .ok T)
    (hlB : (nodeAtB landmarkB).get_state.toMat31 = .ok l)
    (hA : (nodeAtA poseA).get_id < (nodeAtA landmarkA).get_id)
    (hB : (nodeAtB landmarkB).get_id ≤ (nodeAtB poseB).get_id) :
    ∃ fA fB,
      Factor1Pose1Landmark3d.evaluate_residuals ops nodeAtA
          (Factor1Pose1Landmark3d.new nodeAtA storageA observation poseA landmarkA obsInf
            initA robustA) = .ok fA ∧
      Factor1Pose1Landmark3d.evaluate_residuals ops nodeAtB
          (Factor1Pose1Landmark3d.new nodeAtB storageB observation poseB landmarkB obsInf
            initB robustB) = .ok fB ∧
      fA.reversedNodeOrder_ = false ∧ fB.reversedNodeOrder_ = true ∧
      fA.evaluate_chi2.chi2_ = fB.evaluate_chi2.chi2_ := by
  refine ⟨_, _, evaluate_residuals_new ops nodeAtA storageA observation poseA landmarkA obsInf
      initA robustA T l hTA hlA,
    evaluate_residuals_new ops nodeAtB storageB observation poseB landmarkB obsInf
      initB robustB T l hTB hlB, ?_, ?_, ?_⟩
  · simp [withResidual, new_reversed, hA]
  · simp [withResidual, new_reversed, Nat.not_lt.mpr hB]
  · simp [withResidual, Factor1Pose1Landmark3d.evaluate_chi2, new_obs, new_W]

/-- C7 at the example: identities (0, 1) against identities (5, 2). -/
theorem chi2_order_invariant_witness :
    ((exFactorNodes 0 1) 0).get_id < ((exFactorNodes 0 1) 1).get_id ∧
    ((exFactorNodes 5 2) 1).get_id ≤ ((exFactorNodes 5 2) 0).get_id ∧
    ∃ fA fB,
      Factor1Pose1Landmark3d.evaluate_residuals (rigidOps ℚ) (exFactorNodes 0 1)
          (Factor1Pose1Landmark3d.new (exFactorNodes 0 1) exStorage exObs 0 1 exW
            false 0) = .ok fA ∧
      Factor1Pose1Landmark3d.evaluate_residuals (rigidOps ℚ) (exFactorNodes 5 2)
          (Factor1Pose1Landmark3d.new (exFactorNodes 5 2) exStorage exObs 0 1 exW
            false 0) = .ok fB ∧
      fA.reversedNodeOrder_ = false ∧ fB.reversedNodeOrder_ = true ∧
      fA.evaluate_chi2.chi2_ = fB.evaluate_chi2.chi2_ :=
  ⟨by decide, by decide,
    chi2_order_invariant (rigidOps ℚ) (exFactorNodes 0 1) (exFactorNodes 5 2) exStorage
      exStorage exObs exW 0 1 0 1 false false 0 0 exPose exLandmark
      (MatX.toMat4_ofMat4 _ _) (MatX.toMat31_ofMat31 _ _)
      (MatX.toMat4_ofMat4 _ _) (MatX.toMat31_ofMat31 _ _) (by decide) (by decide)⟩

/-- C8. The constructor leaves a neighbour list of exactly two addresses whose node
identities are in ascending order (strictly whenever the two identities differ); the
reversed flag is set exactly when the pose node does not have the smaller identity, and
then the landmark is at position 0 and the pose at position 1; otherwise the pose is at
position 0 and the landmark at position 1. -/
theorem neighbours_ascending_and_reversed_flag {R S : Type} (nodeAt : Nat → Node R)
    (storage : Factor1Pose1Landmark3d R S) (observation : Mat31 R)
    (nodePose nodeLandmark : Nat) (obsInf : Mat3 R) (init : Bool) (robust_type : Nat) :
    ∃ a b,
      (Factor1Pose1Landmark3d.new nodeAt storage observation nodePose nodeLandmark obsInf
        init robust_type).neighbourNodes_ = [a, b] ∧
      (nodeAt a).get_id ≤ (nodeAt b).get_id ∧
      ((nodeAt nodePose).get_id ≠ (nodeAt nodeLandmark).get_id →
        (nodeAt a).get_id < (nodeAt b).get_id) ∧
      ((Factor1Pose1Landmark3d.new nodeAt storage observation nodePose nodeLandmark obsInf
          init robust_type).reversedNodeOrder_ = true ↔
        ¬ (nodeAt nodePose).get_id < (nodeAt nodeLandmark).get_id) ∧
      ((Factor1Pose1Landmark3d.new nodeAt storage observation nodePose nodeLandmark obsInf
          init robust_type).reversedNodeOrder_ = true → a = nodeLandmark ∧ b = nodePose) ∧
      ((Factor1Pose1Landmark3d.new nodeAt storage observation nodePose nodeLandmark obsInf
          init robust_type).reversedNodeOrder_ = false → a = nodePose ∧ b = nodeLandmark) := by
  by_cases h : (nodeAt nodePose).get_id < (nodeAt nodeLandmark).get_id
  · refine ⟨nodePose, nodeLandmark, ?_, Nat.le_of_lt h, fun _ => h, ?_, ?_, ?_⟩
    · simp [Factor1Pose1Landmark3d.new, h]
    · simp [new_reversed, h]
    · simp [new_reversed, h]
    · simp
  · refine ⟨nodeLandmark, nodePose, ?_, Nat.le_of_not_lt h, ?_, ?_, ?_, ?_⟩
    · simp [Factor1Pose1Landmark3d.new, h]
    · intro hne
      omega
    · simp [new_reversed, h]
    · simp
    · simp [new_reversed, h]

/-- C9. In either order of the identities, when the node passed as `nodePose` holds the
pose `T` and the node passed as `nodeLandmark` holds the landmark `l`,
`evaluate_residuals` returns and has cached the inverse of `T`, the landmark `l` and the
residual `inverse(T)` applied to `l`, minus the observation. -/
theorem residual_is_inverse_pose_landmark_minus_obs {R : Type} [Sub R] (ops : SE3Ops R)
    (nodeAt : Nat → Node R) (storage : Factor1Pose1Landmark3d R ops.SE3)
    (observation : Mat31 R) (nodePose nodeLandmark : Nat) (obsInf : Mat3 R) (init : Bool)
    (robust_type : Nat) (T : Mat4 R) (l : Mat31 R)
    (hT : (nodeAt nodePose).get_state.toMat4 = .ok T)
    (hl : (nodeAt nodeLandmark).get_state.toMat31 = .ok l) :
    ∃ f,
      Factor1Pose1Landmark3d.evaluate_residuals ops nodeAt
          (Factor1Pose1Landmark3d.new nodeAt storage observation nodePose nodeLandmark obsInf
            init robust_type) = .ok f ∧
      (f.reversedNodeOrder_ = true ↔
        ¬ (nodeAt nodePose).get_id < (nodeAt nodeLandmark).get_id) ∧
      f.Tinv_ = ops.inv (ops.ofMat4 T) ∧
      f.landmark_ = l ∧
      (∀ i, f.r_ i = ops.transform (ops.inv (ops.ofMat4 T)) l i - observation i) := by
  refine ⟨_, evaluate_residuals_new ops nodeAt storage observation nodePose nodeLandmark
    obsInf init robust_type T l hT hl, ?_, rfl, rfl, ?_⟩
  · simp [withResidual, new_reversed]
  · intro i
    simp [withResidual, new_obs, sub3]

/-- C9 at the example, in the reversed construction (identities 5 and 2). -/
theorem residual_is_inverse_pose_landmark_minus_obs_witness :
    ((exFactorNodes 5 2) 0).get_state.toMat4 = .ok exPose ∧
    ((exFactorNodes 5 2) 1).get_state.toMat31 = .ok exLandmark ∧
    ∃ f,
      Factor1Pose1Landmark3d.evaluate_residuals (rigidOps ℚ) (exFactorNodes 5 2)
          (Factor1Pose1Landmark3d.new (exFactorNodes 5 2) exStorage exObs 0 1 exW
            false 0) = .ok f ∧
      (f.reversedNodeOrder_ = true ↔
        ¬ ((exFactorNodes 5 2) 0).get_id < ((exFactorNodes 5 2) 1).get_id) ∧
      f.Tinv_ = (rigidOps ℚ).inv ((rigidOps ℚ).ofMat4 exPose) ∧
      f.landmark_ = exLandmark ∧
      (∀ i, f.r_ i =
        (rigidOps ℚ).transform ((rigidOps ℚ).inv ((rigidOps ℚ).ofMat4 exPose)) exLandmark i
          - exObs i) :=
  ⟨MatX.toMat4_ofMat4 _ _, MatX.toMat31_ofMat31 _ _,
    residual_is_inverse_pose_landmark_minus_obs (rigidOps ℚ) (exFactorNodes 5 2) exStorage
      exObs 0 1 exW false 0 exPose exLandmark (MatX.toMat4_ofMat4 _ _)
      (MatX.toMat31_ofMat31 _ _)⟩

/-- Whenever `evaluate_residuals` returns, it has left the information matrix and the
observation as they were. -/
theorem evaluate_residuals_keeps_W {R : Type} [Sub R] (ops : SE3Ops R) (nodeAt : Nat → Node R)
    (f f1 : Factor1Pose1Landmark3d R ops.SE3)
    (h : Factor1Pose1Landmark3d.evaluate_residuals ops nodeAt f = .ok f1) :
    f1.W_ = f.W_ ∧ f1.obs_ = f.obs_ := by
  unfold Factor1Pose1Landmark3d.evaluate_residuals at h
  simp only [bind, Except.bind, pure, Except.pure] at h
  split at h
  · cases h
  · split at h
    · cases h
    · split at h
      · cases h
      · split at h
        · cases h
        · injection h with h
          subst h
          exact ⟨rfl, rfl⟩

/-- The unrolled quadratic form of the code is the quadratic form of the matrix. -/
theorem dot3_mulVec3 {K : Type} [CommRing K] (W : Mat3 K) (r : Mat31 K) :
    dot3 r (mulVec3 W r) = Matrix.dotProduct r (Matrix.mulVec (Matrix.of W) r) := by
  simp [dot3, mulVec3, Matrix.dotProduct, Matrix.mulVec, Fin.sum_univ_three]

/-- The example information matrix is positive semi-definite. -/
theorem exW_posSemidef : Matrix.PosSemidef (Matrix.of exW) := by
  have e : Matrix.of exW = Matrix.diagonal ![1, 2, 3] := by
    ext i j
    fin_cases i <;> fin_cases j <;> simp [-Matrix.cons_val', exW]
  rw [e, Matrix.posSemidef_diagonal_iff]
  intro i
  fin_cases i <;> simp

/-- C10. Over a linear ordered field: after construction with information matrix `W`
and a residual evaluation that cached `r`, `evaluate_chi2` sets the chi-square to
`0.5 * r^T * W * r` and changes neither `r` nor `W`; the value is non-negative when `W`
is positive semi-definite and zero when `r` is zero.  The same holds after any later
residual evaluation, with the residual that one cached. -/
theorem chi2_is_half_weighted_square {K : Type} [LinearOrderedField K] [StarRing K]
    [TrivialStar K] (ops : SE3Ops K) (nodeAt : Nat → Node K)
    (storage : Factor1Pose1Landmark3d K ops.SE3) (observation : Mat31 K)
    (nodePose nodeLandmark : Nat) (obsInf : Mat3 K) (init : Bool) (robust_type : Nat)
    (T : Mat4 K) (l : Mat31 K)
    (hT : (nodeAt nodePose).get_state.toMat4 = .ok T)
    (hl : (nodeAt nodeLandmark).get_state.toMat31 = .ok l) :
    ∃ f,
      Factor1Pose1Landmark3d.evaluate_residuals ops nodeAt
          (Factor1Pose1Landmark3d.new nodeAt storage observation nodePose nodeLandmark obsInf
            init robust_type) = .ok f ∧
      f.evaluate_chi2.chi2_ =
        0.5 * Matrix.dotProduct f.r_ (Matrix.mulVec (Matrix.of obsInf) f.r_) ∧
      f.evaluate_chi2.r_ = f.r_ ∧
      f.evaluate_chi2.W_ = obsInf ∧
      (Matrix.PosSemidef (Matrix.of obsInf) → 0 ≤ f.evaluate_chi2.chi2_) ∧
      ((∀ i, f.r_ i = 0) → f.evaluate_chi2.chi2_ = 0) ∧
      (∀ (nodeAt2 : Nat → Node K) (f2 : Factor1Pose1Landmark3d K ops.SE3),
        Factor1Pose1Landmark3d.evaluate_residuals ops nodeAt2 f.evaluate_chi2 = .ok f2 →
          f2.evaluate_chi2.chi2_ =
            0.5 * Matrix.dotProduct f2.r_ (Matrix.mulVec (Matrix.of obsInf) f2.r_)) := by
  have hW : (withResidual ops
      (Factor1Pose1Landmark3d.new nodeAt storage observation nodePose nodeLandmark obsInf
        init robust_type) T l).W_ = obsInf := by
    simp [withResidual, new_W]
  refine ⟨_, evaluate_residuals_new ops nodeAt storage observation nodePose nodeLandmark
    obsInf init robust_type T l hT hl, ?_, rfl, hW, ?_, ?_, ?_⟩
  · simp only [Factor1Pose1Landmark3d.evaluate_chi2, hW, dot3_mulVec3]
  · intro hpsd
    have hq := hpsd.2
      (withResidual ops
        (Factor1Pose1Landmark3d.new nodeAt storage observation nodePose nodeLandmark obsInf
          init robust_type) T l).r_
    rw [star_trivial] at hq
    simp only [Factor1Pose1Landmark3d.evaluate_chi2, hW, dot3_mulVec3]
    have hhalf : (0 : K) ≤ 0.5 := by norm_num
    exact mul_nonneg hhalf hq
  · intro hr
    simp [Factor1Pose1Landmark3d.evaluate_chi2, dot3, hr]
  · intro nodeAt2 f2 h2
    have hk := (evaluate_residuals_keeps_W ops nodeAt2 _ f2 h2).1
    have hW2 : f2.W_ = obsInf := by
      rw [hk]
      exact hW
    simp only [Factor1Pose1Landmark3d.evaluate_chi2, hW2, dot3_mulVec3]

/-- C10 at the example, whose information matrix is positive semi-definite. -/
theorem chi2_is_half_weighted_square_witness :
    Matrix.PosSemidef (Matrix.of exW) ∧
    ((exFactorNodes 5 2) 0).get_state.toMat4 = .ok exPose ∧
    ((exFactorNodes 5 2) 1).get_state.toMat31 = .ok exLandmark ∧
    ∃ f,
      Factor1Pose1Landmark3d.evaluate_residuals (rigidOps ℚ) (exFactorNodes 5 2)
          (Factor1Pose1Landmark3d.new (exFactorNodes 5 2) exStorage exObs 0 1 exW
            false 0) = .ok f ∧
      f.evaluate_chi2.chi2_ =
        0.5 * Matrix.dotProduct f.r_ (Matrix.mulVec (Matrix.of exW) f.r_) ∧
      f.evaluate_chi2.r_ = f.r_ ∧
      f.evaluate_chi2.W_ = exW ∧
      (Matrix.PosSemidef (Matrix.of exW) → 0 ≤ f.evaluate_chi2.chi2_) ∧
      ((∀ i, f.r_ i = 0) → f.evaluate_chi2.chi2_ = 0) ∧
      (∀ (nodeAt2 : Nat → Node ℚ) (f2 : Factor1Pose1Landmark3d ℚ (rigidOps ℚ).SE3),
        Factor1Pose1Landmark3d.evaluate_residuals (rigidOps ℚ) nodeAt2 f.evaluate_chi2 =
            .ok f2 →
          f2.evaluate_chi2.chi2_ =
            0.5 * Matrix.dotProduct f2.r_ (Matrix.mulVec (Matrix.of exW) f2.r_)) :=
  ⟨exW_posSemidef, MatX.toMat4_ofMat4 _ _, MatX.toMat31_ofMat31 _ _,
    chi2_is_half_weighted_square (rigidOps ℚ) (exFactorNodes 5 2) exStorage exObs 0 1 exW
      false 0 exPose exLandmark (MatX.toMat4_ofMat4 _ _) (MatX.toMat31_ofMat31 _ _)⟩

/-! ## Plane fitting: sums of outer products -/

theorem gram_mulVec {K : Type} [Field K] {n : Nat} (u : Nat → Fin n → K) (N : Nat)
    (w : Fin n → K) :
    Matrix.mulVec (Matrix.of (gram u N)) w =
      fun a => Finset.sum (Finset.range N) (fun i => u i a * Matrix.dotProduct (u i) w) := by
  funext a
  simp only [Matrix.mulVec, Matrix.dotProduct, Matrix.of_apply, gram, Finset.sum_mul,
    Finset.mul_sum]
  rw [Finset.sum_comm]
  refine Finset.sum_congr rfl (fun i _ => Finset.sum_congr rfl (fun b _ => ?_))
  ring

theorem gram_quadratic {K : Type} [Field K] {n : Nat} (u : Nat → Fin n → K) (N : Nat)
    (w : Fin n → K) :
    Matrix.dotProduct w (Matrix.mulVec (Matrix.of (gram u N)) w) =
      Finset.sum (Finset.range N) (fun i => Matrix.dotProduct (u i) w ^ 2) := by
  rw [gram_mulVec]
  show Finset.sum Finset.univ (fun a => w a *
    Finset.sum (Finset.range N) (fun i => u i a * Matrix.dotProduct (u i) w)) = _
  simp_rw [Finset.mul_sum]
  rw [Finset.sum_comm]
  refine Finset.sum_congr rfl (fun i _ => ?_)
  have hterm : ∀ a, w a * (u i a * Matrix.dotProduct (u i) w) =
      (u i a * w a) * Matrix.dotProduct (u i) w := by
    intro a
    ring
  simp_rw [hterm]
  rw [← Finset.sum_mul, pow_two]
  rfl

theorem dotProduct_self_pos {K : Type} [LinearOrderedField K] {n : Nat} (w : Fin n → K)
    (hw : w ≠ 0) : 0 < Matrix.dotProduct w w := by
  have hne : Matrix.dotProduct w w ≠ 0 := by
    intro h
    exact hw (Matrix.dotProduct_self_eq_zero.mp h)
  have hnn : 0 ≤ Matrix.dotProduct w w :=
    Finset.sum_nonneg (fun i _ => mul_self_nonneg (w i))
  exact lt_of_le_of_ne hnn (Ne.symm hne)

/-- A minimal unit eigenvector of a sum of outer products is orthogonal to every
summand as soon as some non-zero vector is. -/
theorem min_eigenvector_annihilates {K : Type} [LinearOrderedField K] {n : Nat}
    (u : Nat → Fin n → K) (N : Nat) (v p0 : Fin n → K)
    (hv : IsMinEigenvector (gram u N) v) (hp0 : p0 ≠ 0)
    (h0 : ∀ i, i < N → Matrix.dotProduct (u i) p0 = 0) :
    ∀ i, i < N → Matrix.dotProduct (u i) v = 0 := by
  obtain ⟨hunit, lam, hlam, hmin⟩ := hv
  have hker : Matrix.mulVec (Matrix.of (gram u N)) p0 = (0 : K) • p0 := by
    rw [gram_mulVec]
    funext a
    simp only [zero_smul, Pi.zero_apply]
    exact Finset.sum_eq_zero (fun i hi => by rw [h0 i (Finset.mem_range.mp hi), mul_zero])
  have hle : lam ≤ 0 := hmin 0 p0 hp0 hker
  have hq := gram_quadratic u N v
  rw [hlam, Matrix.dotProduct_smul, hunit, smul_eq_mul, mul_one] at hq
  have hnn : ∀ i ∈ Finset.range N, 0 ≤ Matrix.dotProduct (u i) v ^ 2 :=
    fun i _ => sq_nonneg _
  have hsum0 : Finset.sum (Finset.range N) (fun i => Matrix.dotProduct (u i) v ^ 2) = 0 :=
    le_antisymm (hq ▸ hle) (Finset.sum_nonneg hnn)
  intro i hi
  have := (Finset.sum_eq_zero_iff_of_nonneg hnn).mp hsum0 i (Finset.mem_range.mpr hi)
  exact pow_eq_zero_iff (two_ne_zero) |>.mp this

/-! ## Plane fitting: geometry in three dimensions -/

theorem dot3_eq_dotProduct {K : Type} [Field K] (a b : Mat31 K) :
    dot3 a b = Matrix.dotProduct a b := by
  simp [dot3, Matrix.dotProduct, Fin.sum_univ_three]

/-- A vector orthogonal to `a` and `b` is a multiple of their cross product. -/
theorem orthogonal_parallel_cross {K : Type} [Field K] (a b u : Mat31 K)
    (hua : dot3 u a = 0) (hub : dot3 u b = 0) (k : Fin 3) :
    dot3 (crossProduct a b) (crossProduct a b) * u k =
      dot3 (crossProduct a b) u * crossProduct a b k := by
  simp only [dot3, cross_apply, Matrix.cons_val_zero, Matrix.cons_val_one, Matrix.head_cons,
    Matrix.cons_val_two, Matrix.tail_cons] at hua hub ⊢
  fin_cases k
  · simp only [Fin.zero_eta, Matrix.cons_val_zero]
    linear_combination
      ((a 2 * b 0 - a 0 * b 2) * a 2 - (a 0 * b 1 - a 1 * b 0) * a 1) * hub -
      ((a 2 * b 0 - a 0 * b 2) * b 2 - (a 0 * b 1 - a 1 * b 0) * b 1) * hua
  · simp only [Fin.mk_one, Matrix.cons_val_one, Matrix.head_cons]
    linear_combination
      ((a 0 * b 1 - a 1 * b 0) * a 0 - (a 1 * b 2 - a 2 * b 1) * a 2) * hub -
      ((a 0 * b 1 - a 1 * b 0) * b 0 - (a 1 * b 2 - a 2 * b 1) * b 2) * hua
  · simp only [Fin.reduceFinMk, Matrix.cons_val_two, Matrix.tail_cons, Matrix.head_cons]
    linear_combination
      ((a 1 * b 2 - a 2 * b 1) * a 1 - (a 2 * b 0 - a 0 * b 2) * a 0) * hub -
      ((a 1 * b 2 - a 2 * b 1) * b 1 - (a 2 * b 0 - a 0 * b 2) * b 0) * hua

/-- Two vectors orthogonal to the independent vectors `a` and `b`, the second of norm
one: the first is its component along the second. -/
theorem orthogonal_eq_component {K : Type} [LinearOrderedField K] (a b u n : Mat31 K)
    (hab : crossProduct a b ≠ 0) (hua : dot3 u a = 0) (hub : dot3 u b = 0)
    (hna : dot3 n a = 0) (hnb : dot3 n b = 0) (hnn : dot3 n n = 1) (k : Fin 3) :
    u k = dot3 u n * n k := by
  have hww : dot3 (crossProduct a b) (crossProduct a b) ≠ 0 := by
    rw [dot3_eq_dotProduct]
    exact ne_of_gt (dotProduct_self_pos _ hab)
  have E1 := orthogonal_parallel_cross a b u hua hub
  have E2 := orthogonal_parallel_cross a b n hna hnb
  generalize crossProduct a b = w at hww E1 E2
  have hun : dot3 w w * dot3 u n = dot3 w u * dot3 w n := by
    simp only [dot3] at E1 E2 ⊢
    linear_combination n 0 * E1 0 + n 1 * E1 1 + n 2 * E1 2
  have hnn2 : dot3 w n * dot3 w n = dot3 w w := by
    simp only [dot3] at E1 E2 hnn ⊢
    linear_combination -(n 0 * E2 0 + n 1 * E2 1 + n 2 * E2 2) +
      (w 0 * w 0 + w 1 * w 1 + w 2 * w 2) * hnn
  have key : dot3 w w * dot3 w w * (u k - dot3 u n * n k) = 0 := by
    linear_combination dot3 w w * E1 k - dot3 w w * n k * hun - dot3 w u * dot3 w n * E2 k -
      dot3 w u * w k * hnn2
  have := (mul_eq_zero.mp key).resolve_left (mul_ne_zero hww hww)
  linear_combination this

/-! ## Plane fitting: the two formulations on points of one plane -/

theorem centeredC_eq_gram {K : Type} [Field K] (X : MatX K) :
    centeredC X = gram (fun i j => X.coeff i j.val - centroidOf X j) X.rows := rfl

theorem homogeneousQ_eq_gram {K : Type} [Field K] (X : MatX K) :
    homogeneousQ X = gram (pHomogOf X) X.rows := by
  funext a b
  fin_cases a <;> fin_cases b <;>
    simp [homogeneousQ, gram, pHomogOf, MatX.colwise_sum]

theorem dot3_sub_right {K : Type} [Field K] (n a b : Mat31 K) :
    dot3 n (a - b) = dot3 n a - dot3 n b := by
  simp only [dot3, Pi.sub_apply]
  ring

theorem dot3_comm {K : Type} [Field K] (a b : Mat31 K) : dot3 a b = dot3 b a := by
  simp only [dot3]
  ring

/-- The centre of points of the plane `n . x + d = 0` lies on that plane. -/
theorem centroid_on_plane {K : Type} [LinearOrderedField K] (X : MatX K) (n : Mat31 K) (d : K)
    (hrows : 3 ≤ X.rows) (hplane : OnPlane X n d) : dot3 n (centroidOf X) + d = 0 := by
  have hN : (X.rows : K) ≠ 0 := by
    have : (0 : K) < (X.rows : K) := by exact_mod_cast (by omega : 0 < X.rows)
    exact ne_of_gt this
  have hsum : Finset.sum (Finset.range X.rows) (fun i => dot3 n (X.row3 i)) =
      (X.rows : K) * (-d) := by
    rw [Finset.sum_congr rfl (fun i hi => show dot3 n (X.row3 i) = -d by
      have := hplane i (Finset.mem_range.mp hi)
      linear_combination this)]
    simp
  have hexp : Finset.sum (Finset.range X.rows) (fun i => dot3 n (X.row3 i)) =
      n 0 * X.colwise_sum 0 + n 1 * X.colwise_sum 1 + n 2 * X.colwise_sum 2 := by
    simp only [dot3, MatX.row3, MatX.colwise_sum, Finset.sum_add_distrib, Finset.mul_sum]
  simp only [dot3, centroidOf]
  field_simp
  rw [hexp] at hsum
  linear_combination hsum

theorem ne_zero_of_dot3_self_eq_one {K : Type} [Field K] (n : Mat31 K) (hnn : dot3 n n = 1) :
    n ≠ 0 := by
  intro h
  rw [h] at hnn
  simp [dot3] at hnn

/-- On non-collinear points of the plane `n . x + d = 0`, `n` of norm one, the centred
formulation returns `(n, d)` or `(-n, -d)`. -/
theorem centered_of_coplanar {K : Type} [LinearOrderedField K] (ops : EigenOps K) (X : MatX K)
    (n : Mat31 K) (d : K)
    (heig : IsMinEigenvector (centeredC X) (ops.eigenvectors3_col0 (centeredC X)))
    (hrows : 3 ≤ X.rows) (hnc : NonCollinear X) (hnn : dot3 n n = 1)
    (hplane : OnPlane X n d) :
    estimate_plane_centered ops X = planeOf n d ∨
      estimate_plane_centered ops X = planeOf (fun k => - n k) (-d) := by
  have hc := centroid_on_plane X n d hrows hplane
  have hunit : dot3 (ops.eigenvectors3_col0 (centeredC X))
      (ops.eigenvectors3_col0 (centeredC X)) = 1 := by
    rw [dot3_eq_dotProduct]
    exact heig.1
  rw [centeredC_eq_gram] at heig
  have hann := min_eigenvector_annihilates _ X.rows _ n heig
    (ne_zero_of_dot3_self_eq_one n hnn)
    (fun i hi => by
      rw [← dot3_eq_dotProduct]
      have := hplane i hi
      simp only [dot3, MatX.row3] at this hc ⊢
      linear_combination this - hc)
  rw [← centeredC_eq_gram] at hann
  show ![ops.eigenvectors3_col0 (centeredC X) 0, ops.eigenvectors3_col0 (centeredC X) 1,
      ops.eigenvectors3_col0 (centeredC X) 2,
      - dot3 (centroidOf X) (ops.eigenvectors3_col0 (centeredC X))] = planeOf n d ∨
    ![ops.eigenvectors3_col0 (centeredC X) 0, ops.eigenvectors3_col0 (centeredC X) 1,
      ops.eigenvectors3_col0 (centeredC X) 2,
      - dot3 (centroidOf X) (ops.eigenvectors3_col0 (centeredC X))] =
      planeOf (fun k => - n k) (-d)
  generalize ops.eigenvectors3_col0 (centeredC X) = v at hunit hann ⊢
  obtain ⟨i, j, k, hi, hj, hk, hcross⟩ := hnc
  have hv : ∀ r, r < X.rows → dot3 v (X.row3 r) = dot3 v (centroidOf X) := by
    intro r hr
    have := hann r hr
    rw [← dot3_eq_dotProduct] at this
    simp only [dot3, MatX.row3] at this ⊢
    linear_combination this
  have hn : ∀ r, r < X.rows → dot3 n (X.row3 r) = -d := by
    intro r hr
    linear_combination hplane r hr
  have hcomp := orthogonal_eq_component (X.row3 j - X.row3 i) (X.row3 k - X.row3 i) v n hcross
    (by rw [dot3_sub_right, hv j hj, hv i hi, sub_self])
    (by rw [dot3_sub_right, hv k hk, hv i hi, sub_self])
    (by rw [dot3_sub_right, hn j hj, hn i hi, sub_self])
    (by rw [dot3_sub_right, hn k hk, hn i hi, sub_self]) hnn
  generalize dot3 v n = t at hcomp
  have h0 := hcomp 0
  have h1 := hcomp 1
  have h2 := hcomp 2
  have ht : t * t = 1 := by
    simp only [dot3] at hunit hnn
    linear_combination hunit - (v 0 + t * n 0) * h0 - (v 1 + t * n 1) * h1 -
      (v 2 + t * n 2) * h2 - t * t * hnn
  have hd : - dot3 (centroidOf X) v = t * d := by
    simp only [dot3] at hc ⊢
    linear_combination - centroidOf X 0 * h0 - centroidOf X 1 * h1 - centroidOf X 2 * h2 -
      t * hc
  rw [h0, h1, h2, hd]
  rcases mul_self_eq_one_iff.mp ht with rfl | rfl
  · left
    simp [planeOf]
  · right
    simp [planeOf]

/-- On non-collinear points of the plane `n . x + d = 0`, `n` of norm one, the
homogeneous formulation divides by a non-zero scale and returns `(n, d)` or
`(-n, -d)`. -/
theorem homogeneous_of_coplanar {K : Type} [LinearOrderedField K] (ops : EigenOps K)
    (X : MatX K) (n : Mat31 K) (d : K)
    (heig : IsMinEigenvector (homogeneousQ X) (ops.eigenvectors4_col0 (homogeneousQ X)))
    (hsqrt : IsSqrt
      (dot3 (head3 (ops.eigenvectors4_col0 (homogeneousQ X)))
        (head3 (ops.eigenvectors4_col0 (homogeneousQ X))))
      (homogeneousScale ops X))
    (hnc : NonCollinear X) (hnn : dot3 n n = 1) (hplane : OnPlane X n d) :
    homogeneousScale ops X ≠ 0 ∧
      (estimate_plane_homogeneous ops X = planeOf n d ∨
        estimate_plane_homogeneous ops X = planeOf (fun k => - n k) (-d)) := by
  have hunit := heig.1
  rw [homogeneousQ_eq_gram] at heig
  have hp0 : planeOf n d ≠ 0 := by
    intro h
    apply ne_zero_of_dot3_self_eq_one n hnn
    funext q
    fin_cases q
    · simpa [planeOf] using congrFun h 0
    · simpa [planeOf] using congrFun h 1
    · simpa [planeOf] using congrFun h 2
  have hann := min_eigenvector_annihilates _ X.rows _ (planeOf n d) heig hp0
    (fun i hi => by
      have := hplane i hi
      simp only [dot3, MatX.row3, Fin.val_zero, Fin.val_one, Fin.val_two] at this
      simp only [Matrix.dotProduct, Fin.sum_univ_four, pHomogOf, planeOf]
      simp
      linear_combination this)
  rw [← homogeneousQ_eq_gram] at hann
  show homogeneousScale ops X ≠ 0 ∧
    ((fun q => ops.eigenvectors4_col0 (homogeneousQ X) q / homogeneousScale ops X) =
        planeOf n d ∨
      (fun q => ops.eigenvectors4_col0 (homogeneousQ X) q / homogeneousScale ops X) =
        planeOf (fun k => - n k) (-d))
  generalize homogeneousScale ops X = s at hsqrt ⊢
  generalize ops.eigenvectors4_col0 (homogeneousQ X) = v at hunit hann hsqrt ⊢
  obtain ⟨hs0, hss⟩ := hsqrt
  obtain ⟨i, j, k, hi, hj, hk, hcross⟩ := hnc
  have hv : ∀ r, r < X.rows → dot3 (head3 v) (X.row3 r) = - v 3 := by
    intro r hr
    have := hann r hr
    simp only [Matrix.dotProduct, Fin.sum_univ_four, pHomogOf] at this
    simp at this
    simp only [dot3, MatX.row3, head3, Fin.val_zero, Fin.val_one, Fin.val_two]
    simp
    linear_combination this
  have hn : ∀ r, r < X.rows → dot3 n (X.row3 r) = -d := by
    intro r hr
    linear_combination hplane r hr
  have hcomp := orthogonal_eq_component (X.row3 j - X.row3 i) (X.row3 k - X.row3 i)
    (head3 v) n hcross
    (by rw [dot3_sub_right, hv j hj, hv i hi, sub_self])
    (by rw [dot3_sub_right, hv k hk, hv i hi, sub_self])
    (by rw [dot3_sub_right, hn j hj, hn i hi, sub_self])
    (by rw [dot3_sub_right, hn k hk, hn i hi, sub_self]) hnn
  have hvi := hv i hi
  have hni := hn i hi
  generalize dot3 (head3 v) n = t at hcomp
  have h0 : v 0 = t * n 0 := by simpa [head3] using hcomp 0
  have h1 : v 1 = t * n 1 := by simpa [head3] using hcomp 1
  have h2 : v 2 = t * n 2 := by simpa [head3] using hcomp 2
  have h3 : v 3 = t * d := by
    simp only [dot3, MatX.row3, head3, Fin.val_zero, Fin.val_one, Fin.val_two] at hvi hni
    simp at hvi
    linear_combination hvi - X.coeff i 0 * h0 - X.coeff i 1 * h1 - X.coeff i 2 * h2 - t * hni
  have hst : s * s = t * t := by
    rw [hss]
    simp only [dot3, head3] at hnn ⊢
    simp
    linear_combination (v 0 + t * n 0) * h0 + (v 1 + t * n 1) * h1 + (v 2 + t * n 2) * h2 +
      t * t * hnn
  have ht0 : t ≠ 0 := by
    rintro rfl
    simp only [Matrix.dotProduct, Fin.sum_univ_four, h0, h1, h2, h3, zero_mul, mul_zero,
      add_zero] at hunit
    exact zero_ne_one hunit
  have hsne : s ≠ 0 := by
    rintro rfl
    rw [mul_zero] at hst
    exact ht0 (mul_self_eq_zero.mp hst.symm)
  refine ⟨hsne, ?_⟩
  rcases mul_self_eq_mul_self_iff.mp hst with rfl | rfl
  · left
    funext q
    fin_cases q
    · simp [planeOf, h0, mul_div_cancel_left₀ _ hsne]
    · simp [planeOf, h1, mul_div_cancel_left₀ _ hsne]
    · simp [planeOf, h2, mul_div_cancel_left₀ _ hsne]
    · simp [planeOf, h3, mul_div_cancel_left₀ _ hsne]
  · right
    have hdiv : ∀ x : K, t * x / -t = -x := by
      intro x
      field_simp
      ring
    funext q
    fin_cases q
    · simp [planeOf, h0, hdiv]
    · simp [planeOf, h1, hdiv]
    · simp [planeOf, h2, hdiv]
    · simp [planeOf, h3, hdiv]

/-! ## Plane fitting: the example arrays -/

theorem centeredC_exSkew : centeredC exSkew = ![![8, 0, 0], ![0, 8, 0], ![0, 0, 4]] := by
  funext a b
  fin_cases a <;> fin_cases b <;>
    simp [-Matrix.cons_val', centeredC, centroidOf, MatX.colwise_sum, exSkew, MatX.ofRows,
      Finset.sum_range_succ] <;> norm_num

theorem centroidOf_exSkew : centroidOf exSkew = ![0, 0, -7 / 12] := by
  funext a
  fin_cases a
  · simp [-Matrix.cons_val', centroidOf, MatX.colwise_sum, exSkew, MatX.ofRows,
      Finset.sum_range_succ]
  · simp [-Matrix.cons_val', centroidOf, MatX.colwise_sum, exSkew, MatX.ofRows,
      Finset.sum_range_succ]
  · simp [-Matrix.cons_val', centroidOf, MatX.colwise_sum, exSkew, MatX.ofRows,
      Finset.sum_range_succ]
    norm_num

theorem homogeneousQ_exSkew :
    homogeneousQ exSkew =
      ![![8, 0, 0, 0], ![0, 8, 0, 0], ![0, 0, 193 / 36, -7 / 3], ![0, 0, -7 / 3, 4]] := by
  rw [homogeneousQ_eq_gram]
  funext a b
  fin_cases a <;> fin_cases b <;>
    simp [-Matrix.cons_val', gram, pHomogOf, exSkew, MatX.ofRows, Finset.sum_range_succ] <;>
    norm_num

theorem homogeneousQ_exTetra :
    homogeneousQ exTetra =
      ![![16, 0, 0, 0], ![0, 16, 0, 0], ![0, 0, 16, 0], ![0, 0, 0, 4]] := by
  rw [homogeneousQ_eq_gram]
  funext a b
  fin_cases a <;> fin_cases b <;>
    simp [-Matrix.cons_val', gram, pHomogOf, exTetra, MatX.ofRows, Finset.sum_range_succ] <;>
    norm_num

theorem centeredC_exTetra : centeredC exTetra = ![![16, 0, 0], ![0, 16, 0], ![0, 0, 16]] := by
  funext a b
  fin_cases a <;> fin_cases b <;>
    simp [-Matrix.cons_val', centeredC, centroidOf, MatX.colwise_sum, exTetra, MatX.ofRows,
      Finset.sum_range_succ] <;> norm_num

/-- A unit eigenvector whose eigenvalue bounds the quadratic form from below is a
minimal unit eigenvector. -/
theorem isMinEigenvector_of_lower_bound {K : Type} [LinearOrderedField K] {n : Nat}
    (A : Fin n → Fin n → K) (v : Fin n → K) (lam : K)
    (hunit : Matrix.dotProduct v v = 1)
    (heig : Matrix.mulVec (Matrix.of A) v = lam • v)
    (hlow : ∀ w : Fin n → K,
      lam * Matrix.dotProduct w w ≤ Matrix.dotProduct w (Matrix.mulVec (Matrix.of A) w)) :
    IsMinEigenvector A v := by
  refine ⟨hunit, lam, heig, fun mu w hw hmu => ?_⟩
  have h := hlow w
  rw [hmu, Matrix.dotProduct_smul, smul_eq_mul] at h
  exact le_of_mul_le_mul_right h (dotProduct_self_pos w hw)

theorem exSkewOps_sound : exSkewOps.SoundAt exSkew := by
  refine ⟨?_, ?_, ?_⟩
  · rw [centeredC_exSkew]
    refine isMinEigenvector_of_lower_bound _ _ 4 ?_ ?_ ?_
    · simp [exSkewOps, Matrix.dotProduct, Fin.sum_univ_three]
    · funext i
      fin_cases i <;> simp [exSkewOps, Matrix.mulVec, Matrix.dotProduct, Fin.sum_univ_three]
    · intro w
      simp only [Matrix.mulVec, Matrix.dotProduct, Fin.sum_univ_three, Matrix.of_apply]
      simp [-Matrix.cons_val']
      nlinarith [sq_nonneg (w 0), sq_nonneg (w 1)]
  · rw [homogeneousQ_exSkew]
    refine isMinEigenvector_of_lower_bound _ _ (9 / 4) ?_ ?_ ?_
    · simp [exSkewOps, Matrix.dotProduct, Fin.sum_univ_four]
      norm_num
    · funext i
      fin_cases i <;>
        simp [exSkewOps, Matrix.mulVec, Matrix.dotProduct, Fin.sum_univ_four] <;> norm_num
    · intro w
      simp only [Matrix.mulVec, Matrix.dotProduct, Fin.sum_univ_four, Matrix.of_apply]
      simp [-Matrix.cons_val']
      nlinarith [sq_nonneg (w 0), sq_nonneg (w 1), sq_nonneg (4 * w 2 - 3 * w 3)]
  · simp [IsSqrt, homogeneousScale, exSkewOps, head3, dot3, exSqrt]
    norm_num

/-- A unit vector orthogonal to every summand is a minimal unit eigenvector of the sum
of outer products. -/
theorem isMinEigenvector_gram_of_annihilates {K : Type} [LinearOrderedField K] {n : Nat}
    (u : Nat → Fin n → K) (N : Nat) (v : Fin n → K) (hunit : Matrix.dotProduct v v = 1)
    (h0 : ∀ i, i < N → Matrix.dotProduct (u i) v = 0) : IsMinEigenvector (gram u N) v := by
  refine isMinEigenvector_of_lower_bound _ _ 0 hunit ?_ ?_
  · rw [gram_mulVec]
    funext a
    simp only [zero_smul, Pi.zero_apply]
    exact Finset.sum_eq_zero (fun i hi => by rw [h0 i (Finset.mem_range.mp hi), mul_zero])
  · intro w
    rw [gram_quadratic, zero_mul]
    exact Finset.sum_nonneg (fun i _ => sq_nonneg _)

theorem exSquare_onPlane : OnPlane exSquare ![0, 0, 1] 0 := by
  intro i hi
  have hi4 : i < 4 := hi
  interval_cases i <;> simp [-Matrix.cons_val', dot3, MatX.row3, exSquare, MatX.ofRows]

theorem exSquare_nonCollinear : NonCollinear exSquare := by
  refine ⟨0, 1, 2, by decide, by decide, by decide, ?_⟩
  intro h
  have h2 := congrFun h 2
  simp [-Matrix.cons_val', cross_apply, MatX.row3, exSquare, MatX.ofRows] at h2

theorem exSquareOps_sound : exSquareOps.SoundAt exSquare := by
  refine ⟨?_, ?_, ?_⟩
  · rw [centeredC_eq_gram]
    refine isMinEigenvector_gram_of_annihilates _ _ _ ?_ ?_
    · simp [exSquareOps, Matrix.dotProduct, Fin.sum_univ_three]
    · intro i hi
      have hi4 : i < 4 := hi
      interval_cases i <;>
        simp [-Matrix.cons_val', exSquareOps, Matrix.dotProduct, Fin.sum_univ_three,
          centroidOf, MatX.colwise_sum, exSquare, MatX.ofRows, Finset.sum_range_succ]
  · rw [homogeneousQ_eq_gram]
    refine isMinEigenvector_gram_of_annihilates _ _ _ ?_ ?_
    · simp [exSquareOps, Matrix.dotProduct, Fin.sum_univ_four]
    · intro i hi
      have hi4 : i < 4 := hi
      interval_cases i <;>
        simp [-Matrix.cons_val', exSquareOps, Matrix.dotProduct, Fin.sum_univ_four,
          pHomogOf, exSquare, MatX.ofRows]
  · simp [IsSqrt, homogeneousScale, exSquareOps, head3, dot3, exSqrt]
    norm_num

theorem exTetraOps_sound : exTetraOps.SoundAt exTetra := by
  refine ⟨?_, ?_, ?_⟩
  · rw [centeredC_exTetra]
    refine isMinEigenvector_of_lower_bound _ _ 16 ?_ ?_ ?_
    · simp [exTetraOps, Matrix.dotProduct, Fin.sum_univ_three]
    · funext i
      fin_cases i <;> simp [exTetraOps, Matrix.mulVec, Matrix.dotProduct, Fin.sum_univ_three]
    · intro w
      simp only [Matrix.mulVec, Matrix.dotProduct, Fin.sum_univ_three, Matrix.of_apply]
      simp [-Matrix.cons_val']
      nlinarith [sq_nonneg (w 0), sq_nonneg (w 1)]
  · rw [homogeneousQ_exTetra]
    refine isMinEigenvector_of_lower_bound _ _ 4 ?_ ?_ ?_
    · simp [exTetraOps, Matrix.dotProduct, Fin.sum_univ_four]
    · funext i
      fin_cases i <;> simp [exTetraOps, Matrix.mulVec, Matrix.dotProduct, Fin.sum_univ_four]
    · intro w
      simp only [Matrix.mulVec, Matrix.dotProduct, Fin.sum_univ_four, Matrix.of_apply]
      simp [-Matrix.cons_val']
      nlinarith [sq_nonneg (w 0), sq_nonneg (w 1), sq_nonneg (w 2)]
  · simp [IsSqrt, homogeneousScale, exTetraOps, head3, dot3, exSqrt]
    norm_num

theorem exSkew_nonCollinear : NonCollinear exSkew := by
  refine ⟨0, 1, 2, by decide, by decide, by decide, ?_⟩
  intro h
  have h2 := congrFun h 2
  simp [-Matrix.cons_val', cross_apply, MatX.row3, exSkew, MatX.ofRows] at h2
  norm_num at h2

theorem exTetra_nonCollinear : NonCollinear exTetra := by
  refine ⟨0, 1, 2, by decide, by decide, by decide, ?_⟩
  intro h
  have h2 := congrFun h 2
  simp [-Matrix.cons_val', cross_apply, MatX.row3, exTetra, MatX.ofRows] at h2
  norm_num at h2

/-- Whatever the library returns at `exSkew` within its documented results, the plane of
the centred formulation has offset `7/12` times its third normal component. -/
theorem exSkew_centered_shape (ops : EigenOps ℚ) (h : ops.SoundAt exSkew) :
    estimate_plane_centered ops exSkew 3 = 7 / 12 * estimate_plane_centered ops exSkew 2 ∧
      estimate_plane_centered ops exSkew 2 ≠ 0 := by
  obtain ⟨hunit, lam, heig, hmin⟩ := h.eig3
  simp only [estimate_plane_centered]
  rw [centroidOf_exSkew]
  rw [centeredC_exSkew] at hunit heig hmin ⊢
  generalize ops.eigenvectors3_col0 ![![8, 0, 0], ![0, 8, 0], ![0, 0, 4]] = v at hunit heig ⊢
  have hle : lam ≤ 4 := by
    refine hmin 4 ![0, 0, 1] ?_ ?_
    · intro hz
      have := congrFun hz 2
      simp at this
    · funext i
      fin_cases i <;> simp [Matrix.mulVec, Matrix.dotProduct, Fin.sum_univ_three]
  have e0 := congrFun heig 0
  have e1 := congrFun heig 1
  simp [-Matrix.cons_val', Matrix.mulVec, Matrix.dotProduct, Fin.sum_univ_three] at e0 e1
  have v0 : v 0 = 0 := by
    rcases e0 with h | h
    · linarith
    · exact h
  have v1 : v 1 = 0 := by
    rcases e1 with h | h
    · linarith
    · exact h
  simp only [Matrix.dotProduct, Fin.sum_univ_three, v0, v1] at hunit
  have v2 : v 2 ≠ 0 := by
    intro hz
    rw [hz] at hunit
    norm_num at hunit
  constructor
  · simp [-Matrix.cons_val', dot3]
    ring
  · simpa using v2

/-- Whatever the library returns at `exSkew` within its documented results, the plane of
the homogeneous formulation has offset `4/3` times its third normal component. -/
theorem exSkew_homogeneous_shape (ops : EigenOps ℚ) (h : ops.SoundAt exSkew) :
    estimate_plane_homogeneous ops exSkew 3 =
        4 / 3 * estimate_plane_homogeneous ops exSkew 2 ∧
      estimate_plane_homogeneous ops exSkew 2 ≠ 0 := by
  obtain ⟨hunit, lam, heig, hmin⟩ := h.eig4
  obtain ⟨hs0, hss⟩ := h.sqrt
  simp only [estimate_plane_homogeneous]
  generalize homogeneousScale ops exSkew = s at hs0 hss ⊢
  rw [homogeneousQ_exSkew] at hunit heig hmin hss ⊢
  generalize ops.eigenvectors4_col0
    ![![8, 0, 0, 0], ![0, 8, 0, 0], ![0, 0, 193 / 36, -7 / 3], ![0, 0, -7 / 3, 4]] = v
    at hunit heig hss ⊢
  have hle : lam ≤ 9 / 4 := by
    refine hmin (9 / 4) ![0, 0, 3 / 5, 4 / 5] ?_ ?_
    · intro hz
      have := congrFun hz 2
      simp at this
    · funext i
      fin_cases i <;>
        simp [Matrix.mulVec, Matrix.dotProduct, Fin.sum_univ_four] <;> norm_num
  have e0 := congrFun heig 0
  have e1 := congrFun heig 1
  have e2 := congrFun heig 2
  have e3 := congrFun heig 3
  simp [-Matrix.cons_val', Matrix.mulVec, Matrix.dotProduct, Fin.sum_univ_four] at e0 e1 e2 e3
  have v0 : v 0 = 0 := by
    rcases e0 with h | h
    · linarith
    · exact h
  have v1 : v 1 = 0 := by
    rcases e1 with h | h
    · linarith
    · exact h
  have v3 : v 3 = 4 / 3 * v 2 := by
    have h8 : (64 / 9 - lam) * (4 * v 2 - 3 * v 3) = 0 := by
      linear_combination 4 * e2 - 3 * e3
    rcases mul_eq_zero.mp h8 with h | h
    · linarith
    · linarith
  simp only [Matrix.dotProduct, Fin.sum_univ_four, v0, v1, v3] at hunit
  have v2 : v 2 ≠ 0 := by
    intro hz
    rw [hz] at hunit
    norm_num at hunit
  have hsne : s ≠ 0 := by
    rintro rfl
    simp [dot3, head3, v0, v1] at hss
    exact v2 hss
  constructor
  · rw [v3]
    field_simp
  · exact div_ne_zero v2 hsne

/-- Whatever the library returns at `exTetra` within its documented results, the scale
by which the homogeneous formulation divides is zero. -/
theorem exTetra_scale_zero (ops : EigenOps ℚ) (h : ops.SoundAt exTetra) :
    homogeneousScale ops exTetra = 0 := by
  obtain ⟨hunit, lam, heig, hmin⟩ := h.eig4
  obtain ⟨hs0, hss⟩ := h.sqrt
  generalize homogeneousScale ops exTetra = s at hs0 hss ⊢
  rw [homogeneousQ_exTetra] at hunit heig hmin hss
  generalize ops.eigenvectors4_col0
    ![![16, 0, 0, 0], ![0, 16, 0, 0], ![0, 0, 16, 0], ![0, 0, 0, 4]] = v at hunit heig hss
  have hle : lam ≤ 4 := by
    refine hmin 4 ![0, 0, 0, 1] ?_ ?_
    · intro hz
      have := congrFun hz 3
      simp at this
    · funext i
      fin_cases i <;> simp [Matrix.mulVec, Matrix.dotProduct, Fin.sum_univ_four]
  have e0 := congrFun heig 0
  have e1 := congrFun heig 1
  have e2 := congrFun heig 2
  simp [-Matrix.cons_val', Matrix.mulVec, Matrix.dotProduct, Fin.sum_univ_four] at e0 e1 e2
  have v0 : v 0 = 0 := by
    rcases e0 with h | h
    · linarith
    · exact h
  have v1 : v 1 = 0 := by
    rcases e1 with h | h
    · linarith
    · exact h
  have v2 : v 2 = 0 := by
    rcases e2 with h | h
    · linarith
    · exact h
  simp [dot3, head3, v0, v1, v2] at hss
  exact hss

/-- Whenever the scale is not zero, the normal of the plane returned by the homogeneous
formulation has norm one. -/
theorem homogeneous_normal_unit {K : Type} [LinearOrderedField K] (ops : EigenOps K)
    (X : MatX K)
    (hsqrt : IsSqrt
      (dot3 (head3 (ops.eigenvectors4_col0 (homogeneousQ X)))
        (head3 (ops.eigenvectors4_col0 (homogeneousQ X))))
      (homogeneousScale ops X))
    (hscale : homogeneousScale ops X ≠ 0) :
    dot3 (head3 (estimate_plane_homogeneous ops X))
      (head3 (estimate_plane_homogeneous ops X)) = 1 := by
  obtain ⟨-, hss⟩ := hsqrt
  simp only [estimate_plane_homogeneous]
  generalize homogeneousScale ops X = s at hss hscale ⊢
  generalize ops.eigenvectors4_col0 (homogeneousQ X) = v at hss ⊢
  simp only [dot3, head3] at hss ⊢
  simp at hss ⊢
  field_simp
  linear_combination -hss

/-- The scale of the homogeneous formulation can only be zero when every column of the
array sums to zero, that is when the centre of the points is the origin. -/
theorem homogeneous_scale_ne_zero_of_centre {K : Type} [LinearOrderedField K]
    (ops : EigenOps K) (X : MatX K)
    (heig : IsMinEigenvector (homogeneousQ X) (ops.eigenvectors4_col0 (homogeneousQ X)))
    (hsqrt : IsSqrt
      (dot3 (head3 (ops.eigenvectors4_col0 (homogeneousQ X)))
        (head3 (ops.eigenvectors4_col0 (homogeneousQ X))))
      (homogeneousScale ops X))
    (hcentre : X.colwise_sum ≠ 0) : homogeneousScale ops X ≠ 0 := by
  obtain ⟨hunit, lam, hlam, -⟩ := heig
  obtain ⟨-, hss⟩ := hsqrt
  intro hzero
  rw [hzero, mul_zero] at hss
  apply hcentre
  have e0 := congrFun hlam 0
  have e1 := congrFun hlam 1
  have e2 := congrFun hlam 2
  generalize ops.eigenvectors4_col0 (homogeneousQ X) = v at hunit hss e0 e1 e2
  simp only [dot3, head3] at hss
  simp at hss
  have hv0 : v 0 = 0 := by nlinarith [sq_nonneg (v 0), sq_nonneg (v 1), sq_nonneg (v 2)]
  have hv1 : v 1 = 0 := by nlinarith [sq_nonneg (v 0), sq_nonneg (v 1), sq_nonneg (v 2)]
  have hv2 : v 2 = 0 := by nlinarith [sq_nonneg (v 0), sq_nonneg (v 1), sq_nonneg (v 2)]
  simp only [Matrix.dotProduct, Fin.sum_univ_four, hv0, hv1, hv2, mul_zero, zero_add] at hunit
  have hv3 : v 3 ≠ 0 := by
    intro hz
    rw [hz, mul_zero] at hunit
    exact zero_ne_one hunit
  simp [-Matrix.cons_val', homogeneousQ, Matrix.mulVec, Matrix.dotProduct, Fin.sum_univ_four,
    hv0, hv1, hv2, hv3] at e0 e1 e2
  funext a
  fin_cases a
  · exact e0
  · exact e1
  · exact e2

/-! ## Plane fitting: results -/

theorem estimate_plane_ok {K : Type} [Field K] (ops : EigenOps K) (X : MatX K)
    (flagCentered : Bool) (hcols : X.cols = 3) (hrows : 3 ≤ X.rows) :
    estimate_plane ops X flagCentered =
      .ok (if flagCentered then estimate_plane_centered ops X
        else estimate_plane_homogeneous ops X) := by
  unfold estimate_plane
  cases flagCentered <;> simp [hcols, hrows]

theorem sameUpToSign_of_both {K : Type} [Field K] (p q : Mat41 K) (n : Mat31 K) (d : K)
    (hp : p = planeOf n d ∨ p = planeOf (fun k => - n k) (-d))
    (hq : q = planeOf n d ∨ q = planeOf (fun k => - n k) (-d)) : SameUpToSign p q := by
  have hneg : planeOf (fun k => - n k) (-d) = fun i => - planeOf n d i := by
    funext i
    fin_cases i <;> simp [planeOf]
  have hneg2 : planeOf n d = fun i => - planeOf (fun k => - n k) (-d) i := by
    funext i
    fin_cases i <;> simp [planeOf]
  rcases hp with rfl | rfl <;> rcases hq with rfl | rfl
  · exact Or.inl rfl
  · exact Or.inr hneg2
  · exact Or.inr hneg
  · exact Or.inl rfl

/-- C11, as stated, fails at four points that are not on one plane: the centred
formulation returns the plane `z = -7/12` through the centre of the points and the
homogeneous one the plane `z = -4/3`, for the example library operations and for every
other choice of operations within the library's documented results. -/
theorem formulations_agree_counterexample :
    exSkewOps.SoundAt exSkew ∧ exSkew.cols = 3 ∧ 3 ≤ exSkew.rows ∧ NonCollinear exSkew ∧
    estimate_plane exSkewOps exSkew true = .ok ![0, 0, 1, 7 / 12] ∧
    estimate_plane exSkewOps exSkew false = .ok ![0, 0, 1, 4 / 3] ∧
    ¬ ∃ ops : EigenOps ℚ, ops.SoundAt exSkew ∧
      ∃ pc ph, estimate_plane ops exSkew true = .ok pc ∧
        estimate_plane ops exSkew false = .ok ph ∧ SameUpToSign pc ph := by
  have hcols : exSkew.cols = 3 := rfl
  have hrows : 3 ≤ exSkew.rows := by decide
  refine ⟨exSkewOps_sound, hcols, hrows, exSkew_nonCollinear, ?_, ?_, ?_⟩
  · rw [estimate_plane_ok _ _ _ hcols hrows]
    simp only [if_true, estimate_plane_centered, centroidOf_exSkew]
    congr 1
    funext i
    fin_cases i
    · simp [-Matrix.cons_val', exSkewOps]
    · simp [-Matrix.cons_val', exSkewOps]
    · simp [-Matrix.cons_val', exSkewOps]
    · simp [-Matrix.cons_val', exSkewOps, dot3]
      norm_num
  · rw [estimate_plane_ok _ _ _ hcols hrows]
    congr 1
    funext i
    fin_cases i <;>
      simp [-Matrix.cons_val', estimate_plane_homogeneous, homogeneousScale, exSkewOps, dot3,
        head3, exSqrt] <;> norm_num
  · rintro ⟨ops, hs, pc, ph, hpc, hph, hsame⟩
    rw [estimate_plane_ok _ _ _ hcols hrows] at hpc hph
    simp only [if_true, Bool.false_eq_true, if_false, Except.ok.injEq] at hpc hph
    subst hpc hph
    obtain ⟨hc3, hc2⟩ := exSkew_centered_shape ops hs
    obtain ⟨hh3, hh2⟩ := exSkew_homogeneous_shape ops hs
    rcases hsame with h | h
    · have e2 := congrFun h 2
      have e3 := congrFun h 3
      rw [hc3, hh3, e2] at e3
      apply hh2
      linarith
    · have e2 := congrFun h 2
      have e3 := congrFun h 3
      simp only at e2 e3
      rw [hc3, hh3, e2] at e3
      apply hh2
      linarith

/-- C11, amended. With the library operations meeting their documented results in exact
arithmetic: for every `N x 3` array of at least three non-collinear points that all lie
on one plane, `estimate_plane(X, true)` and `estimate_plane(X, false)` return, and
return the same plane 4-vector up to a global sign flip. -/
theorem formulations_agree_on_coplanar_points {K : Type} [LinearOrderedField K]
    (ops : EigenOps K) (X : MatX K) (n : Mat31 K) (d : K) (hsound : ops.SoundAt X)
    (hcols : X.cols = 3) (hrows : 3 ≤ X.rows) (hnc : NonCollinear X)
    (hnn : dot3 n n = 1) (hplane : OnPlane X n d) :
    ∃ pc ph, estimate_plane ops X true = .ok pc ∧ estimate_plane ops X false = .ok ph ∧
      SameUpToSign pc ph := by
  refine ⟨_, _, estimate_plane_ok ops X true hcols hrows,
    estimate_plane_ok ops X false hcols hrows, ?_⟩
  exact sameUpToSign_of_both _ _ n d
    (centered_of_coplanar ops X n d hsound.eig3 hrows hnc hnn hplane)
    (homogeneous_of_coplanar ops X n d hsound.eig4 hsound.sqrt hnc hnn hplane).2

/-- C11 amended, at the four corners of the unit square in the plane `z = 0`. -/
theorem formulations_agree_on_coplanar_points_witness :
    exSquareOps.SoundAt exSquare ∧ exSquare.cols = 3 ∧ 3 ≤ exSquare.rows ∧
    NonCollinear exSquare ∧ dot3 (![0, 0, 1] : Mat31 ℚ) ![0, 0, 1] = 1 ∧
    OnPlane exSquare ![0, 0, 1] 0 ∧
    ∃ pc ph, estimate_plane exSquareOps exSquare true = .ok pc ∧
      estimate_plane exSquareOps exSquare false = .ok ph ∧ SameUpToSign pc ph :=
  ⟨exSquareOps_sound, rfl, by decide, exSquare_nonCollinear, by simp [dot3],
    exSquare_onPlane,
    formulations_agree_on_coplanar_points exSquareOps exSquare ![0, 0, 1] 0 exSquareOps_sound
      rfl (by decide) exSquare_nonCollinear (by simp [dot3]) exSquare_onPlane⟩

/-- C12. With the library operations meeting their documented results in exact
arithmetic: for every `N x 3` array of at least three non-collinear points that all lie
on the plane `n . x + d = 0`, `n` of norm one, `estimate_plane` returns `(n, d)` or
`(-n, -d)` in the centred and in the homogeneous formulation. -/
theorem fitted_plane_of_coplanar_points {K : Type} [LinearOrderedField K]
    (ops : EigenOps K) (X : MatX K) (n : Mat31 K) (d : K) (hsound : ops.SoundAt X)
    (hcols : X.cols = 3) (hrows : 3 ≤ X.rows) (hnc : NonCollinear X)
    (hnn : dot3 n n = 1) (hplane : OnPlane X n d) :
    (∃ p, estimate_plane ops X true = .ok p ∧
      (p = planeOf n d ∨ p = planeOf (fun k => - n k) (-d))) ∧
    (∃ p, estimate_plane ops X false = .ok p ∧
      (p = planeOf n d ∨ p = planeOf (fun k => - n k) (-d))) :=
  ⟨⟨_, estimate_plane_ok ops X true hcols hrows,
      centered_of_coplanar ops X n d hsound.eig3 hrows hnc hnn hplane⟩,
    ⟨_, estimate_plane_ok ops X false hcols hrows,
      (homogeneous_of_coplanar ops X n d hsound.eig4 hsound.sqrt hnc hnn hplane).2⟩⟩

/-- C12 at the four points (0,0,0), (1,0,0), (0,1,0), (1,1,0): the fitted plane is
`(0, 0, 1, 0)` or `(0, 0, -1, -0)`. -/
theorem fitted_plane_of_coplanar_points_witness :
    exSquareOps.SoundAt exSquare ∧ exSquare.cols = 3 ∧ 3 ≤ exSquare.rows ∧
    NonCollinear exSquare ∧ dot3 (![0, 0, 1] : Mat31 ℚ) ![0, 0, 1] = 1 ∧
    OnPlane exSquare ![0, 0, 1] 0 ∧
    (∃ p, estimate_plane exSquareOps exSquare true = .ok p ∧
      (p = planeOf ![0, 0, 1] 0 ∨ p = planeOf (fun k => - (![0, 0, 1] : Mat31 ℚ) k) (-0))) ∧
    (∃ p, estimate_plane exSquareOps exSquare false = .ok p ∧
      (p = planeOf ![0, 0, 1] 0 ∨ p = planeOf (fun k => - (![0, 0, 1] : Mat31 ℚ) k) (-0))) :=
  ⟨exSquareOps_sound, rfl, by decide, exSquare_nonCollinear, by simp [dot3],
    exSquare_onPlane,
    fitted_plane_of_coplanar_points exSquareOps exSquare ![0, 0, 1] 0 exSquareOps_sound
      rfl (by decide) exSquare_nonCollinear (by simp [dot3]) exSquare_onPlane⟩

/-- The four corner points of C12, for every choice of library operations within the
documented results: both formulations return normal `(0, 0, 1)` or `(0, 0, -1)` and
offset 0. -/
theorem unit_square_plane (ops : EigenOps ℚ) (hsound : ops.SoundAt exSquare)
    (flagCentered : Bool) :
    ∃ p, estimate_plane ops exSquare flagCentered = .ok p ∧
      (head3 p = ![0, 0, 1] ∨ head3 p = ![0, 0, -1]) ∧ p 3 = 0 := by
  refine ⟨_, estimate_plane_ok ops exSquare flagCentered rfl (by decide), ?_⟩
  have hc := centered_of_coplanar ops exSquare ![0, 0, 1] 0 hsound.eig3 (by decide)
    exSquare_nonCollinear (by simp [dot3]) exSquare_onPlane
  have hh := (homogeneous_of_coplanar ops exSquare ![0, 0, 1] 0 hsound.eig4 hsound.sqrt
    exSquare_nonCollinear (by simp [dot3]) exSquare_onPlane).2
  cases flagCentered
  · simp only [Bool.false_eq_true, if_false]
    rcases hh with h | h <;> rw [h] <;> simp [planeOf, head3]
  · simp only [if_true]
    rcases hc with h | h <;> rw [h] <;> simp [planeOf, head3]

/-- C13, as stated, fails at the corners of a regular tetrahedron centred at the origin:
the matrix `Q` is diagonal with entries 16, 16, 16, 4, its minimal eigenvector is
`(0, 0, 0, 1)` up to sign, so the norm of its first three components is zero and the
homogeneous formulation divides by zero; this holds for the example library operations
and for every other choice within the library's documented results. -/
theorem homogeneous_scale_counterexample :
    exTetraOps.SoundAt exTetra ∧ exTetra.cols = 3 ∧ 3 ≤ exTetra.rows ∧
    NonCollinear exTetra ∧ homogeneousScale exTetraOps exTetra = 0 ∧
    ¬ ∃ ops : EigenOps ℚ, ops.SoundAt exTetra ∧ homogeneousScale ops exTetra ≠ 0 :=
  ⟨exTetraOps_sound, rfl, by decide, exTetra_nonCollinear,
    exTetra_scale_zero exTetraOps exTetraOps_sound,
    fun ⟨ops, hs, hne⟩ => hne (exTetra_scale_zero ops hs)⟩

/-- C13, amended. With the library operations meeting their documented results in exact
arithmetic: for every `N x 3` array of at least three points whose centre is not the
origin (some column does not sum to zero), or whose points are non-collinear and lie on
one plane, `estimate_plane(X, false)` returns, the scale it divides by is not zero and
the first three components of the returned plane have norm one. -/
theorem homogeneous_normal_is_unit {K : Type} [LinearOrderedField K]
    (ops : EigenOps K) (X : MatX K) (hsound : ops.SoundAt X)
    (hcols : X.cols = 3) (hrows : 3 ≤ X.rows)
    (hgood : X.colwise_sum ≠ 0 ∨
      (NonCollinear X ∧ ∃ (n : Mat31 K) (d : K), dot3 n n = 1 ∧ OnPlane X n d)) :
    ∃ p, estimate_plane ops X false = .ok p ∧ homogeneousScale ops X ≠ 0 ∧
      dot3 (head3 p) (head3 p) = 1 := by
  have hscale : homogeneousScale ops X ≠ 0 := by
    rcases hgood with hcentre | ⟨hnc, n, d, hnn, hplane⟩
    · exact homogeneous_scale_ne_zero_of_centre ops X hsound.eig4 hsound.sqrt hcentre
    · exact (homogeneous_of_coplanar ops X n d hsound.eig4 hsound.sqrt hnc hnn hplane).1
  refine ⟨_, estimate_plane_ok ops X false hcols hrows, hscale, ?_⟩
  simp only [Bool.false_eq_true, if_false]
  exact homogeneous_normal_unit ops X hsound.sqrt hscale

/-- C13 amended, at the four points of `exSkew`, whose centre is `(0, 0, -7/12)`. -/
theorem homogeneous_normal_is_unit_witness :
    exSkewOps.SoundAt exSkew ∧ exSkew.cols = 3 ∧ 3 ≤ exSkew.rows ∧
    (exSkew.colwise_sum ≠ 0 ∨
      (NonCollinear exSkew ∧ ∃ (n : Mat31 ℚ) (d : ℚ), dot3 n n = 1 ∧ OnPlane exSkew n d)) ∧
    ∃ p, estimate_plane exSkewOps exSkew false = .ok p ∧
      homogeneousScale exSkewOps exSkew ≠ 0 ∧ dot3 (head3 p) (head3 p) = 1 :=
  have hcentre : exSkew.colwise_sum ≠ 0 := by
    intro h
    have h2 := congrFun h 2
    simp [-Matrix.cons_val', MatX.colwise_sum, exSkew, MatX.ofRows, Finset.sum_range_succ]
      at h2
    norm_num at h2
  ⟨exSkewOps_sound, rfl, by decide, Or.inl hcentre,
    homogeneous_normal_is_unit exSkewOps exSkew exSkewOps_sound rfl (by decide)
      (Or.inl hcentre)⟩

theorem foldl_outer_eq_gram {K : Type} [Field K] {n : Nat} (u : Nat → Fin n → K) (N : Nat) :
    (List.range N).foldl (fun S i => fun a b => S a b + u i a * u i b) (fun _ _ => 0) =
      gram u N := by
  induction N with
  | zero =>
      funext a b
      simp [gram]
  | succ N ih =>
      rw [List.range_succ, List.foldl_append, ih]
      funext a b
      simp [gram, Finset.sum_range_succ]

/-- With three columns, `estimate_matrix_S` returns the sum of the outer products of the
homogeneous points. -/
theorem estimate_matrix_S_eq_gram {K : Type} [Field K] (X : MatX K) (hcols : X.cols = 3) :
    estimate_matrix_S X = .ok (gram (pHomogOf X) X.rows) := by
  simp only [estimate_matrix_S, hcols, ne_eq, not_true_eq_false, if_false]
  rw [foldl_outer_eq_gram]

/-- C14, as stated, fails for `estimate_matrix_S`: on an array with two rows and three
columns its only assertion holds and it returns. -/
theorem entry_points_counterexample :
    exTwoRows.rows = 2 ∧ exTwoRows.cols = 3 ∧
    ∃ S, estimate_matrix_S exTwoRows = .ok S ∧ S 3 3 = 2 ∧ S 0 3 = 5 := by
  refine ⟨rfl, rfl, _, estimate_matrix_S_eq_gram exTwoRows rfl, ?_, ?_⟩
  · simp [-Matrix.cons_val', gram, exTwoRows, MatX.ofRows, Finset.sum_range_succ, pHomogOf]
  · simp [-Matrix.cons_val', gram, exTwoRows, MatX.ofRows, Finset.sum_range_succ, pHomogOf]
    norm_num

/-- C14, amended. `estimate_plane`, `estimate_normal` and `estimate_centroid` end in a
failed assertion exactly when the array has fewer than three rows or not exactly three
columns, and return otherwise; `estimate_matrix_S` ends in a failed assertion exactly
when the array does not have exactly three columns, and returns otherwise, whatever the
number of rows. -/
theorem entry_points_fail_iff_bad_shape {K : Type} [Field K] (ops : EigenOps K) (X : MatX K)
    (flagCentered : Bool) :
    ((estimate_plane ops X flagCentered = .error Err.assertion ↔
        X.rows < 3 ∨ X.cols ≠ 3) ∧
      ((∃ p, estimate_plane ops X flagCentered = .ok p) ↔ ¬ (X.rows < 3 ∨ X.cols ≠ 3))) ∧
    ((estimate_normal ops X = .error Err.assertion ↔ X.rows < 3 ∨ X.cols ≠ 3) ∧
      ((∃ v, estimate_normal ops X = .ok v) ↔ ¬ (X.rows < 3 ∨ X.cols ≠ 3))) ∧
    ((estimate_centroid X = .error Err.assertion ↔ X.rows < 3 ∨ X.cols ≠ 3) ∧
      ((∃ c, estimate_centroid X = .ok c) ↔ ¬ (X.rows < 3 ∨ X.cols ≠ 3))) ∧
    ((estimate_matrix_S X = .error Err.assertion ↔ X.cols ≠ 3) ∧
      ((∃ S, estimate_matrix_S X = .ok S) ↔ X.cols = 3)) := by
  by_cases hc : X.cols = 3 <;> by_cases hr : 3 ≤ X.rows <;>
    cases flagCentered <;>
    simp [estimate_plane, estimate_normal, estimate_centroid, estimate_matrix_S,
      flagCenteredDefault, hc, hr, Nat.not_lt.mpr, Nat.lt_of_not_le]

theorem gram_eq_sum_vecMulVec {K : Type} [Field K] {n : Nat} (u : Nat → Fin n → K)
    (N : Nat) :
    Matrix.of (gram u N) =
      Finset.sum (Finset.range N) (fun i => Matrix.vecMulVec (u i) (u i)) := by
  ext a b
  simp [gram, Matrix.sum_apply, Matrix.vecMulVec_apply]

theorem gram_symm {K : Type} [Field K] {n : Nat} (u : Nat → Fin n → K) (N : Nat)
    (a b : Fin n) : gram u N a b = gram u N b a := by
  simp only [gram]
  exact Finset.sum_congr rfl (fun i _ => mul_comm _ _)

theorem gram_posSemidef {K : Type} [LinearOrderedField K] [StarRing K] [TrivialStar K]
    {n : Nat} (u : Nat → Fin n → K) (N : Nat) : Matrix.PosSemidef (Matrix.of (gram u N)) := by
  refine ⟨?_, fun x => ?_⟩
  · refine Matrix.IsHermitian.ext (fun i j => ?_)
    simp only [Matrix.of_apply, star_trivial]
    exact gram_symm u N j i
  · have hx : star x = x := by
      funext i
      simp
    rw [hx, gram_quadratic]
    exact Finset.sum_nonneg (fun i _ => sq_nonneg _)

/-- C17. With exact arithmetic: for every array with three columns, `estimate_matrix_S`
returns the 4x4 matrix that is the sum over the rows of the outer product of
`[x, y, z, 1]` with itself; that matrix is symmetric and positive semi-definite and its
bottom-right entry is the number of rows. -/
theorem matrix_S_is_second_moment {K : Type} [LinearOrderedField K] [StarRing K]
    [TrivialStar K] (X : MatX K) (hcols : X.cols = 3) :
    ∃ S, estimate_matrix_S X = .ok S ∧
      Matrix.of S =
        Finset.sum (Finset.range X.rows) (fun i =>
          Matrix.vecMulVec ![X.coeff i 0, X.coeff i 1, X.coeff i 2, 1]
            ![X.coeff i 0, X.coeff i 1, X.coeff i 2, 1]) ∧
      (∀ a b, S a b = S b a) ∧
      Matrix.PosSemidef (Matrix.of S) ∧
      S 3 3 = (X.rows : K) := by
  refine ⟨_, estimate_matrix_S_eq_gram X hcols, gram_eq_sum_vecMulVec _ _, gram_symm _ _,
    gram_posSemidef _ _, ?_⟩
  simp [gram, pHomogOf]

/-- C17 at the example array of two rows: three columns. -/
theorem matrix_S_is_second_moment_witness :
    exTwoRows.cols = 3 ∧
    ∃ S, estimate_matrix_S exTwoRows = .ok S ∧
      Matrix.of S =
        Finset.sum (Finset.range exTwoRows.rows) (fun i =>
          Matrix.vecMulVec ![exTwoRows.coeff i 0, exTwoRows.coeff i 1, exTwoRows.coeff i 2, 1]
            ![exTwoRows.coeff i 0, exTwoRows.coeff i 1, exTwoRows.coeff i 2, 1]) ∧
      (∀ a b, S a b = S b a) ∧
      Matrix.PosSemidef (Matrix.of S) ∧
      S 3 3 = (exTwoRows.rows : ℚ) :=
  ⟨rfl, matrix_S_is_second_moment exTwoRows rfl⟩

/-- C18. For every array with three columns and at least three rows, `estimate_matrix_S`
and `estimate_centroid` return, each of the first three entries of the last column of
the matrix divided by its bottom-right entry is the matching entry of the centroid, and
the centroid is the arithmetic mean of the rows. -/
theorem centroid_from_matrix_S {K : Type} [Field K] (X : MatX K) (hcols : X.cols = 3)
    (hrows : 3 ≤ X.rows) :
    ∃ S c, estimate_matrix_S X = .ok S ∧ estimate_centroid X = .ok c ∧
      (∀ j : Fin 3, S j.castSucc 3 / S 3 3 = c j) ∧
      (∀ j : Fin 3,
        c j = Finset.sum (Finset.range X.rows) (fun i => X.coeff i j.val) / (X.rows : K)) := by
  refine ⟨_, centroidOf X, estimate_matrix_S_eq_gram X hcols, ?_, ?_, fun j => rfl⟩
  · simp [estimate_centroid, hcols, hrows]
  · intro j
    have h2 : Fin.castSucc (2 : Fin 3) = (2 : Fin 4) := rfl
    fin_cases j <;> simp [gram, pHomogOf, centroidOf, MatX.colwise_sum, h2]

/-- C18 at the four points of `exSkew`. -/
theorem centroid_from_matrix_S_witness :
    exSkew.cols = 3 ∧ 3 ≤ exSkew.rows ∧
    ∃ S c, estimate_matrix_S exSkew = .ok S ∧ estimate_centroid exSkew = .ok c ∧
      (∀ j : Fin 3, S j.castSucc 3 / S 3 3 = c j) ∧
      (∀ j : Fin 3,
        c j = Finset.sum (Finset.range exSkew.rows) (fun i => exSkew.coeff i j.val) /
          (exSkew.rows : ℚ)) :=
  ⟨rfl, by decide, centroid_from_matrix_S exSkew rfl (by decide)⟩

/-- C19. With the 3x3 solver meeting its documented result, in exact arithmetic, on the
scatter matrix of the rows about their arithmetic mean: for every array with three
columns and at least three rows, the centred formulation returns a plane `(n, d)` and
`estimate_centroid` returns `c`, where `c` is the arithmetic mean of the rows, `n` has
norm one and is an eigenvector, for the least eigenvalue, of the scatter matrix
`sum_i (x_i - c) (x_i - c)^T`; `d` is minus the product of `c` and `n`, so the mean of
the rows lies on the plane; and `estimate_normal` returns exactly `n`. -/
theorem centered_plane_through_centroid {K : Type} [LinearOrderedField K] (ops : EigenOps K)
    (X : MatX K)
    (heig : IsMinEigenvector
      (fun a b : Fin 3 => Finset.sum (Finset.range X.rows) (fun i =>
        (X.coeff i a.val -
            Finset.sum (Finset.range X.rows) (fun r => X.coeff r a.val) / (X.rows : K)) *
          (X.coeff i b.val -
            Finset.sum (Finset.range X.rows) (fun r => X.coeff r b.val) / (X.rows : K))))
      (ops.eigenvectors3_col0
        (fun a b : Fin 3 => Finset.sum (Finset.range X.rows) (fun i =>
        (X.coeff i a.val -
            Finset.sum (Finset.range X.rows) (fun r => X.coeff r a.val) / (X.rows : K)) *
          (X.coeff i b.val -
            Finset.sum (Finset.range X.rows) (fun r => X.coeff r b.val) / (X.rows : K))))))
    (hcols : X.cols = 3) (hrows : 3 ≤ X.rows) :
    ∃ p c, estimate_plane ops X true = .ok p ∧ estimate_centroid X = .ok c ∧
      (∀ j : Fin 3,
        c j = Finset.sum (Finset.range X.rows) (fun i => X.coeff i j.val) / (X.rows : K)) ∧
      Matrix.of (centeredC X) =
        Finset.sum (Finset.range X.rows) (fun i =>
          Matrix.vecMulVec (X.row3 i - c) (X.row3 i - c)) ∧
      dot3 (head3 p) (head3 p) = 1 ∧
      IsMinEigenvector
        (fun a b : Fin 3 => Finset.sum (Finset.range X.rows) (fun i =>
          (X.coeff i a.val - c a) * (X.coeff i b.val - c b)))
        (head3 p) ∧
      p 3 = - dot3 c (head3 p) ∧
      dot3 (head3 p) c + p 3 = 0 ∧
      estimate_normal ops X = .ok (head3 p) := by
  have heig2 : IsMinEigenvector (centeredC X) (ops.eigenvectors3_col0 (centeredC X)) := heig
  have hhead : head3 (estimate_plane_centered ops X) = ops.eigenvectors3_col0 (centeredC X) := by
    funext k
    fin_cases k <;> simp [estimate_plane_centered, head3]
  have hd : estimate_plane_centered ops X 3 =
      - dot3 (centroidOf X) (ops.eigenvectors3_col0 (centeredC X)) := by
    simp [estimate_plane_centered]
  refine ⟨_, centroidOf X, estimate_plane_ok ops X true hcols hrows, ?_, fun j => rfl, ?_, ?_,
    ?_, ?_, ?_, ?_⟩
  · simp [estimate_centroid, hcols, hrows]
  · rw [centeredC_eq_gram]
    exact gram_eq_sum_vecMulVec _ _
  · simp only [if_true]
    rw [hhead, dot3_eq_dotProduct]
    exact heig2.1
  · simp only [if_true]
    rw [hhead]
    exact heig2
  · simp only [if_true]
    rw [hhead, hd]
  · simp only [if_true]
    rw [hhead, hd, dot3_comm]
    ring
  · simp only [estimate_normal, flagCenteredDefault,
      estimate_plane_ok ops X true hcols hrows, if_true]

/-- C19 at the four points of `exSkew`. -/
theorem centered_plane_through_centroid_witness :
    IsMinEigenvector
      (fun a b : Fin 3 => Finset.sum (Finset.range exSkew.rows) (fun i =>
        (exSkew.coeff i a.val -
            Finset.sum (Finset.range exSkew.rows) (fun r => exSkew.coeff r a.val) / (exSkew.rows : ℚ)) *
          (exSkew.coeff i b.val -
            Finset.sum (Finset.range exSkew.rows) (fun r => exSkew.coeff r b.val) / (exSkew.rows : ℚ))))
      (exSkewOps.eigenvectors3_col0
        (fun a b : Fin 3 => Finset.sum (Finset.range exSkew.rows) (fun i =>
        (exSkew.coeff i a.val -
            Finset.sum (Finset.range exSkew.rows) (fun r => exSkew.coeff r a.val) / (exSkew.rows : ℚ)) *
          (exSkew.coeff i b.val -
            Finset.sum (Finset.range exSkew.rows) (fun r => exSkew.coeff r b.val) / (exSkew.rows : ℚ))))) ∧
    exSkew.cols = 3 ∧ 3 ≤ exSkew.rows ∧
    ∃ p c, estimate_plane exSkewOps exSkew true = .ok p ∧ estimate_centroid exSkew = .ok c ∧
      (∀ j : Fin 3,
        c j = Finset.sum (Finset.range exSkew.rows) (fun i => exSkew.coeff i j.val) /
          (exSkew.rows : ℚ)) ∧
      Matrix.of (centeredC exSkew) =
        Finset.sum (Finset.range exSkew.rows) (fun i =>
          Matrix.vecMulVec (exSkew.row3 i - c) (exSkew.row3 i - c)) ∧
      dot3 (head3 p) (head3 p) = 1 ∧
      IsMinEigenvector
        (fun a b : Fin 3 => Finset.sum (Finset.range exSkew.rows) (fun i =>
          (exSkew.coeff i a.val - c a) * (exSkew.coeff i b.val - c b)))
        (head3 p) ∧
      p 3 = - dot3 c (head3 p) ∧
      dot3 (head3 p) c + p 3 = 0 ∧
      estimate_normal exSkewOps exSkew = .ok (head3 p) :=
  ⟨exSkewOps_sound.eig3, rfl, by decide,
    centered_plane_through_centroid exSkewOps exSkew exSkewOps_sound.eig3 rfl (by decide)⟩

/-! ## Weighted point registration: results -/

/-- Entered with a counter below 20, the loop returns a count above the counter and at
most 20. -/
theorem weighted_point_loop_bounds {R : Type} [Zero R] [One R] [Add R] [Sub R] [Mul R]
    [Neg R] (ops : RegistrationOps R) (X Y weight : MatX R) (tol : R) (N : Nat) :
    ∀ (n : Nat) (T : ops.SE3) (iters : Nat), 20 - iters = n → iters < 20 →
      iters < (weighted_point.loop ops X Y weight tol N T iters).2 ∧
        (weighted_point.loop ops X Y weight tol N T iters).2 ≤ 20 := by
  intro n
  induction n with
  | zero =>
      intro T iters hn hlt
      omega
  | succ n ih =>
      intro T iters hn hlt
      rw [weighted_point.loop]
      split_ifs with h
      · have := ih (ops.update_lhs T (weighted_point.dxi ops X Y weight T N)) (iters + 1)
          (by omega) h.2
        omega
      · show iters < iters + 1 ∧ iters + 1 ≤ 20
        omega

/-! ## The plane eigen factor: results -/

theorem sum_map_update {M : Type} [AddCommGroup M] (g : Nat → M) (j : Nat) (v : M) :
    ∀ (l : List Nat), l.Nodup → j ∈ l →
      (l.map (Function.update g j v)).sum = (l.map g).sum - g j + v := by
  intro l
  induction l with
  | nil => intro _ h; simp at h
  | cons a l ih =>
      intro hnd hj
      have hnd2 := List.nodup_cons.mp hnd
      by_cases ha : a = j
      · subst ha
        have hsame : l.map (Function.update g a v) = l.map g := by
          refine List.map_congr_left (fun x hx => ?_)
          have : x ≠ a := fun h => hnd2.1 (h ▸ hx)
          simp [Function.update_noteq this]
        simp only [List.map_cons, List.sum_cons, Function.update_same, hsame]
        abel
      · have hjl : j ∈ l := by
          rcases List.mem_cons.mp hj with h | h
          · exact absurd h.symm ha
          · exact h
        simp only [List.map_cons, List.sum_cons, Function.update_noteq ha, ih hnd2.2 hjl]
        abel

theorem add_point_nodes_nodup {K : Type} (f : EigenFactorPlane K) (p : Mat31 K) (node : Nat)
    (h : f.planeNodes_.Nodup) : (f.add_point p node).planeNodes_.Nodup := by
  simp only [EigenFactorPlane.add_point]
  split_ifs with hm
  · exact h
  · exact List.Nodup.append h (List.nodup_singleton node) (by simpa using hm)

theorem add_points_nodes_nodup {K : Type} [Field K] (calls : List (Mat31 K × Nat)) :
    (EigenFactorPlane.add_points calls).planeNodes_.Nodup := by
  unfold EigenFactorPlane.add_points
  induction calls using List.reverseRecOn with
  | nil => simp [EigenFactorPlane.new]
  | append_singleton cs c ih =>
      rw [List.foldl_append]
      exact add_point_nodes_nodup _ _ _ ih

theorem add_points_S_none {K : Type} [Field K] (calls : List (Mat31 K × Nat)) :
    (EigenFactorPlane.add_points calls).S_ = fun _ => none := by
  unfold EigenFactorPlane.add_points
  induction calls using List.reverseRecOn with
  | nil => rfl
  | append_singleton cs c ih =>
      rw [List.foldl_append]
      exact ih

theorem calculate_S_current {K : Type} [Field K] (f : EigenFactorPlane K) (reset : Bool)
    (h : f.S_ = fun _ => none) : (f.calculate_all_matrices_S reset).SCurrent := by
  intro node hn
  have hn2 : node ∈ f.planeNodes_ := hn
  simp [EigenFactorPlane.calculate_all_matrices_S, hn2, h]

theorem calculate_S_of_current {K : Type} [Field K] (f : EigenFactorPlane K) (reset : Bool)
    (h : f.SCurrent) : (f.calculate_all_matrices_S reset).S_ = f.S_ := by
  funext node
  simp only [EigenFactorPlane.calculate_all_matrices_S]
  split_ifs with hc
  · exact (h node hc.1).symm
  · rfl

theorem matrixQ_congr {K : Type} [Field K] (f g : EigenFactorPlane K) (h : f.S_ = g.S_)
    (poseOf : Nat → Matrix (Fin 4) (Fin 4) K) : f.matrixQ poseOf = g.matrixQ poseOf := by
  funext node
  simp only [EigenFactorPlane.matrixQ, h]

theorem matrixQ_update {K : Type} [Field K] (f : EigenFactorPlane K)
    (poseOf : Nat → Matrix (Fin 4) (Fin 4) K) (nodeId : Nat) (P : Matrix (Fin 4) (Fin 4) K) :
    f.matrixQ (Function.update poseOf nodeId P) =
      Function.update (f.matrixQ poseOf) nodeId
        (f.matrixQ (Function.update poseOf nodeId P) nodeId) := by
  funext node
  by_cases h : node = nodeId
  · subst h
    simp
  · simp [EigenFactorPlane.matrixQ, Function.update_noteq h]

/-- After a full estimate, a pose change on one observing node: the incremental update
of the accumulated `Q` equals its full recomputation. -/
theorem incremental_accumulatedQ {K : Type} [Field K] (solver : PlaneEigenSolver K)
    (f1 : EigenFactorPlane K) (hnodup : f1.planeNodes_.Nodup) (hS : f1.S_ = fun _ => none)
    (poseOf : Nat → Matrix (Fin 4) (Fin 4) K) (nodeId : Nat) (hmem : nodeId ∈ f1.planeNodes_)
    (P : Matrix (Fin 4) (Fin 4) K) (reset1 reset2 : Bool) :
    (EigenFactorPlane.estimate_plane_incrementally solver (Function.update poseOf nodeId P)
        nodeId (EigenFactorPlane.estimate_plane solver poseOf reset1 f1)).accumulatedQ_ =
      (EigenFactorPlane.estimate_plane solver (Function.update poseOf nodeId P) reset2
        (EigenFactorPlane.estimate_plane solver poseOf reset1 f1)).accumulatedQ_ := by
  have hcur := calculate_S_current f1 reset1 hS
  have hcur2 : (EigenFactorPlane.estimate_plane solver poseOf reset1 f1).SCurrent := hcur
  have hS2 := calculate_S_of_current _ reset2 hcur2
  have hQ2 := matrixQ_congr _ _ hS2 (Function.update poseOf nodeId P)
  have hfull : (EigenFactorPlane.estimate_plane solver (Function.update poseOf nodeId P) reset2
      (EigenFactorPlane.estimate_plane solver poseOf reset1 f1)).accumulatedQ_ =
      (f1.planeNodes_.map ((f1.calculate_all_matrices_S reset1).matrixQ
        (Function.update poseOf nodeId P))).sum := by
    show (List.map _ f1.planeNodes_).sum = _
    rw [hQ2]
    rfl
  have hinc : (EigenFactorPlane.estimate_plane_incrementally solver
      (Function.update poseOf nodeId P) nodeId
      (EigenFactorPlane.estimate_plane solver poseOf reset1 f1)).accumulatedQ_ =
      (f1.planeNodes_.map ((f1.calculate_all_matrices_S reset1).matrixQ poseOf)).sum -
        (f1.calculate_all_matrices_S reset1).matrixQ poseOf nodeId +
        (f1.calculate_all_matrices_S reset1).matrixQ (Function.update poseOf nodeId P)
          nodeId := by
    show (List.map _ f1.planeNodes_).sum - Option.getD (if nodeId ∈ f1.planeNodes_ then _ else _) 0
      + _ = _
    rw [if_pos hmem]
    rfl
  rw [hfull, hinc, matrixQ_update, sum_map_update _ _ _ _ hnodup hmem]
  simp

/-- C20, amended. In the model of the plane eigen factor read from the spec, with exact
arithmetic: after any sequence of `add_point` calls on a new factor and a full estimate
at the poses of that moment, a pose change on one observing node followed by
`estimate_plane_incrementally(nodeId)` leaves the same accumulated `Q`, the same plane
estimate and the same plane error as a full `estimate_plane()` with the changed pose. -/
theorem incremental_estimate_equals_full {K : Type} [Field K] (solver : PlaneEigenSolver K)
    (calls : List (Mat31 K × Nat)) (poseOf : Nat → Matrix (Fin 4) (Fin 4) K) (nodeId : Nat)
    (hmem : nodeId ∈ (EigenFactorPlane.add_points calls).planeNodes_)
    (P : Matrix (Fin 4) (Fin 4) K) (reset1 reset2 : Bool) :
    (EigenFactorPlane.estimate_plane_incrementally solver (Function.update poseOf nodeId P)
        nodeId (EigenFactorPlane.estimate_plane solver poseOf reset1
          (EigenFactorPlane.add_points calls))).accumulatedQ_ =
      (EigenFactorPlane.estimate_plane solver (Function.update poseOf nodeId P) reset2
        (EigenFactorPlane.estimate_plane solver poseOf reset1
          (EigenFactorPlane.add_points calls))).accumulatedQ_ ∧
    (EigenFactorPlane.estimate_plane_incrementally solver (Function.update poseOf nodeId P)
        nodeId (EigenFactorPlane.estimate_plane solver poseOf reset1
          (EigenFactorPlane.add_points calls))).planeEstimation_ =
      (EigenFactorPlane.estimate_plane solver (Function.update poseOf nodeId P) reset2
        (EigenFactorPlane.estimate_plane solver poseOf reset1
          (EigenFactorPlane.add_points calls))).planeEstimation_ ∧
    (EigenFactorPlane.estimate_plane_incrementally solver (Function.update poseOf nodeId P)
        nodeId (EigenFactorPlane.estimate_plane solver poseOf reset1
          (EigenFactorPlane.add_points calls))).planeError_ =
      (EigenFactorPlane.estimate_plane solver (Function.update poseOf nodeId P) reset2
        (EigenFactorPlane.estimate_plane solver poseOf reset1
          (EigenFactorPlane.add_points calls))).planeError_ := by
  have hQ := incremental_accumulatedQ solver (EigenFactorPlane.add_points calls)
    (add_points_nodes_nodup calls) (add_points_S_none calls) poseOf nodeId hmem P reset1 reset2
  refine ⟨hQ, ?_, ?_⟩
  · show solver.eigenvector0 _ = solver.eigenvector0 _
    exact congrArg solver.eigenvector0 hQ
  · show solver.eigenvalue0 _ = solver.eigenvalue0 _
    exact congrArg solver.eigenvalue0 hQ

/-- C20 at an example: two nodes with two points each, the pose of node 5 changed from
the identity to a translation. -/
theorem incremental_estimate_equals_full_witness :
    5 ∈ (EigenFactorPlane.add_points exPlanePoints).planeNodes_ ∧
    (EigenFactorPlane.estimate_plane_incrementally exPlaneSolver
        (Function.update (fun _ => 1) 5 (Matrix.of exPose)) 5
        (EigenFactorPlane.estimate_plane exPlaneSolver (fun _ => 1) false
          (EigenFactorPlane.add_points exPlanePoints))).accumulatedQ_ =
      (EigenFactorPlane.estimate_plane exPlaneSolver
        (Function.update (fun _ => 1) 5 (Matrix.of exPose)) false
        (EigenFactorPlane.estimate_plane exPlaneSolver (fun _ => 1) false
          (EigenFactorPlane.add_points exPlanePoints))).accumulatedQ_ ∧
    (EigenFactorPlane.estimate_plane_incrementally exPlaneSolver
        (Function.update (fun _ => 1) 5 (Matrix.of exPose)) 5
        (EigenFactorPlane.estimate_plane exPlaneSolver (fun _ => 1) false
          (EigenFactorPlane.add_points exPlanePoints))).planeEstimation_ =
      (EigenFactorPlane.estimate_plane exPlaneSolver
        (Function.update (fun _ => 1) 5 (Matrix.of exPose)) false
        (EigenFactorPlane.estimate_plane exPlaneSolver (fun _ => 1) false
          (EigenFactorPlane.add_points exPlanePoints))).planeEstimation_ ∧
    (EigenFactorPlane.estimate_plane_incrementally exPlaneSolver
        (Function.update (fun _ => 1) 5 (Matrix.of exPose)) 5
        (EigenFactorPlane.estimate_plane exPlaneSolver (fun _ => 1) false
          (EigenFactorPlane.add_points exPlanePoints))).planeError_ =
      (EigenFactorPlane.estimate_plane exPlaneSolver
        (Function.update (fun _ => 1) 5 (Matrix.of exPose)) false
        (EigenFactorPlane.estimate_plane exPlaneSolver (fun _ => 1) false
          (EigenFactorPlane.add_points exPlanePoints))).planeError_ :=
  ⟨by decide,
    incremental_estimate_equals_full exPlaneSolver exPlanePoints (fun _ => 1) 5 (by decide)
      (Matrix.of exPose) false false⟩

/-! ## The plane eigen factor: the update without a full estimate -/

theorem add_points_Q_none {K : Type} [Field K] (calls : List (Mat31 K × Nat)) :
    (EigenFactorPlane.add_points calls).Q_ = fun _ => none := by
  unfold EigenFactorPlane.add_points
  induction calls using List.reverseRecOn with
  | nil => rfl
  | append_singleton cs c ih =>
      rw [List.foldl_append]
      exact ih

theorem add_points_accumulatedQ {K : Type} [Field K] (calls : List (Mat31 K × Nat)) :
    (EigenFactorPlane.add_points calls).accumulatedQ_ = 0 := by
  unfold EigenFactorPlane.add_points
  induction calls using List.reverseRecOn with
  | nil => rfl
  | append_singleton cs c ih =>
      rw [List.foldl_append]
      exact ih

/-- Right after the `add_point` calls, with no full estimate in between, the incremental
update leaves the accumulated `Q` at zero: nothing has been accumulated and the node has
no `S` yet. -/
theorem incremental_without_estimate {K : Type} [Field K] (solver : PlaneEigenSolver K)
    (calls : List (Mat31 K × Nat)) (poseOf : Nat → Matrix (Fin 4) (Fin 4) K) (nodeId : Nat) :
    (EigenFactorPlane.estimate_plane_incrementally solver poseOf nodeId
      (EigenFactorPlane.add_points calls)).accumulatedQ_ = 0 := by
  show (EigenFactorPlane.add_points calls).accumulatedQ_ -
      ((EigenFactorPlane.add_points calls).Q_ nodeId).getD 0 +
      (EigenFactorPlane.add_points calls).matrixQ poseOf nodeId = 0
  rw [add_points_accumulatedQ, add_points_Q_none]
  simp [EigenFactorPlane.matrixQ, add_points_S_none]

theorem exPlanePoints_nodes :
    (EigenFactorPlane.add_points exPlanePoints).planeNodes_ = [0, 5] := by
  simp [EigenFactorPlane.add_points, exPlanePoints, EigenFactorPlane.add_point,
    EigenFactorPlane.new]

theorem exPlanePoints_points_0 :
    (EigenFactorPlane.add_points exPlanePoints).allPlanePoints_ 0 =
      [![0, 0, 0], ![1, 0, 0]] := by
  simp [EigenFactorPlane.add_points, exPlanePoints, EigenFactorPlane.add_point,
    EigenFactorPlane.new, Function.update]

theorem exPlanePoints_points_5 :
    (EigenFactorPlane.add_points exPlanePoints).allPlanePoints_ 5 =
      [![0, 1, 0], ![1, 1, 0]] := by
  simp [EigenFactorPlane.add_points, exPlanePoints, EigenFactorPlane.add_point,
    EigenFactorPlane.new, Function.update]

theorem exPlanePoints_full_Q (solver : PlaneEigenSolver ℚ) (reset : Bool) :
    (EigenFactorPlane.estimate_plane solver
      (Function.update (fun _ => 1) 5 (Matrix.of exPose)) reset
      (EigenFactorPlane.add_points exPlanePoints)).accumulatedQ_ 2 2 = 18 ∧
    (EigenFactorPlane.estimate_plane solver
      (Function.update (fun _ => 1) 5 (Matrix.of exPose)) reset
      (EigenFactorPlane.add_points exPlanePoints)).accumulatedQ_ 3 3 = 4 := by
  have hQ : (EigenFactorPlane.estimate_plane solver
      (Function.update (fun _ => 1) 5 (Matrix.of exPose)) reset
      (EigenFactorPlane.add_points exPlanePoints)).accumulatedQ_ =
      1 * EigenFactorPlane.matrixS [![0, 0, 0], ![1, 0, 0]] * (1 : Matrix (Fin 4) (Fin 4) ℚ).transpose +
      Matrix.of exPose * EigenFactorPlane.matrixS [![0, 1, 0], ![1, 1, 0]] *
        (Matrix.of exPose).transpose := by
    show (List.map _ (EigenFactorPlane.add_points exPlanePoints).planeNodes_).sum = _
    rw [exPlanePoints_nodes]
    simp [EigenFactorPlane.matrixQ, EigenFactorPlane.calculate_all_matrices_S,
      exPlanePoints_nodes, add_points_S_none, exPlanePoints_points_0, exPlanePoints_points_5]
  rw [hQ]
  constructor
  · simp only [Matrix.add_apply, Matrix.mul_apply, Matrix.transpose_apply, Fin.sum_univ_four,
      EigenFactorPlane.matrixS, List.map, List.sum_cons, List.sum_nil, Matrix.vecMulVec_apply,
      Matrix.one_apply, Matrix.of_apply, Matrix.zero_apply, add_zero, exPose]
    simp [-Matrix.cons_val']
    norm_num
  · simp only [Matrix.add_apply, Matrix.mul_apply, Matrix.transpose_apply, Fin.sum_univ_four,
      EigenFactorPlane.matrixS, List.map, List.sum_cons, List.sum_nil, Matrix.vecMulVec_apply,
      Matrix.one_apply, Matrix.of_apply, Matrix.zero_apply, add_zero, exPose]
    simp [-Matrix.cons_val']
    norm_num

/-- C20, as stated, fails in the model read from the spec when no full estimate comes
between the `add_point` calls and the pose change.  Two nodes with two points each, the
pose of node 5 changed from the identity to a quarter turn with a translation: the
incremental update only exchanges the contribution of node 5 in an accumulated `Q` that
has not been computed yet, and leaves it at zero, for every solver; the full estimate
with the changed pose accumulates a `Q` with entries 18 and 4 on the diagonal.  With the
example solver the plane errors are 0 and 18. -/
theorem incremental_without_full_estimate_counterexample :
    5 ∈ (EigenFactorPlane.add_points exPlanePoints).planeNodes_ ∧
    (∀ solver : PlaneEigenSolver ℚ,
      (EigenFactorPlane.estimate_plane_incrementally solver
        (Function.update (fun _ => 1) 5 (Matrix.of exPose)) 5
        (EigenFactorPlane.add_points exPlanePoints)).accumulatedQ_ = 0) ∧
    (∀ (solver : PlaneEigenSolver ℚ) (reset : Bool),
      (EigenFactorPlane.estimate_plane solver
        (Function.update (fun _ => 1) 5 (Matrix.of exPose)) reset
        (EigenFactorPlane.add_points exPlanePoints)).accumulatedQ_ 2 2 = 18 ∧
      (EigenFactorPlane.estimate_plane solver
        (Function.update (fun _ => 1) 5 (Matrix.of exPose)) reset
        (EigenFactorPlane.add_points exPlanePoints)).accumulatedQ_ 3 3 = 4) ∧
    (∀ (solver : PlaneEigenSolver ℚ) (reset : Bool),
      (EigenFactorPlane.estimate_plane_incrementally solver
        (Function.update (fun _ => 1) 5 (Matrix.of exPose)) 5
        (EigenFactorPlane.add_points exPlanePoints)).accumulatedQ_ ≠
      (EigenFactorPlane.estimate_plane solver
        (Function.update (fun _ => 1) 5 (Matrix.of exPose)) reset
        (EigenFactorPlane.add_points exPlanePoints)).accumulatedQ_) ∧
    (EigenFactorPlane.estimate_plane_incrementally exPlaneSolver
      (Function.update (fun _ => 1) 5 (Matrix.of exPose)) 5
      (EigenFactorPlane.add_points exPlanePoints)).planeError_ = 0 ∧
    (EigenFactorPlane.estimate_plane exPlaneSolver
      (Function.update (fun _ => 1) 5 (Matrix.of exPose)) false
      (EigenFactorPlane.add_points exPlanePoints)).planeError_ = 18 := by
  refine ⟨?_, fun solver => incremental_without_estimate solver _ _ _,
    fun solver reset => exPlanePoints_full_Q solver reset, ?_, ?_, ?_⟩
  · rw [exPlanePoints_nodes]
    decide
  · intro solver reset h
    have h33 := (exPlanePoints_full_Q solver reset).2
    rw [← h, incremental_without_estimate] at h33
    norm_num at h33
  · have h := incremental_without_estimate exPlaneSolver exPlanePoints
      (Function.update (fun _ => 1) 5 (Matrix.of exPose)) 5
    show exPlaneSolver.eigenvalue0
      (EigenFactorPlane.estimate_plane_incrementally exPlaneSolver
        (Function.update (fun _ => 1) 5 (Matrix.of exPose)) 5
        (EigenFactorPlane.add_points exPlanePoints)).accumulatedQ_ = 0
    rw [h]
    simp [exPlaneSolver]
  · exact (exPlanePoints_full_Q exPlaneSolver false).1

/-! ## The plane eigen factor: the inherited accessors -/

/-- C21. For every state of an `EigenFactorPlane`, each of `get_obs`, `get_residual`,
`get_information_matrix` and `get_jacobian` stops at its assertion, and none of them
returns a value. -/
theorem eigen_plane_accessors_are_fatal {K : Type} [Zero K] (f : EigenFactorPlane K) :
    f.get_obs = .error Err.assertion ∧
    f.get_residual = .error Err.assertion ∧
    f.get_information_matrix = .error Err.assertion ∧
    f.get_jacobian = .error Err.assertion ∧
    (∀ m, f.get_obs ≠ .ok m) ∧
    (∀ m, f.get_residual ≠ .ok m) ∧
    (∀ m, f.get_information_matrix ≠ .ok m) ∧
    (∀ m, f.get_jacobian ≠ .ok m) := by
  refine ⟨rfl, rfl, rfl, rfl, ?_, ?_, ?_, ?_⟩
  · intro m h
    cases h
  · intro m h
    cases h
  · intro m h
    cases h
  · intro m h
    cases h

/-! ## Plane fitting: the two assemblies of the homogeneous matrix -/

/-- C25. In exact arithmetic, for every array `X` with three columns: `estimate_matrix_S`
returns the matrix `Q` that `estimate_plane_homogeneous` assembles from blocks.  That
matrix is the sum over the rows of the outer product of `[x, y, z, 1]` with itself; its
top-left 3x3 block holds the entries of `X^T * X`, its last column and its last row
hold the column sums of `X`, and its bottom-right entry is the number of rows. -/
theorem homogeneous_Q_equals_matrix_S {K : Type} [Field K] (X : MatX K)
    (hcols : X.cols = 3) :
    estimate_matrix_S X = .ok (homogeneousQ X) ∧
    Matrix.of (homogeneousQ X) =
      Finset.sum (Finset.range X.rows) (fun i =>
        Matrix.vecMulVec ![X.coeff i 0, X.coeff i 1, X.coeff i 2, 1]
          ![X.coeff i 0, X.coeff i 1, X.coeff i 2, 1]) ∧
    (∀ a b : Fin 3, homogeneousQ X a.castSucc b.castSucc =
      Finset.sum (Finset.range X.rows) (fun i => X.coeff i a.val * X.coeff i b.val)) ∧
    (∀ a : Fin 3, homogeneousQ X a.castSucc 3 =
      Finset.sum (Finset.range X.rows) (fun i => X.coeff i a.val)) ∧
    (∀ a : Fin 3, homogeneousQ X 3 a.castSucc =
      Finset.sum (Finset.range X.rows) (fun i => X.coeff i a.val)) ∧
    homogeneousQ X 3 3 = (X.rows : K) := by
  have h2 : Fin.castSucc (2 : Fin 3) = (2 : Fin 4) := rfl
  refine ⟨?_, ?_, ?_, ?_, ?_, ?_⟩
  · rw [homogeneousQ_eq_gram]
    exact estimate_matrix_S_eq_gram X hcols
  · rw [homogeneousQ_eq_gram]
    exact gram_eq_sum_vecMulVec _ _
  · intro a b
    fin_cases a <;> fin_cases b <;> simp [homogeneousQ, h2]
  · intro a
    fin_cases a <;> simp [homogeneousQ, MatX.colwise_sum, h2]
  · intro a
    fin_cases a <;> simp [homogeneousQ, MatX.colwise_sum, h2]
  · simp [homogeneousQ]

/-- C25 at the four points of `exSkew`: three columns. -/
theorem homogeneous_Q_equals_matrix_S_witness :
    exSkew.cols = 3 ∧
    estimate_matrix_S exSkew = .ok (homogeneousQ exSkew) ∧
    Matrix.of (homogeneousQ exSkew) =
      Finset.sum (Finset.range exSkew.rows) (fun i =>
        Matrix.vecMulVec ![exSkew.coeff i 0, exSkew.coeff i 1, exSkew.coeff i 2, 1]
          ![exSkew.coeff i 0, exSkew.coeff i 1, exSkew.coeff i 2, 1]) ∧
    (∀ a b : Fin 3, homogeneousQ exSkew a.castSucc b.castSucc =
      Finset.sum (Finset.range exSkew.rows)
        (fun i => exSkew.coeff i a.val * exSkew.coeff i b.val)) ∧
    (∀ a : Fin 3, homogeneousQ exSkew a.castSucc 3 =
      Finset.sum (Finset.range exSkew.rows) (fun i => exSkew.coeff i a.val)) ∧
    (∀ a : Fin 3, homogeneousQ exSkew 3 a.castSucc =
      Finset.sum (Finset.range exSkew.rows) (fun i => exSkew.coeff i a.val)) ∧
    homogeneousQ exSkew 3 3 = (exSkew.rows : ℚ) :=
  ⟨rfl, homogeneous_Q_equals_matrix_S exSkew rfl⟩

/-! ## Weighted point registration: the count and the fixed point -/

theorem setCols_inside {R : Type} {w : Nat} (J : Fin 3 → Fin 9 → R) (start : Nat)
    (B : Fin 3 → Fin w → R) (a : Fin 3) (c : Fin 9) (k : Fin w)
    (h : start ≤ c.val) (hk : c.val - start = k.val) : setCols J start B a c = B a k := by
  have hw : start ≤ c.val ∧ c.val - start < w := ⟨h, by rw [hk]; exact k.isLt⟩
  rw [setCols, dif_pos hw]
  congr 1
  exact Fin.ext hk

theorem setCols_outside {R : Type} {w : Nat} (J : Fin 3 → Fin 9 → R) (start : Nat)
    (B : Fin 3 → Fin w → R) (a : Fin 3) (c : Fin 9)
    (h : ¬ (start ≤ c.val ∧ c.val - start < w)) : setCols J start B a c = J a c := by
  rw [setCols, dif_neg h]

/-- The entries that `evaluate_jacobians` leaves in `J_`, column by column. -/
theorem evaluate_jacobians_entries {R : Type} [Zero R] [One R] [Add R] [Mul R] [Neg R]
    (ops : SE3Ops R) (f : Factor1Pose1Landmark3d R ops.SE3) (a : Fin 3) (b : Fin 3) :
    (f.reversedNodeOrder_ = false →
      (f.evaluate_jacobians ops).J_ a ⟨b.val, by omega⟩ =
        Factor1Pose1Landmark3d.poseBlock ops f.Tinv_ f.landmark_ a ⟨b.val, by omega⟩ ∧
      (f.evaluate_jacobians ops).J_ a ⟨b.val + 3, by omega⟩ =
        Factor1Pose1Landmark3d.poseBlock ops f.Tinv_ f.landmark_ a ⟨b.val + 3, by omega⟩ ∧
      (f.evaluate_jacobians ops).J_ a ⟨b.val + 6, by omega⟩ = ops.rot f.Tinv_ a b) ∧
    (f.reversedNodeOrder_ = true →
      (f.evaluate_jacobians ops).J_ a ⟨b.val, by omega⟩ = ops.rot f.Tinv_ a b ∧
      (f.evaluate_jacobians ops).J_ a ⟨b.val + 3, by omega⟩ =
        Factor1Pose1Landmark3d.poseBlock ops f.Tinv_ f.landmark_ a ⟨b.val, by omega⟩ ∧
      (f.evaluate_jacobians ops).J_ a ⟨b.val + 6, by omega⟩ =
        Factor1Pose1Landmark3d.poseBlock ops f.Tinv_ f.landmark_ a ⟨b.val + 3, by omega⟩) := by
  have hb := b.isLt
  constructor
  · intro h
    simp only [Factor1Pose1Landmark3d.evaluate_jacobians, h, Bool.false_eq_true, if_false]
    refine ⟨?_, ?_, ?_⟩
    · rw [setCols_outside _ _ _ _ _ (by simp only []; omega)]
      exact setCols_inside _ _ _ _ _ _ (Nat.zero_le _) rfl
    · rw [setCols_outside _ _ _ _ _ (by simp only []; omega)]
      exact setCols_inside _ _ _ _ _ _ (Nat.zero_le _) rfl
    · exact setCols_inside _ _ _ _ _ _ (by simp only []; omega) (by simp only []; omega)
  · intro h
    simp only [Factor1Pose1Landmark3d.evaluate_jacobians, h, if_true]
    refine ⟨?_, ?_, ?_⟩
    · rw [setCols_outside _ _ _ _ _ (by simp only []; omega)]
      exact setCols_inside _ _ _ _ _ _ (Nat.zero_le _) rfl
    · exact setCols_inside _ _ _ _ _ _ (by simp only []; omega) (by simp only []; omega)
    · exact setCols_inside _ _ _ _ _ _ (by simp only []; omega) (by simp only []; omega)

/-- The reversed Jacobian is the one in the order pose, landmark with its two column
blocks exchanged. -/
theorem evaluate_jacobians_swap {R : Type} [Zero R] [One R] [Add R] [Mul R] [Neg R]
    (ops : SE3Ops R) (f : Factor1Pose1Landmark3d R ops.SE3) (a : Fin 3) (c : Fin 9) :
    (Factor1Pose1Landmark3d.evaluate_jacobians ops { f with reversedNodeOrder_ := true }).J_ a c =
      (Factor1Pose1Landmark3d.evaluate_jacobians ops { f with reversedNodeOrder_ := false }).J_ a
        (swapBlocks c) := by
  have hc := c.isLt
  by_cases h : c.val < 3
  · have e1 := ((evaluate_jacobians_entries ops { f with reversedNodeOrder_ := true } a
      ⟨c.val, h⟩).2 rfl).1
    have e2 := ((evaluate_jacobians_entries ops { f with reversedNodeOrder_ := false } a
      ⟨c.val, h⟩).1 rfl).2.2
    have hs : swapBlocks c = ⟨c.val + 6, by omega⟩ := by simp [swapBlocks, h]
    rw [hs]
    exact e1.trans e2.symm
  · by_cases h6 : c.val < 6
    · have e1 := ((evaluate_jacobians_entries ops { f with reversedNodeOrder_ := true } a
        ⟨c.val - 3, by omega⟩).2 rfl).2.1
      have e2 := ((evaluate_jacobians_entries ops { f with reversedNodeOrder_ := false } a
        ⟨c.val - 3, by omega⟩).1 rfl).1
      have hs : swapBlocks c = ⟨c.val - 3, by omega⟩ := by simp [swapBlocks, h]
      have hcc : c = ⟨c.val - 3 + 3, by omega⟩ := Fin.ext (by simp only []; omega)
      rw [hs]
      exact (congrArg (fun x => (Factor1Pose1Landmark3d.evaluate_jacobians ops
        { f with reversedNodeOrder_ := true }).J_ a x) hcc).trans (e1.trans e2.symm)
    · have e1 := ((evaluate_jacobians_entries ops { f with reversedNodeOrder_ := true } a
        ⟨c.val - 6, by omega⟩).2 rfl).2.2
      have e2 := ((evaluate_jacobians_entries ops { f with reversedNodeOrder_ := false } a
        ⟨c.val - 6, by omega⟩).1 rfl).2.1
      have hs : swapBlocks c = ⟨c.val - 6 + 3, by omega⟩ := by
        simp only [swapBlocks, h, dif_neg, not_false_eq_true]
        exact Fin.ext (by simp only []; omega)
      have hcc : c = ⟨c.val - 6 + 6, by omega⟩ := Fin.ext (by simp only []; omega)
      rw [hs]
      exact (congrArg (fun x => (Factor1Pose1Landmark3d.evaluate_jacobians ops
        { f with reversedNodeOrder_ := true }).J_ a x) hcc).trans (e1.trans e2.symm)

/-- In exact arithmetic, when the top left 3x3 block of `S.T()` is `S.R()`, the block
`(S.T() * Jr).topLeftCorner<3,6>()` is `[S.R() * hat3(l) | -S.R()]`. -/
theorem poseBlock_entries {K : Type} [Field K] (ops : SE3Ops K) (S : ops.SE3) (l : Mat31 K)
    (hmat : ∀ a b : Fin 3, ops.mat S a.castSucc b.castSucc = ops.rot S a b)
    (a b : Fin 3) :
    Factor1Pose1Landmark3d.poseBlock ops S l a ⟨b.val, by omega⟩ =
        ops.rot S a 0 * hat3 l 0 b + ops.rot S a 1 * hat3 l 1 b +
          ops.rot S a 2 * hat3 l 2 b ∧
    Factor1Pose1Landmark3d.poseBlock ops S l a ⟨b.val + 3, by omega⟩ = - ops.rot S a b := by
  have h0 := hmat a 0
  have h1 := hmat a 1
  have h2 := hmat a 2
  have c2 : Fin.castSucc (2 : Fin 3) = (2 : Fin 4) := rfl
  simp only [Fin.castSucc_zero, Fin.castSucc_one, c2] at h0 h1 h2
  have v3 : ((3 : Fin 4) : Nat) = 3 := rfl
  constructor
  · fin_cases b <;>
      simp [Factor1Pose1Landmark3d.poseBlock, sum4, Factor1Pose1Landmark3d.Jr, h0, h1, h2, v3]
  · fin_cases b <;>
      simp [Factor1Pose1Landmark3d.poseBlock, sum4, Factor1Pose1Landmark3d.Jr, h0, h1, h2, v3]

theorem withResidual_reversed {R : Type} [Sub R] (ops : SE3Ops R)
    (f : Factor1Pose1Landmark3d R ops.SE3) (T : Mat4 R) (l : Mat31 R) :
    (withResidual ops f T l).reversedNodeOrder_ = f.reversedNodeOrder_ := rfl

theorem new_neighbours {R S : Type} (nodeAt : Nat → Node R)
    (storage : Factor1Pose1Landmark3d R S) (observation : Mat31 R)
    (nodePose nodeLandmark : Nat) (obsInf : Mat3 R) (init : Bool) (robust_type : Nat) :
    (Factor1Pose1Landmark3d.new nodeAt storage observation nodePose nodeLandmark obsInf
      init robust_type).neighbourNodes_ =
      if (nodeAt nodePose).get_id < (nodeAt nodeLandmark).get_id then [nodePose, nodeLandmark]
      else [nodeLandmark, nodePose] := by
  unfold Factor1Pose1Landmark3d.new
  split_ifs <;> rfl

theorem rigidOps_mat_rot {K : Type} [Field K] (S : (rigidOps K).SE3) (a b : Fin 3) :
    (rigidOps K).mat S a.castSucc b.castSucc = (rigidOps K).rot S a b := by
  fin_cases a <;> fin_cases b <;> rfl

theorem rigidOps_rot_inv {K : Type} [Field K] (T : Mat4 K) (a b : Fin 3) :
    (rigidOps K).rot ((rigidOps K).inv ((rigidOps K).ofMat4 T)) a b =
      T b.castSucc a.castSucc := by
  fin_cases a <;> fin_cases b <;> rfl

/-- C22. In exact arithmetic, with `SE3::R` returning the top left 3x3 block of `SE3::T`
and the inverse of the pose having the transposed rotation block `R^T` of the pose: when
the node passed as `nodePose` holds the pose `T` and the node passed as `nodeLandmark`
holds the landmark `l`, `evaluate_residuals` returns on the constructed factor and
`evaluate_jacobians` then fills the 3x9 Jacobian in the order of the neighbour list.
With the pose first, columns 0-5 hold the first three rows of `inverse(T)` times
`[hat3(l) | -I]`, that is `R^T * hat3(l)` in columns 0-2 and `-R^T` in columns 3-5, and
columns 6-8 hold `R^T`.  With the landmark first, columns 0-2 hold `R^T` and columns 3-8
hold the same 3x6 block.  The Jacobian of the reversed order is the other one with its
two column blocks exchanged. -/
theorem jacobian_blocks_follow_neighbour_order {K : Type} [Field K] (ops : SE3Ops K)
    (nodeAt : Nat → Node K) (storage : Factor1Pose1Landmark3d K ops.SE3)
    (observation : Mat31 K) (nodePose nodeLandmark : Nat) (obsInf : Mat3 K) (init : Bool)
    (robust_type : Nat) (T : Mat4 K) (l : Mat31 K)
    (hT : (nodeAt nodePose).get_state.toMat4 = .ok T)
    (hl : (nodeAt nodeLandmark).get_state.toMat31 = .ok l)
    (hmat : ∀ a b : Fin 3,
      ops.mat (ops.inv (ops.ofMat4 T)) a.castSucc b.castSucc =
        ops.rot (ops.inv (ops.ofMat4 T)) a b)
    (hrot : ∀ a b : Fin 3,
      ops.rot (ops.inv (ops.ofMat4 T)) a b = T b.castSucc a.castSucc) :
    ∃ f,
      Factor1Pose1Landmark3d.evaluate_residuals ops nodeAt
          (Factor1Pose1Landmark3d.new nodeAt storage observation nodePose nodeLandmark obsInf
            init robust_type) = .ok f ∧
      ((nodeAt nodePose).get_id < (nodeAt nodeLandmark).get_id →
        f.neighbourNodes_ = [nodePose, nodeLandmark] ∧
        (∀ (a : Fin 3) (k : Fin 6),
          (f.evaluate_jacobians ops).J_ a ⟨k.val, by omega⟩ =
            Factor1Pose1Landmark3d.poseBlock ops (ops.inv (ops.ofMat4 T)) l a k) ∧
        ∀ a b : Fin 3,
          (f.evaluate_jacobians ops).J_ a ⟨b.val, by omega⟩ =
            T 0 a.castSucc * hat3 l 0 b + T 1 a.castSucc * hat3 l 1 b +
              T 2 a.castSucc * hat3 l 2 b ∧
          (f.evaluate_jacobians ops).J_ a ⟨b.val + 3, by omega⟩ = - T b.castSucc a.castSucc ∧
          (f.evaluate_jacobians ops).J_ a ⟨b.val + 6, by omega⟩ = T b.castSucc a.castSucc) ∧
      (¬ (nodeAt nodePose).get_id < (nodeAt nodeLandmark).get_id →
        f.neighbourNodes_ = [nodeLandmark, nodePose] ∧
        (∀ (a : Fin 3) (k : Fin 6),
          (f.evaluate_jacobians ops).J_ a ⟨k.val + 3, by omega⟩ =
            Factor1Pose1Landmark3d.poseBlock ops (ops.inv (ops.ofMat4 T)) l a k) ∧
        ∀ a b : Fin 3,
          (f.evaluate_jacobians ops).J_ a ⟨b.val, by omega⟩ = T b.castSucc a.castSucc ∧
          (f.evaluate_jacobians ops).J_ a ⟨b.val + 3, by omega⟩ =
            T 0 a.castSucc * hat3 l 0 b + T 1 a.castSucc * hat3 l 1 b +
              T 2 a.castSucc * hat3 l 2 b ∧
          (f.evaluate_jacobians ops).J_ a ⟨b.val + 6, by omega⟩ = - T b.castSucc a.castSucc) ∧
      ∀ (a : Fin 3) (c : Fin 9),
        (Factor1Pose1Landmark3d.evaluate_jacobians ops
            { f with reversedNodeOrder_ := true }).J_ a c =
          (Factor1Pose1Landmark3d.evaluate_jacobians ops
            { f with reversedNodeOrder_ := false }).J_ a (swapBlocks c) := by
  have c2 : Fin.castSucc (2 : Fin 3) = (2 : Fin 4) := rfl
  have hr0 := fun a => hrot a 0
  have hr1 := fun a => hrot a 1
  have hr2 := fun a => hrot a 2
  simp only [Fin.castSucc_zero, Fin.castSucc_one, c2] at hr0 hr1 hr2
  refine ⟨_, evaluate_residuals_new ops nodeAt storage observation nodePose nodeLandmark
    obsInf init robust_type T l hT hl, ?_, ?_, fun a c => evaluate_jacobians_swap ops _ a c⟩
  · intro h
    have hflag : (withResidual ops (Factor1Pose1Landmark3d.new nodeAt storage observation
        nodePose nodeLandmark obsInf init robust_type) T l).reversedNodeOrder_ = false := by
      rw [withResidual_reversed, new_reversed]
      simp [h]
    refine ⟨?_, ?_, ?_⟩
    · show (Factor1Pose1Landmark3d.new nodeAt storage observation nodePose nodeLandmark obsInf
        init robust_type).neighbourNodes_ = _
      rw [new_neighbours, if_pos h]
    · intro a k
      have hk := k.isLt
      by_cases h3 : k.val < 3
      · exact ((evaluate_jacobians_entries ops _ a ⟨k.val, h3⟩).1 hflag).1
      · have e := ((evaluate_jacobians_entries ops _ a ⟨k.val - 3, by omega⟩).1 hflag).2.1
        have hkk : k = ⟨k.val - 3 + 3, by omega⟩ := Fin.ext (by simp only []; omega)
        refine Eq.trans ?_ (e.trans ?_)
        · congr 1
          exact Fin.ext (by simp only []; omega)
        · exact congrArg _ hkk.symm
    · intro a b
      obtain ⟨e1, e2, e3⟩ := (evaluate_jacobians_entries ops _ a b).1 hflag
      obtain ⟨p1, p2⟩ := poseBlock_entries ops (ops.inv (ops.ofMat4 T)) l hmat a b
      refine ⟨?_, ?_, ?_⟩
      · rw [e1]
        show Factor1Pose1Landmark3d.poseBlock ops (ops.inv (ops.ofMat4 T)) l a _ = _
        rw [p1, hr0, hr1, hr2]
      · rw [e2]
        show Factor1Pose1Landmark3d.poseBlock ops (ops.inv (ops.ofMat4 T)) l a _ = _
        rw [p2, hrot]
      · rw [e3]
        exact hrot a b
  · intro h
    have hflag : (withResidual ops (Factor1Pose1Landmark3d.new nodeAt storage observation
        nodePose nodeLandmark obsInf init robust_type) T l).reversedNodeOrder_ = true := by
      rw [withResidual_reversed, new_reversed]
      simp [h]
    refine ⟨?_, ?_, ?_⟩
    · show (Factor1Pose1Landmark3d.new nodeAt storage observation nodePose nodeLandmark obsInf
        init robust_type).neighbourNodes_ = _
      rw [new_neighbours, if_neg h]
    · intro a k
      have hk := k.isLt
      by_cases h3 : k.val < 3
      · exact ((evaluate_jacobians_entries ops _ a ⟨k.val, h3⟩).2 hflag).2.1
      · have e := ((evaluate_jacobians_entries ops _ a ⟨k.val - 3, by omega⟩).2 hflag).2.2
        have hkk : k = ⟨k.val - 3 + 3, by omega⟩ := Fin.ext (by simp only []; omega)
        refine Eq.trans ?_ (e.trans ?_)
        · congr 1
          exact Fin.ext (by simp only []; omega)
        · exact congrArg _ hkk.symm
    · intro a b
      obtain ⟨e1, e2, e3⟩ := (evaluate_jacobians_entries ops _ a b).2 hflag
      obtain ⟨p1, p2⟩ := poseBlock_entries ops (ops.inv (ops.ofMat4 T)) l hmat a b
      refine ⟨?_, ?_, ?_⟩
      · rw [e1]
        exact hrot a b
      · rw [e2]
        show Factor1Pose1Landmark3d.poseBlock ops (ops.inv (ops.ofMat4 T)) l a _ = _
        rw [p1, hr0, hr1, hr2]
      · rw [e3]
        show Factor1Pose1Landmark3d.poseBlock ops (ops.inv (ops.ofMat4 T)) l a _ = _
        rw [p2, hrot]

/-- C22 at the example, in the reversed construction (identities 5 and 2). -/
theorem jacobian_blocks_follow_neighbour_order_witness :
    ((exFactorNodes 5 2) 0).get_state.toMat4 = .ok exPose ∧
    ((exFactorNodes 5 2) 1).get_state.toMat31 = .ok exLandmark ∧
    (∀ a b : Fin 3,
      (rigidOps ℚ).mat ((rigidOps ℚ).inv ((rigidOps ℚ).ofMat4 exPose)) a.castSucc b.castSucc =
        (rigidOps ℚ).rot ((rigidOps ℚ).inv ((rigidOps ℚ).ofMat4 exPose)) a b) ∧
    (∀ a b : Fin 3,
      (rigidOps ℚ).rot ((rigidOps ℚ).inv ((rigidOps ℚ).ofMat4 exPose)) a b =
        exPose b.castSucc a.castSucc) ∧
    ∃ f,
      Factor1Pose1Landmark3d.evaluate_residuals (rigidOps ℚ) (exFactorNodes 5 2)
          (Factor1Pose1Landmark3d.new (exFactorNodes 5 2) exStorage exObs 0 1 exW
            false 0) = .ok f ∧
      (((exFactorNodes 5 2) 0).get_id < ((exFactorNodes 5 2) 1).get_id →
        f.neighbourNodes_ = [0, 1] ∧
        (∀ (a : Fin 3) (k : Fin 6),
          (f.evaluate_jacobians (rigidOps ℚ)).J_ a ⟨k.val, by omega⟩ =
            Factor1Pose1Landmark3d.poseBlock (rigidOps ℚ)
              ((rigidOps ℚ).inv ((rigidOps ℚ).ofMat4 exPose)) exLandmark a k) ∧
        ∀ a b : Fin 3,
          (f.evaluate_jacobians (rigidOps ℚ)).J_ a ⟨b.val, by omega⟩ =
            exPose 0 a.castSucc * hat3 exLandmark 0 b +
              exPose 1 a.castSucc * hat3 exLandmark 1 b +
              exPose 2 a.castSucc * hat3 exLandmark 2 b ∧
          (f.evaluate_jacobians (rigidOps ℚ)).J_ a ⟨b.val + 3, by omega⟩ =
            - exPose b.castSucc a.castSucc ∧
          (f.evaluate_jacobians (rigidOps ℚ)).J_ a ⟨b.val + 6, by omega⟩ =
            exPose b.castSucc a.castSucc) ∧
      (¬ ((exFactorNodes 5 2) 0).get_id < ((exFactorNodes 5 2) 1).get_id →
        f.neighbourNodes_ = [1, 0] ∧
        (∀ (a : Fin 3) (k : Fin 6),
          (f.evaluate_jacobians (rigidOps ℚ)).J_ a ⟨k.val + 3, by omega⟩ =
            Factor1Pose1Landmark3d.poseBlock (rigidOps ℚ)
              ((rigidOps ℚ).inv ((rigidOps ℚ).ofMat4 exPose)) exLandmark a k) ∧
        ∀ a b : Fin 3,
          (f.evaluate_jacobians (rigidOps ℚ)).J_ a ⟨b.val, by omega⟩ =
            exPose b.castSucc a.castSucc ∧
          (f.evaluate_jacobians (rigidOps ℚ)).J_ a ⟨b.val + 3, by omega⟩ =
            exPose 0 a.castSucc * hat3 exLandmark 0 b +
              exPose 1 a.castSucc * hat3 exLandmark 1 b +
              exPose 2 a.castSucc * hat3 exLandmark 2 b ∧
          (f.evaluate_jacobians (rigidOps ℚ)).J_ a ⟨b.val + 6, by omega⟩ =
            - exPose b.castSucc a.castSucc) ∧
      ∀ (a : Fin 3) (c : Fin 9),
        (Factor1Pose1Landmark3d.evaluate_jacobians (rigidOps ℚ)
            { f with reversedNodeOrder_ := true }).J_ a c =
          (Factor1Pose1Landmark3d.evaluate_jacobians (rigidOps ℚ)
            { f with reversedNodeOrder_ := false }).J_ a (swapBlocks c) :=
  ⟨MatX.toMat4_ofMat4 _ _, MatX.toMat31_ofMat31 _ _,
    fun a b => rigidOps_mat_rot _ a b, fun a b => rigidOps_rot_inv exPose a b,
    jacobian_blocks_follow_neighbour_order (rigidOps ℚ) (exFactorNodes 5 2) exStorage
      exObs 0 1 exW false 0 exPose exLandmark (MatX.toMat4_ofMat4 _ _)
      (MatX.toMat31_ofMat31 _ _) (fun a b => rigidOps_mat_rot _ a b)
      (fun a b => rigidOps_rot_inv exPose a b)⟩

end mrob
